import Mathlib

/-!
# The accident-record Parser of `src/services/Parser.js`

A shallow embedding of the four stages of the Parser class
(`performLexicalAnalysis`, `performSyntacticAnalysis`,
`performSemanticAnalysis`, `generateReport`) with the rule tables they use,
followed by the theorems that settle the claims of the specification.

Modelling conventions.

* A JavaScript object is the list of its own enumerable properties in the
  order `Object.entries` lists them (array-index keys in ascending order, the
  other keys in insertion order).  Values of CSV records are strings.
* Row numbers and counts (array indexes and array lengths, all below
  `2 ^ 32`) are mathematical integers.  The values of `parseInt` and the sum
  of casualties are doubles: an `IntegralNumber` holds the exact value of the
  double, and a sum is the exact sum rounded to the nearest double.
* The built-ins whose result depends on Unicode tables, on the engine or on
  floating point (`toLowerCase`, `Date.parse`, `Number` on strings, the text
  of a built-in function) are the fields of a `Host`; the fields are
  constrained only where ECMA-262 fixes their value, and `refHost` is one
  executable host.  The moment of analysis `now` (the value of `new Date()`)
  is an explicit parameter in milliseconds since the epoch.
* A thrown `TypeError` is the result `none`.
-/

namespace Accidentes

/-! ## Strings -/

/-- White space and line terminators of ECMAScript: the code points that
`String.prototype.trim` removes and that `parseInt` skips. -/
def isJSWhiteSpace (c : Char) : Bool :=
  [9, 10, 11, 12, 13, 32, 160, 5760, 8232, 8233, 8239, 8287, 12288, 65279].contains c.toNat
    || (8192 ≤ c.toNat && c.toNat ≤ 8202)

/-- The method `String.prototype.trim`. -/
def jsTrim (s : String) : String :=
  String.mk ((s.data.dropWhile isJSWhiteSpace).reverse.dropWhile isJSWhiteSpace).reverse

/-- Lower-casing of the letters `A` to `Z`, every other character kept. -/
def asciiLowerCase (s : String) : String :=
  String.mk (s.data.map Char.toLower)

/-- Splitting of a character list at every occurrence of a separator
character; the result of `split` is never empty. -/
def splitChars (sep : Char) : List Char → List (List Char)
  | [] => [[]]
  | c :: cs =>
    if c = sep then [] :: splitChars sep cs
    else
      match splitChars sep cs with
      | [] => [[c]]
      | p :: ps => (c :: p) :: ps

/-- The call `s.split(sep)` for a one-character separator. -/
def jsSplit (s : String) (sep : Char) : List String :=
  (splitChars sep s.data).map String.mk

/-- Value of a list of decimal digits, most significant first. -/
def digitsValue (cs : List Char) : Nat :=
  cs.foldl (fun acc c => 10 * acc + (c.toNat - 48)) 0

/-- A string of one to fifteen decimal digits, read as a decimal numeral; such
a value is an exact double. -/
def decimalLiteral (s : String) : Option Nat :=
  if s.data ≠ [] ∧ s.data.all Char.isDigit ∧ s.data.length ≤ 15 then some (digitsValue s.data)
  else none

/-! ## Numbers -/

/-- A JavaScript number, by the exact value of the double. -/
inductive JSNumber where
  | nan
  | negInf
  | finite (q : ℚ)
  | posInf
  deriving DecidableEq

namespace JSNumber

/-- The comparison `x >= k` against a finite constant. -/
def ge (x : JSNumber) (k : ℚ) : Bool :=
  match x with
  | nan => false
  | negInf => false
  | finite q => decide (k ≤ q)
  | posInf => true

/-- The comparison `x <= k` against a finite constant. -/
def le (x : JSNumber) (k : ℚ) : Bool :=
  match x with
  | nan => false
  | negInf => true
  | finite q => decide (q ≤ k)
  | posInf => false

/-- The comparison `x < k` against a finite constant. -/
def lt (x : JSNumber) (k : ℚ) : Bool :=
  match x with
  | nan => false
  | negInf => true
  | finite q => decide (q < k)
  | posInf => false

end JSNumber

/-- Value of a digit of radix 16 (also used for radix 10), none for any other
character. -/
def radixDigit (c : Char) : Option Nat :=
  if c.isDigit then some (c.toNat - 48)
  else if 97 ≤ c.toNat ∧ c.toNat ≤ 102 then some (c.toNat - 87)
  else if 65 ≤ c.toNat ∧ c.toNat ≤ 70 then some (c.toNat - 55)
  else none

/-- Is the character a digit of the given radix (10 or 16). -/
def isRadixDigit (radix : Nat) (c : Char) : Bool :=
  match radixDigit c with
  | some d => decide (d < radix)
  | none => false

/-- Value of a list of digits of the given radix. -/
def radixValue (radix : Nat) (cs : List Char) : Nat :=
  cs.foldl (fun acc c => radix * acc + (radixDigit c).getD 0) 0

/-- The mathematical integer that the global function `parseInt` reads in a
string (no radix argument): leading white space is skipped, a sign is read,
the prefix `0x` or `0X` selects radix 16, and the longest run of digits is the
value; `none` when there is no digit, where `parseInt` returns `NaN`. -/
def parseIntString (s : String) : Option Int :=
  let t := s.data.dropWhile isJSWhiteSpace
  let negative := t.head? = some '-'
  let t := if t.head? = some '-' ∨ t.head? = some '+' then t.drop 1 else t
  let hex := t.take 2 = ['0', 'x'] ∨ t.take 2 = ['0', 'X']
  let radix := if hex then 16 else 10
  let t := if hex then t.drop 2 else t
  let z := t.takeWhile (isRadixDigit radix)
  if z = [] then none
  else some (if negative then -(radixValue radix z : Int) else (radixValue radix z : Int))

/-- A JavaScript number whose value is an integer, an infinity or `NaN`, by
the exact value of the double: the results of `parseInt` and the sums of such
results.  The two zeros are one value; the program does not tell them
apart. -/
inductive IntegralNumber where
  | nan
  | negInf
  | finite (n : Int)
  | posInf
  deriving DecidableEq

/-- The largest integer `n` such that `n` and `n + 1` are both doubles,
`Number.MAX_SAFE_INTEGER`, which is `2 ^ 53 - 1`. -/
def maxSafeInteger : Nat := 9007199254740991

/-- The double nearest to a natural number, ties to the even significand: a
number of at most 53 binary digits is a double; of a longer number the 53
leading binary digits are kept and rounded by the digits that are dropped.  A
result of `2 ^ 1024` or more is beyond the finite doubles. -/
def nearestDouble (n : Nat) : Nat :=
  let e := n.size - 53
  let q := n / 2 ^ e
  let r := n % 2 ^ e
  if 2 ^ e < 2 * r ∨ (2 * r = 2 ^ e ∧ q % 2 = 1) then (q + 1) * 2 ^ e else q * 2 ^ e

/-- The Number value for a mathematical integer: the nearest double, an
infinity when the rounded magnitude overflows. -/
def toDouble (n : Int) : IntegralNumber :=
  let m := nearestDouble n.natAbs
  if 2 ^ 1024 ≤ m then (if n < 0 then IntegralNumber.negInf else IntegralNumber.posInf)
  else IntegralNumber.finite (if n < 0 then -(m : Int) else m)

/-- The sum `x + y` of two such numbers: `NaN` when an operand is `NaN` or
the operands are opposite infinities, else the infinity among the operands,
else the exact sum rounded to the nearest double. -/
def IntegralNumber.add : IntegralNumber → IntegralNumber → IntegralNumber
  | IntegralNumber.nan, _ => IntegralNumber.nan
  | _, IntegralNumber.nan => IntegralNumber.nan
  | IntegralNumber.posInf, IntegralNumber.negInf => IntegralNumber.nan
  | IntegralNumber.negInf, IntegralNumber.posInf => IntegralNumber.nan
  | IntegralNumber.posInf, _ => IntegralNumber.posInf
  | _, IntegralNumber.posInf => IntegralNumber.posInf
  | IntegralNumber.negInf, _ => IntegralNumber.negInf
  | _, IntegralNumber.negInf => IntegralNumber.negInf
  | IntegralNumber.finite a, IntegralNumber.finite b => toDouble (a + b)

/-- The expression `x || 0` for such a number: `NaN` and zero are falsy and
give 0, every other number is kept. -/
def orZero : IntegralNumber → IntegralNumber
  | IntegralNumber.nan => IntegralNumber.finite 0
  | IntegralNumber.finite 0 => IntegralNumber.finite 0
  | x => x

/-- The call `parseInt(v)` where `v` is a string or `undefined`; `undefined`
is first converted to the string `"undefined"`.  The result is the Number
value for the integer that is read.  (For a decimal numeral of more than 20
significant digits ECMA-262 also allows an engine to read the digits after the
20th as zeros; here every digit is read.) -/
def parseInt (v : Option String) : IntegralNumber :=
  match parseIntString (v.getD "undefined") with
  | some n => toDouble n
  | none => IntegralNumber.nan

/-! ## Dates -/

/-- Number of days of a month of the proleptic Gregorian calendar. -/
def daysInMonth (year month : Nat) : Nat :=
  if month = 2 then
    (if year % 4 = 0 ∧ (year % 100 ≠ 0 ∨ year % 400 = 0) then 29 else 28)
  else if month = 4 ∨ month = 6 ∨ month = 9 ∨ month = 11 then 30
  else 31

/-- Days from 1970-01-01 to the given civil date. -/
def daysFromCivil (year month day : Nat) : Int :=
  let y : Int := if month ≤ 2 then (year : Int) - 1 else year
  let era : Int := y / 400
  let yoe : Int := y - era * 400
  let mp : Int := if month ≤ 2 then (month : Int) + 9 else (month : Int) - 3
  let doy : Int := (153 * mp + 2) / 5 + day - 1
  let doe : Int := yoe * 365 + yoe / 4 - yoe / 100 + doy
  era * 146097 + doe - 719468

/-- The date-only form `YYYY-MM-DD` of the ECMAScript date-time string format,
for a date that exists in the calendar: its time value, at midnight UTC, in
milliseconds.  Every other string gives `none` here. -/
def isoDateOnly (s : String) : Option Int :=
  match s.data with
  | [y1, y2, y3, y4, '-', m1, m2, '-', d1, d2] =>
    if [y1, y2, y3, y4, m1, m2, d1, d2].all Char.isDigit then
      let year := digitsValue [y1, y2, y3, y4]
      let month := digitsValue [m1, m2]
      let day := digitsValue [d1, d2]
      if 1 ≤ month ∧ month ≤ 12 ∧ 1 ≤ day ∧ day ≤ daysInMonth year month then
        some (daysFromCivil year month day * 86400000)
      else none
    else none
  | _ => none

/-! ## The host -/

/-- The built-ins of the JavaScript engine that the Parser calls and whose
result is fixed by Unicode tables, by the engine or by floating point:
`String.prototype.toLowerCase`, `Date.parse` (`none` is an invalid date, else
the time value in milliseconds), `Number` applied to a string, and the text of
an inherited member of `Object.prototype`.  The three laws are the cases in
which ECMA-262 fixes the result. -/
structure Host where
  toLowerCase : String → String
  dateParse : String → Option Int
  toNumber : String → JSNumber
  memberText : String → String
  toLowerCase_ascii : ∀ s : String, (∀ c ∈ s.data, c.toNat < 128) →
    toLowerCase s = asciiLowerCase s
  dateParse_iso : ∀ (s : String) (t : Int), isoDateOnly s = some t → dateParse s = some t
  toNumber_decimal : ∀ (s : String) (n : Nat), decimalLiteral s = some n →
    toNumber s = JSNumber.finite n

/-- An executable host: ASCII lower-casing, date-only ISO dates, decimal
numerals. -/
def refHost : Host where
  toLowerCase := asciiLowerCase
  dateParse := isoDateOnly
  toNumber := fun s =>
    match decimalLiteral s with
    | some n => JSNumber.finite n
    | none => JSNumber.nan
  memberText := fun name => "[" ++ name ++ "]"
  toLowerCase_ascii := fun _ _ => rfl
  dateParse_iso := fun _ _ h => h
  toNumber_decimal := fun s n h => by simp [h]

/-! ## Objects -/

/-- An object created by a literal, by its own enumerable properties in the
order of `Object.entries`. -/
abbrev JSObject (α : Type) := List (String × α)

/-- A CSV record: field name to raw value. -/
abbrev Row := JSObject String

/-- Names of the members every plain object inherits from
`Object.prototype`. -/
def objectPrototypeMembers : List String :=
  ["constructor", "__defineGetter__", "__defineSetter__", "hasOwnProperty",
   "__lookupGetter__", "__lookupSetter__", "isPrototypeOf", "propertyIsEnumerable",
   "toString", "valueOf", "__proto__", "toLocaleString"]

/-- An array index: the canonical decimal numeral of an integer below
`2 ^ 32 - 1`; such keys are listed first, in ascending order. -/
def arrayIndex (k : String) : Option Nat :=
  if k.data ≠ [] ∧ k.data.all Char.isDigit ∧ (k.data.head? ≠ some '0' ∨ k.data.length = 1)
      ∧ digitsValue k.data < 4294967295 then
    some (digitsValue k.data)
  else none

/-- Creation of a new own property at its place in the property order. -/
def insertProperty {α : Type} (k : String) (v : α) : JSObject α → JSObject α
  | [] => [(k, v)]
  | (k', v') :: rest =>
    match arrayIndex k, arrayIndex k' with
    | some n, some n' =>
      if n < n' then (k, v) :: (k', v') :: rest else (k', v') :: insertProperty k v rest
    | some _, none => (k, v) :: (k', v') :: rest
    | none, _ => (k', v') :: insertProperty k v rest

/-- Replacement of the value of an existing own property, in place. -/
def replaceProperty {α : Type} (k : String) (v : α) : JSObject α → JSObject α
  | [] => []
  | (k', v') :: rest =>
    if k' = k then (k, v) :: rest else (k', v') :: replaceProperty k v rest

/-- The assignment `obj[k] = v` of a string or a number to a plain object:
the key `__proto__` reaches the inherited setter, which ignores a value that
is not an object; an existing own property keeps its place. -/
def setProperty {α : Type} (obj : JSObject α) (k : String) (v : α) : JSObject α :=
  if k = "__proto__" then obj
  else if (obj.lookup k).isSome then replaceProperty k v obj
  else insertProperty k v obj

/-- The read `row.k` for a key that `Object.prototype` does not define:
the own value, or `undefined`. -/
def getField (row : Row) (k : String) : Option String :=
  row.lookup k

/-- Truthiness of a string-or-undefined value: defined and not empty. -/
def truthy (v : Option String) : Bool :=
  match v with
  | some s => s != ""
  | none => false

/-! ## Tokens and the rule tables -/

namespace TOKEN_TYPES
def ACCIDENT_ID : String := "id"
def DATE : String := "fecha"
def TIME : String := "hora"
def LOCATION : String := "ubicacion"
def VEHICLE_TYPE : String := "tipo_vehiculo"
def SEVERITY : String := "gravedad"
def CASUALTIES : String := "victimas"
def WEATHER_CONDITION : String := "condicion_climatica"
def ROAD_CONDITION : String := "condicion_via"
def DRIVER_AGE : String := "edad_conductor"
def ALCOHOL_INVOLVED : String := "alcohol_involucrado"
def SPEEDING_INVOLVED : String := "exceso_velocidad"
end TOKEN_TYPES

/-- The table from field name to token type. -/
def FIELD_TO_TOKEN_MAP : JSObject String :=
  [("id", TOKEN_TYPES.ACCIDENT_ID),
   ("fecha", TOKEN_TYPES.DATE),
   ("hora", TOKEN_TYPES.TIME),
   ("ubicacion", TOKEN_TYPES.LOCATION),
   ("tipo_vehiculo", TOKEN_TYPES.VEHICLE_TYPE),
   ("gravedad", TOKEN_TYPES.SEVERITY),
   ("victimas", TOKEN_TYPES.CASUALTIES),
   ("condicion_climatica", TOKEN_TYPES.WEATHER_CONDITION),
   ("condicion_via", TOKEN_TYPES.ROAD_CONDITION),
   ("edad_conductor", TOKEN_TYPES.DRIVER_AGE),
   ("alcohol_involucrado", TOKEN_TYPES.ALCOHOL_INVOLVED),
   ("exceso_velocidad", TOKEN_TYPES.SPEEDING_INVOLVED)]

/-- The value of the `type` property of a token: a string, or the member of
`Object.prototype` that the table lookup reaches for a field name such as
`constructor`. -/
inductive TokenType where
  | text (s : String)
  | inherited (member : String)
  deriving DecidableEq

/-- The expression `FIELD_TO_TOKEN_MAP[normalizedKey] || 'UNKNOWN'`. -/
def tokenTypeOf (normalizedKey : String) : TokenType :=
  match FIELD_TO_TOKEN_MAP.lookup normalizedKey with
  | some t => TokenType.text t
  | none =>
    if objectPrototypeMembers.contains normalizedKey then TokenType.inherited normalizedKey
    else TokenType.text "UNKNOWN"

/-- A token of the lexical analysis. -/
structure Token where
  name : String
  type : TokenType
  value : String
  row : Nat
  position : Nat
  deriving DecidableEq

/-- A pattern rule: the test of the regular expression and the message. -/
structure SyntacticRule where
  pattern : String → Bool
  message : String

/-- The pattern `/^ACC-\d{4}-\d{6}$/`. -/
def patternAccidentId (s : String) : Bool :=
  match s.data with
  | ['A', 'C', 'C', '-', a, b, c, d, '-', e, f, g, h, i, j] =>
    [a, b, c, d, e, f, g, h, i, j].all Char.isDigit
  | _ => false

/-- The pattern `/^\d{4}-\d{2}-\d{2}$/`. -/
def patternDate (s : String) : Bool :=
  match s.data with
  | [a, b, c, d, '-', e, f, '-', g, h] => [a, b, c, d, e, f, g, h].all Char.isDigit
  | _ => false

/-- The pattern `/^\d{2}:\d{2}$/`. -/
def patternTime (s : String) : Bool :=
  match s.data with
  | [a, b, ':', c, d] => [a, b, c, d].all Char.isDigit
  | _ => false

/-- The pattern `/^\d{1,3}$/`. -/
def patternDriverAge (s : String) : Bool :=
  decide (1 ≤ s.data.length) && decide (s.data.length ≤ 3) && s.data.all Char.isDigit

/-- The pattern `/^\d+$/`. -/
def patternCasualties (s : String) : Bool :=
  decide (1 ≤ s.data.length) && s.data.all Char.isDigit

/-- The pattern `/^(si|no|true|false|1|0)$/i`; without the `u` flag the
case-insensitive match of an ASCII letter accepts its two ASCII cases only. -/
def patternFlag (s : String) : Bool :=
  ["si", "no", "true", "false", "1", "0"].contains (asciiLowerCase s)

/-- The table of pattern rules, by its own keys. -/
def SYNTACTIC_RULES : JSObject SyntacticRule :=
  [("ACCIDENT_ID", ⟨patternAccidentId, "ID del accidente debe tener formato ACC-YYYY-XXXXXX"⟩),
   ("DATE", ⟨patternDate, "La fecha debe tener formato YYYY-MM-DD"⟩),
   ("TIME", ⟨patternTime, "La hora debe tener formato HH:MM"⟩),
   ("DRIVER_AGE", ⟨patternDriverAge, "La edad del conductor debe ser un número entre 1 y 999"⟩),
   ("CASUALTIES", ⟨patternCasualties, "El número de víctimas debe ser un numero entero"⟩),
   ("ALCOHOL_INVOLVED", ⟨patternFlag, "Alcohol involucrado debe ser si/no, true/false, o 1/0"⟩),
   ("SPEEDING_INVOLVED", ⟨patternFlag, "Exceso de velocidad debe ser si/no, true/false, o 1/0"⟩)]

/-- Outcome of the read `SYNTACTIC_RULES[token.type]`. -/
inductive RuleLookup where
  | undefined
  | rule (r : SyntacticRule)
  | inheritedMember

/-- The read `SYNTACTIC_RULES[type]`: an own rule, a member inherited from
`Object.prototype` (an object without a `pattern`), or `undefined`.  A type
that is itself a function or an object is converted to a key that names no
property. -/
def lookupRule (type : TokenType) : RuleLookup :=
  match type with
  | TokenType.inherited _ => RuleLookup.undefined
  | TokenType.text s =>
    match SYNTACTIC_RULES.lookup s with
    | some r => RuleLookup.rule r
    | none =>
      if objectPrototypeMembers.contains s then RuleLookup.inheritedMember
      else RuleLookup.undefined

/-! ## The Parser -/

/-- An entry of an error list: a format error `{row, column, message, value}`
of the syntactic analysis or a coherence error `{row, field, message, value}`
of the semantic analysis. -/
inductive ErrorEntry where
  | format (row : Nat) (column message value : String)
  | coherence (row : Nat) (field message value : String)
  deriving DecidableEq

/-- The `row` property of an error entry. -/
def ErrorEntry.row : ErrorEntry → Nat
  | ErrorEntry.format row _ _ _ => row
  | ErrorEntry.coherence row _ _ _ => row

/-- The entries of a `Map` with string keys, in insertion order. -/
abbrev JSMap (α : Type) := List (String × α)

/-- The method `Map.prototype.set`: the value of an existing key is replaced
in place, a new key is appended. -/
def JSMap.set {α : Type} (m : JSMap α) (k : String) (v : α) : JSMap α :=
  if (m.lookup k).isSome then replaceProperty k v m else m ++ [(k, v)]

/-- An instance of the class: the records given to the constructor and the
symbol table. -/
structure Parser where
  csvData : List Row
  symbolTable : JSMap Row

/-- The constructor: the symbol table starts empty. -/
def Parser.create (csvData : List Row) : Parser :=
  { csvData := csvData, symbolTable := [] }

/-- The result `{ tokens }` of the lexical analysis. -/
structure LexicalResult where
  tokens : List Token

/-- The result `{ isValid, errors, validatedRows }` of the syntactic
analysis. -/
structure SyntacticResult where
  isValid : Bool
  errors : List ErrorEntry
  validatedRows : List Row

/-- The result of the semantic analysis: `{ isValid, errors, message }` on the
short circuit, `{ isValid, errors, validRows, symbolTable }` otherwise; an
absent property is `none`. -/
structure SemanticResult where
  isValid : Bool
  errors : List ErrorEntry
  message : Option String
  validRows : Option (List Row)
  symbolTable : Option (JSMap Row)

/-- The tokens of one record, one per field in field order. -/
def rowTokens (H : Host) (rowIndex : Nat) (row : Row) : List Token :=
  row.map fun entry =>
    { name := entry.1
      type := tokenTypeOf (H.toLowerCase (jsTrim entry.1))
      value := entry.2
      row := rowIndex + 1
      position := (row.map Prod.fst).indexOf entry.1 + 1 }

/-- The loop `csvData.forEach((row, rowIndex) => ...)` of the lexical analysis,
from a given first index. -/
def lexicalRows (H : Host) : Nat → List Row → List (List Token)
  | _, [] => []
  | rowIndex, row :: rest => rowTokens H rowIndex row :: lexicalRows H (rowIndex + 1) rest

/-- The method `performLexicalAnalysis`. -/
def Parser.performLexicalAnalysis (H : Host) (self : Parser) : LexicalResult :=
  { tokens := (lexicalRows H 0 self.csvData).flatten }

/-- One step of the `reduce` that groups the tokens by row: the accumulator is
an object whose keys are row numbers, listed in ascending order. -/
def addToken : List (Nat × List Token) → Token → List (Nat × List Token)
  | [], token => [(token.row, [token])]
  | (k, ts) :: rest, token =>
    if token.row = k then (k, ts ++ [token]) :: rest
    else if token.row < k then (token.row, [token]) :: (k, ts) :: rest
    else (k, ts) :: addToken rest token

/-- The entries of `tokensByRow`. -/
def tokensByRow (tokens : List Token) : List (Nat × List Token) :=
  tokens.foldl addToken []

/-- The body of `rowTokens.forEach`: the value is copied into the validated
row, then the rule of the token type, if there is one, tests the value.  A
rule without a `pattern` throws. -/
def checkToken (rowIndex : Nat) (state : List ErrorEntry × Row) (token : Token) :
    Option (List ErrorEntry × Row) :=
  let validatedRow := setProperty state.2 token.name token.value
  match lookupRule token.type with
  | RuleLookup.undefined => some (state.1, validatedRow)
  | RuleLookup.rule rule =>
    if !rule.pattern token.value then
      some (state.1 ++ [ErrorEntry.format rowIndex token.name rule.message token.value],
        validatedRow)
    else some (state.1, validatedRow)
  | RuleLookup.inheritedMember => none

/-- The body of the loop over the rows of `tokensByRow`. -/
def checkRow (state : List ErrorEntry × List Row) (entry : Nat × List Token) :
    Option (List ErrorEntry × List Row) :=
  match entry.2.foldlM (checkToken entry.1) ([], []) with
  | none => none
  | some (rowErrors, validatedRow) =>
    if rowErrors.length > 0 then some (state.1 ++ rowErrors, state.2)
    else some (state.1, state.2 ++ [validatedRow])

/-- The method `performSyntacticAnalysis`. -/
def Parser.performSyntacticAnalysis (lexicalResult : LexicalResult) : Option SyntacticResult :=
  match (tokensByRow lexicalResult.tokens).foldlM checkRow ([], []) with
  | none => none
  | some (errors, validatedRows) =>
    some { isValid := decide (errors.length = 0), errors := errors,
           validatedRows := validatedRows }

namespace SEMANTIC_RULES

/-- The rule `validateDate`: the date parses and is not later than now. -/
def validateDate (H : Host) (now : Int) (date : String) : Bool :=
  match H.dateParse date with
  | none => false
  | some parsedDate => decide (parsedDate ≤ now)

/-- The rule `validateTime`; a missing second part is `undefined`, which
compares as `NaN`. -/
def validateTime (H : Host) (time : String) : Bool :=
  let parts := (jsSplit time ':').map H.toNumber
  let hours := parts.headD JSNumber.nan
  let minutes := (parts.drop 1).headD JSNumber.nan
  hours.ge 0 && hours.lt 24 && minutes.ge 0 && minutes.lt 60

/-- The rule `validateDriverAge`. -/
def validateDriverAge (H : Host) (age : String) : Bool :=
  let numAge := H.toNumber age
  numAge.ge 16 && numAge.le 100

/-- The rule `validateSeverity`. -/
def validateSeverity (H : Host) (severity : String) : Bool :=
  ["leve", "moderado", "grave", "fatal"].contains (H.toLowerCase severity)

/-- The rule `validateWeatherCondition`. -/
def validateWeatherCondition (H : Host) (condition : String) : Bool :=
  ["soleado", "nublado", "lluvioso", "nevado", "niebla"].contains (H.toLowerCase condition)

/-- The rule `validateRoadCondition`. -/
def validateRoadCondition (H : Host) (condition : String) : Bool :=
  ["seco", "mojado", "hielo", "nieve", "obra"].contains (H.toLowerCase condition)

end SEMANTIC_RULES

/-- One of the six blocks `if (row.f && !RULE(row.f)) rowErrors.push(...)`:
the errors it pushes. -/
def checkField (row : Row) (rowIndex : Nat) (field : String) (rule : String → Bool)
    (message : String) : List ErrorEntry :=
  if truthy (getField row field) && !rule ((getField row field).getD "") then
    [ErrorEntry.coherence (rowIndex + 1) field message ((getField row field).getD "")]
  else []

/-- The list `rowErrors` of a validated row after the six checks. -/
def rowErrors (H : Host) (now : Int) (rowIndex : Nat) (row : Row) : List ErrorEntry :=
  checkField row rowIndex "fecha" (SEMANTIC_RULES.validateDate H now)
      "La fecha no es válida o es en el futuro"
    ++ checkField row rowIndex "hora" (SEMANTIC_RULES.validateTime H)
      "La hora no tiene un formato válido"
    ++ checkField row rowIndex "edad_conductor" (SEMANTIC_RULES.validateDriverAge H)
      "La edad del conductor debe estar entre 16 y 100 años"
    ++ checkField row rowIndex "gravedad" (SEMANTIC_RULES.validateSeverity H)
      "La gravedad debe ser: leve, moderado, grave o fatal"
    ++ checkField row rowIndex "condicion_climatica" (SEMANTIC_RULES.validateWeatherCondition H)
      "La condición climática no es válida"
    ++ checkField row rowIndex "condicion_via" (SEMANTIC_RULES.validateRoadCondition H)
      "La condición de la vía no es válida"

/-- The key of an accepted row in the symbol table:
the expression `row.id || "accident-" + rowIndex`. -/
def accidentId (row : Row) (rowIndex : Nat) : String :=
  if truthy (getField row "id") then (getField row "id").getD ""
  else "accident-" ++ toString rowIndex

/-- The state of the loop of the semantic analysis: `semanticErrors`,
`validRows` and the symbol table of the instance. -/
structure SemanticState where
  semanticErrors : List ErrorEntry
  validRows : List Row
  symbolTable : JSMap Row

/-- The body of `validatedRows.forEach((row, rowIndex) => ...)`. -/
def semanticStep (H : Host) (now : Int) (state : SemanticState) (rowIndex : Nat) (row : Row) :
    SemanticState :=
  if (rowErrors H now rowIndex row).length = 0 then
    { semanticErrors := state.semanticErrors
      validRows := state.validRows ++ [row]
      symbolTable := state.symbolTable.set (accidentId row rowIndex) row }
  else
    { state with semanticErrors := state.semanticErrors ++ rowErrors H now rowIndex row }

/-- The loop of the semantic analysis from a given first index. -/
def semanticLoop (H : Host) (now : Int) : Nat → List Row → SemanticState → SemanticState
  | _, [], state => state
  | rowIndex, row :: rest, state =>
    semanticLoop H now (rowIndex + 1) rest (semanticStep H now state rowIndex row)

/-- The method `performSemanticAnalysis`: the result and the instance after
the call. -/
def Parser.performSemanticAnalysis (H : Host) (now : Int) (self : Parser)
    (syntacticResult : SyntacticResult) : SemanticResult × Parser :=
  if !syntacticResult.isValid then
    ({ isValid := false
       errors := syntacticResult.errors
       message := some
         "No se puede realizar el análisis semántico debido a errores sintácticos."
       validRows := none
       symbolTable := none }, self)
  else
    let final := semanticLoop H now 0 syntacticResult.validatedRows
      { semanticErrors := [], validRows := [], symbolTable := self.symbolTable }
    ({ isValid := decide (final.semanticErrors.length = 0)
       errors := final.semanticErrors
       message := none
       validRows := some final.validRows
       symbolTable := some final.symbolTable },
     { self with symbolTable := final.symbolTable })

/-- A value of a histogram: a count, or the string that the addition
`member + 1` produces when the key names an inherited member of
`Object.prototype`. -/
inductive HistValue where
  | count (n : Nat)
  | text (s : String)
  deriving DecidableEq

/-- The statement `acc[key] = (acc[key] || 0) + 1` on a plain object. -/
def increment (H : Host) (acc : JSObject HistValue) (key : String) : JSObject HistValue :=
  let next : HistValue :=
    match acc.lookup key with
    | some (HistValue.count n) => HistValue.count (n + 1)
    | some (HistValue.text s) => if s = "" then HistValue.count 1 else HistValue.text (s ++ "1")
    | none =>
      if objectPrototypeMembers.contains key then HistValue.text (H.memberText key ++ "1")
      else HistValue.count 1
  setProperty acc key next

/-- The template text of a histogram value. -/
def HistValue.render : HistValue → String
  | HistValue.count n => toString n
  | HistValue.text s => s

/-- The numeric part of a histogram value, for sums of counts. -/
def HistValue.toNat : HistValue → Nat
  | HistValue.count n => n
  | HistValue.text _ => 0

/-- The expression `v || ""` for a string or `undefined`. -/
def orEmpty (v : Option String) : String :=
  if truthy v then v.getD "" else ""

/-- The test `value === "si" || value === "true" || value === "1"`. -/
def isAffirmative (value : String) : Bool :=
  value == "si" || value == "true" || value == "1"

/-- A value of the `summary` object: a count, the total of casualties (a sum
of doubles), or a text. -/
inductive SummaryValue where
  | number (n : Int)
  | total (x : IntegralNumber)
  | text (s : String)
  deriving DecidableEq

/-- The block `detailedData` of a report. -/
structure DetailedData where
  severityCounts : JSObject HistValue
  vehicleTypeCounts : JSObject HistValue
  alcoholInvolved : Nat
  speedingInvolved : Nat
  totalCasualties : IntegralNumber

/-- The block `syntacticAnalysis` of a report. -/
structure SyntacticSection where
  errors : Option (List ErrorEntry)
  isValid : Bool
  validatedRows : Option Nat

/-- The block `semanticAnalysis` of a report. -/
structure SemanticSection where
  errors : Option (List ErrorEntry)
  isValid : Bool
  symbolTable : Option (JSMap Row)

/-- The report; `lexicalAnalysis` holds `lexicalAnalysis.tokens`, and
`detailedData` is absent on the error path. -/
structure Report where
  status : String
  lexicalAnalysis : List Token
  syntacticAnalysis : SyntacticSection
  semanticAnalysis : SemanticSection
  summary : JSObject SummaryValue
  detailedData : Option DetailedData

/-- The histogram `severityCounts`. -/
def severityCounts (H : Host) (validRows : List Row) : JSObject HistValue :=
  validRows.foldl (fun acc row => increment H acc (H.toLowerCase (orEmpty (getField row "gravedad"))))
    []

/-- The histogram `vehicleTypeCounts`. -/
def vehicleTypeCounts (H : Host) (validRows : List Row) : JSObject HistValue :=
  validRows.foldl
    (fun acc row =>
      increment H acc
        (if truthy (getField row "tipo_vehiculo") then (getField row "tipo_vehiculo").getD ""
         else "No especificado"))
    []

/-- The count `alcoholInvolved`. -/
def alcoholInvolved (H : Host) (validRows : List Row) : Nat :=
  (validRows.filter fun row =>
    isAffirmative (H.toLowerCase (orEmpty (getField row "alcohol_involucrado")))).length

/-- The count `speedingInvolved`. -/
def speedingInvolved (H : Host) (validRows : List Row) : Nat :=
  (validRows.filter fun row =>
    isAffirmative (H.toLowerCase (orEmpty (getField row "exceso_velocidad")))).length

/-- The sum `totalCasualties`: the reduction of `validRows` from 0 by
`sum + (parseInt(row.victimas) || 0)`. -/
def totalCasualties (validRows : List Row) : IntegralNumber :=
  validRows.foldl (fun sum row => sum.add (orZero (parseInt (getField row "victimas"))))
    (IntegralNumber.finite 0)

/-- The method `generateReport`.  On the success path the property
`validRows` is read and reduced, which throws when it is absent. -/
def Parser.generateReport (H : Host) (self : Parser) (semanticResult : SemanticResult) :
    Option Report :=
  if !semanticResult.isValid then
    some
      { status := "error"
        lexicalAnalysis := (self.performLexicalAnalysis H).tokens
        syntacticAnalysis :=
          { errors := some semanticResult.errors, isValid := false, validatedRows := none }
        semanticAnalysis :=
          { errors := some semanticResult.errors, isValid := false, symbolTable := none }
        summary :=
          [("Total de accidentes analizados", SummaryValue.number self.csvData.length),
           ("Accidentes validos", SummaryValue.number 0),
           ("Accidentes con errores", SummaryValue.number self.csvData.length)]
        detailedData := none }
  else
    match semanticResult.validRows with
    | none => none
    | some validRows =>
      some
        { status := "success"
          lexicalAnalysis := (self.performLexicalAnalysis H).tokens
          syntacticAnalysis :=
            { errors := none, isValid := true, validatedRows := some validRows.length }
          semanticAnalysis :=
            { errors := none, isValid := true, symbolTable := semanticResult.symbolTable }
          summary :=
            [("Total de accidentes analizados", SummaryValue.number self.csvData.length),
             ("Accidentes validos", SummaryValue.number validRows.length),
             ("Total de victimas", SummaryValue.total (totalCasualties validRows)),
             ("Accidentes con alcohol involucrado",
               SummaryValue.number (alcoholInvolved H validRows)),
             ("Accidentes con exceso de velocidad",
               SummaryValue.number (speedingInvolved H validRows)),
             ("Accidentes por gravedad",
               SummaryValue.text
                 (", ".intercalate
                   ((severityCounts H validRows).map fun entry =>
                     entry.1 ++ ": " ++ entry.2.render)))]
          detailedData :=
            some
              { severityCounts := severityCounts H validRows
                vehicleTypeCounts := vehicleTypeCounts H validRows
                alcoholInvolved := alcoholInvolved H validRows
                speedingInvolved := speedingInvolved H validRows
                totalCasualties := totalCasualties validRows } }

/-- The stages in the order in which `App.jsx` runs them on a fresh
instance: the three analyses, and the report of the last one. -/
structure Analysis where
  lexical : LexicalResult
  syntactic : SyntacticResult
  semantic : SemanticResult
  report : Report

/-- The body of the `try` block of `generateReport` in `App.jsx`. -/
def analyse (H : Host) (now : Int) (csvData : List Row) : Option Analysis :=
  let parser := Parser.create csvData
  let lexical := parser.performLexicalAnalysis H
  match Parser.performSyntacticAnalysis lexical with
  | none => none
  | some syntactic =>
    match parser.performSemanticAnalysis H now syntactic with
    | (semantic, parser) =>
      match parser.generateReport H semantic with
      | none => none
      | some report =>
        some { lexical := lexical, syntactic := syntactic, semantic := semantic, report := report }

/-- The object `validatedRow` after the loop over the tokens of a record:
the fields of the record assigned one by one to an empty object. -/
def validatedCopy (row : Row) : Row :=
  row.foldl (fun acc entry => setProperty acc entry.1 entry.2) []

/-- The entries that `tokensByRow` holds for the records from a given first
index: one per record with at least one field. -/
def lexicalGroups (H : Host) : Nat → List Row → List (Nat × List Token)
  | _, [] => []
  | rowIndex, row :: rest =>
    if row = [] then lexicalGroups H (rowIndex + 1) rest
    else (rowIndex + 1, rowTokens H rowIndex row) :: lexicalGroups H (rowIndex + 1) rest

/-- The coherence errors that the loop of the semantic analysis collects for
the rows from a given first index. -/
def loopErrors (H : Host) (now : Int) : Nat → List Row → List ErrorEntry
  | _, [] => []
  | rowIndex, row :: rest => rowErrors H now rowIndex row ++ loopErrors H now (rowIndex + 1) rest

/-- The three classes of an input row, read off the results of the stages:
accepted, when the validated copy of the row is in `validRows`. -/
def Analysis.accepts (a : Analysis) (row : Row) : Bool :=
  (a.semantic.validRows.getD []).contains (validatedCopy row)

/-- Format-rejected: the errors of the syntactic analysis have an entry with
the 1-based number of the row. -/
def Analysis.formatRejects (a : Analysis) (rowIndex : Nat) : Bool :=
  a.syntactic.errors.any fun e => e.row == rowIndex + 1

/-- Coherence-rejected: the errors of the semantic analysis have an entry with
the 1-based number of the row. -/
def Analysis.coherenceRejects (a : Analysis) (rowIndex : Nat) : Bool :=
  a.semantic.errors.any fun e => e.row == rowIndex + 1

/-- The row at a given index falls in exactly one of the three classes. -/
def ExactlyOneClass (a : Analysis) (rowIndex : Nat) (row : Row) : Prop :=
  (a.accepts row = true ∧ a.formatRejects rowIndex = false ∧ a.coherenceRejects rowIndex = false)
  ∨ (a.accepts row = false ∧ a.formatRejects rowIndex = true
      ∧ a.coherenceRejects rowIndex = false)
  ∨ (a.accepts row = false ∧ a.formatRejects rowIndex = false
      ∧ a.coherenceRejects rowIndex = true)

/-- The analysis returns and every input row falls in exactly one class. -/
def EveryRowInOneClass (H : Host) (now : Int) (csvData : List Row) : Prop :=
  ∃ a, analyse H now csvData = some a
    ∧ ∀ (rowIndex : Nat) (row : Row), csvData[rowIndex]? = some row → ExactlyOneClass a rowIndex row

/-- The record of Example 1 of the specification. -/
def exampleRow : Row :=
  [("id", "ACC-2024-000001"), ("fecha", "2023-05-01"), ("hora", "14:30"),
   ("gravedad", "leve"), ("victimas", "2"), ("edad_conductor", "30"),
   ("alcohol_involucrado", "no"), ("exceso_velocidad", "si"),
   ("condicion_climatica", "soleado"), ("condicion_via", "seco")]

/-- The record of Example 2: the record of Example 1 with a date in 2099. -/
def futureDateRow : Row :=
  [("id", "ACC-2024-000001"), ("fecha", "2099-01-01"), ("hora", "14:30"),
   ("gravedad", "leve"), ("victimas", "2"), ("edad_conductor", "30"),
   ("alcohol_involucrado", "no"), ("exceso_velocidad", "si"),
   ("condicion_climatica", "soleado"), ("condicion_via", "seco")]

/-- The record of Example 3: the record of Example 1 with the identifier
`BAD-ID`. -/
def badIdRow : Row :=
  [("id", "BAD-ID"), ("fecha", "2023-05-01"), ("hora", "14:30"),
   ("gravedad", "leve"), ("victimas", "2"), ("edad_conductor", "30"),
   ("alcohol_involucrado", "no"), ("exceso_velocidad", "si"),
   ("condicion_climatica", "soleado"), ("condicion_via", "seco")]

/-- The record of Example 4: a row with the severity `catastrofico`. -/
def badSeverityRow : Row :=
  [("gravedad", "catastrofico")]

/-- A record whose identifier, time and casualty count all miss their pattern. -/
def malformedRow : Row :=
  [("id", "BAD-ID"), ("hora", "7:5"), ("victimas", "-3")]

/-- A record whose casualty count is `2 ^ 53 + 1`, an integer that is no
double. -/
def largeCasualtiesRow : Row :=
  [("victimas", "9007199254740993")]

/-- A record whose casualty count is `2 ^ 53`. -/
def twoPow53Row : Row :=
  [("victimas", "9007199254740992")]

/-- A record with one casualty. -/
def oneCasualtyRow : Row :=
  [("victimas", "1")]

/-- The time value of 2023-05-01 at midnight UTC. -/
def may2023 : Int := 1682899200000

/-- The time value of 2099-01-01 at midnight UTC. -/
def january2099 : Int := 4070908800000

/-- The casualty count of a record as the specification words it: the field
`victimas` parsed as an integer, 0 when the field is missing or is not
numeric. -/
def casualtiesOf (row : Row) : Int :=
  match getField row "victimas" with
  | none => 0
  | some value =>
    match parseIntString value with
    | none => 0
    | some n => n

/-- The sum of the numeric values of a histogram. -/
def countSum (hist : JSObject HistValue) : Nat :=
  (hist.map fun entry => entry.2.toNat).sum

/-- Every value of the histogram is a count. -/
def AllCounts (hist : JSObject HistValue) : Prop :=
  ∀ entry ∈ hist, ∃ n, entry.2 = HistValue.count n

/-- The error list flags a field of a row: it has a coherence error with the
number of the row and the name of the field. -/
def flagged (errors : List ErrorEntry) (row : Nat) (field : String) : Prop :=
  ∃ message value, ErrorEntry.coherence row field message value ∈ errors

/-- The six fields that carry a coherence rule, in the order of the checks. -/
def coherenceFields : List String :=
  ["fecha", "hora", "edad_conductor", "gravedad", "condicion_climatica", "condicion_via"]

/-- The twelve field names of `FIELD_TO_TOKEN_MAP`. -/
def recognizedNames : List String :=
  FIELD_TO_TOKEN_MAP.map Prod.fst

/-- The error that `App.jsx` shows: the fixed message
`"Ingrese un archivo CSV para analizar."` of the guard, or the message of the
`catch` block, whose text after `"Error al analizar el archivo: "` is that of
the engine. -/
inductive AppError where
  | missingInput
  | analysisFailed
  deriving DecidableEq

/-- The state of the component `App`; `csvData` is `null` until a file is
loaded. -/
structure AppState where
  csvData : Option (List Row)
  report : Option Report
  isLoading : Bool
  error : Option AppError

/-- The function `generateReport` of `App.jsx`, by the state it leaves: the
guard `if (!csvData)` returns before any stage (an array, also an empty one,
is truthy), and otherwise the stages run on a new Parser. -/
def App.generateReport (H : Host) (now : Int) (state : AppState) : AppState :=
  match state.csvData with
  | none => { state with error := some AppError.missingInput }
  | some csvData =>
    match analyse H now csvData with
    | some a => { state with report := some a.report, error := none, isLoading := false }
    | none =>
      { state with report := none, error := some AppError.analysisFailed, isLoading := false }

/-- The insertions that the loop of the semantic analysis makes in the symbol
table for the rows from a given first index: the key and the row of every row
without coherence error, in order. -/
def acceptedEntries (H : Host) (now : Int) : Nat → List Row → List (String × Row)
  | _, [] => []
  | rowIndex, row :: rest =>
    if (rowErrors H now rowIndex row).length = 0 then
      (accidentId row rowIndex, row) :: acceptedEntries H now (rowIndex + 1) rest
    else acceptedEntries H now (rowIndex + 1) rest

/-- A sequence of calls of `Map.prototype.set`. -/
def replay (m : JSMap Row) (entries : List (String × Row)) : JSMap Row :=
  entries.foldl (fun acc entry => acc.set entry.1 entry.2) m

/-- The last-wins map of a list of insertions, as the specification words it:
the value under a key is that of the last insertion with that key. -/
def lastWins : List (String × Row) → String → Option Row
  | [], _ => none
  | (k', v) :: rest, k =>
    match lastWins rest k with
    | some w => some w
    | none => if k = k' then some v else none

/-- The result of the syntactic analysis on the tokens of a record sequence
(lemma `performSyntacticAnalysis_lexical`): valid, without errors, with the
validated copy of every record that has a field. -/
def syntacticOf (csvData : List Row) : SyntacticResult :=
  { isValid := true, errors := [],
    validatedRows := (csvData.filter (fun row => row ≠ [])).map validatedCopy }

/-- The stages in the order of `App.jsx`, run on a given instance: the
analysis and the instance after it. -/
def analyseOn (H : Host) (now : Int) (parser : Parser) : Option (Analysis × Parser) :=
  let lexical := parser.performLexicalAnalysis H
  match Parser.performSyntacticAnalysis lexical with
  | none => none
  | some syntactic =>
    match parser.performSemanticAnalysis H now syntactic with
    | (semantic, parser) =>
      match parser.generateReport H semantic with
      | none => none
      | some report =>
        some ({ lexical := lexical, syntactic := syntactic, semantic := semantic,
                report := report }, parser)

/-- A record with a date in 2099 under the field name `fecha`. -/
def lowerDateRow : Row :=
  [("fecha", "2099-01-01")]

/-- The same record with the field name written ` Fecha `. -/
def variantDateRow : Row :=
  [(" Fecha ", "2099-01-01")]

/-- A record with an identifier and a casualty count under the field names
`id` and `victimas`. -/
def lowerIdRow : Row :=
  [("id", "ACC-2024-000001"), ("victimas", "2")]

/-- The same record with the field names written `ID` and `Victimas`. -/
def variantIdRow : Row :=
  [("ID", "ACC-2024-000001"), ("Victimas", "2")]

/-- The tokens of the fields of one row as the specification words them: the
field at position `k` of row `i` yields the token with the name and the value
of the field, the type of the normalized name, `row = i` and `position = k`. -/
def fieldTokens (H : Host) (i : Nat) : Nat → List (String × String) → List Token
  | _, [] => []
  | k, field :: rest =>
    { name := field.1, type := tokenTypeOf (H.toLowerCase (jsTrim field.1)), value := field.2,
      row := i, position := k } :: fieldTokens H i (k + 1) rest

/-- The concatenation, over the rows in input order from the row number `i`,
of the tokens of the fields of each row, positions counted from 1. -/
def specTokens (H : Host) : Nat → List Row → List Token
  | _, [] => []
  | i, row :: rest => fieldTokens H i 1 row ++ specTokens H (i + 1) rest

/-- The order of the tokens by row, then by position. -/
def tokenBefore (t u : Token) : Prop :=
  t.row < u.row ∨ (t.row = u.row ∧ t.position < u.position)

/-- The values of a flag that count as a yes. -/
def affirmativeValues : List String :=
  ["si", "true", "1"]

/-- The count of a flag as the specification words it: the number of records
whose value of the field, lower-cased, is one of `si`, `true`, `1`; a record
without the field is not counted. -/
def flagCount (H : Host) (field : String) (rows : List Row) : Nat :=
  rows.countP fun row =>
    match getField row field with
    | none => false
    | some value => affirmativeValues.contains (H.toLowerCase value)

/-- The order of the own property keys of an object: array indices first, in
ascending order, then the other keys, in insertion order. -/
def keyBefore (a b : String) : Bool :=
  match arrayIndex a, arrayIndex b with
  | some m, some n => decide (m < n)
  | some _, none => true
  | none, some _ => false
  | none, none => true

/-- A list of fields is the list of the entries of an object when its names
are distinct and in the order of the own property keys. -/
def IsObject (row : Row) : Prop :=
  (row.map Prod.fst).Nodup ∧ (row.map Prod.fst).Pairwise fun a b => keyBefore a b = true

/-! ## Lemmas on the lexical and the syntactic analysis -/

theorem lookup_mem_values {α : Type} (l : List (String × α)) (k : String) (v : α)
    (h : l.lookup k = some v) : v ∈ l.map Prod.snd := by
  induction l with
  | nil => simp [List.lookup] at h
  | cons e l ih =>
    obtain ⟨k', v'⟩ := e
    by_cases hk : k = k'
    · subst hk
      simp [List.lookup] at h
      simp [h]
    · have hb : (k == k') = false := by simpa using hk
      simp [List.lookup, hb] at h
      simp [ih h]

theorem lookupRule_tokenTypeOf (k : String) :
    lookupRule (tokenTypeOf k) = RuleLookup.undefined := by
  unfold tokenTypeOf
  cases h : FIELD_TO_TOKEN_MAP.lookup k with
  | some t =>
    have ht := lookup_mem_values _ _ _ h
    simp [FIELD_TO_TOKEN_MAP, TOKEN_TYPES.ACCIDENT_ID, TOKEN_TYPES.DATE, TOKEN_TYPES.TIME,
      TOKEN_TYPES.LOCATION, TOKEN_TYPES.VEHICLE_TYPE, TOKEN_TYPES.SEVERITY,
      TOKEN_TYPES.CASUALTIES, TOKEN_TYPES.WEATHER_CONDITION, TOKEN_TYPES.ROAD_CONDITION,
      TOKEN_TYPES.DRIVER_AGE, TOKEN_TYPES.ALCOHOL_INVOLVED, TOKEN_TYPES.SPEEDING_INVOLVED] at ht
    rcases ht with rfl | rfl | rfl | rfl | rfl | rfl | rfl | rfl | rfl | rfl | rfl | rfl <;> rfl
  | none =>
    by_cases hc : objectPrototypeMembers.contains k = true
    · simp only [hc, if_true]
      rfl
    · simp only [hc]
      rfl

theorem foldlM_checkToken (rowIndex : Nat) (ts : List Token)
    (hts : ∀ t ∈ ts, lookupRule t.type = RuleLookup.undefined)
    (state : List ErrorEntry × Row) :
    ts.foldlM (checkToken rowIndex) state
      = some (state.1, ts.foldl (fun acc t => setProperty acc t.name t.value) state.2) := by
  induction ts generalizing state with
  | nil => simp
  | cons t ts ih =>
    have h1 : checkToken rowIndex state t
        = some (state.1, setProperty state.2 t.name t.value) := by
      unfold checkToken
      rw [hts t (List.mem_cons_self _ _)]
    rw [List.foldlM_cons, h1]
    simp only [Option.bind_eq_bind, Option.some_bind]
    rw [ih (fun t' ht' => hts t' (List.mem_cons_of_mem _ ht'))]
    simp

theorem rowTokens_lookupRule (H : Host) (rowIndex : Nat) (row : Row) :
    ∀ t ∈ rowTokens H rowIndex row, lookupRule t.type = RuleLookup.undefined := by
  intro t ht
  unfold rowTokens at ht
  rw [List.mem_map] at ht
  obtain ⟨e, _, rfl⟩ := ht
  exact lookupRule_tokenTypeOf _

theorem rowTokens_foldl (H : Host) (rowIndex : Nat) (row : Row) :
    (rowTokens H rowIndex row).foldl (fun acc t => setProperty acc t.name t.value) []
      = validatedCopy row := by
  unfold rowTokens validatedCopy
  rw [List.foldl_map]

theorem checkRow_rowTokens (H : Host) (rowIndex k : Nat) (row : Row)
    (state : List ErrorEntry × List Row) :
    checkRow state (k, rowTokens H rowIndex row)
      = some (state.1, state.2 ++ [validatedCopy row]) := by
  unfold checkRow
  simp only
  rw [foldlM_checkToken k _ (rowTokens_lookupRule H rowIndex row), rowTokens_foldl]
  simp

theorem foldlM_checkRow_lexicalGroups (H : Host) (rows : List Row) (rowIndex : Nat)
    (state : List ErrorEntry × List Row) :
    (lexicalGroups H rowIndex rows).foldlM checkRow state
      = some (state.1, state.2 ++ (rows.filter (fun row => row ≠ [])).map validatedCopy) := by
  induction rows generalizing rowIndex state with
  | nil => simp [lexicalGroups]
  | cons row rest ih =>
    unfold lexicalGroups
    by_cases hrow : row = []
    · simp [hrow, ih]
    · simp only [hrow, if_false, List.foldlM_cons, checkRow_rowTokens, Option.bind_eq_bind,
        Option.some_bind, ih]
      simp [hrow]


theorem addToken_new (acc : List (Nat × List Token)) (t : Token)
    (hacc : ∀ e ∈ acc, e.1 < t.row) : addToken acc t = acc ++ [(t.row, [t])] := by
  induction acc with
  | nil => rfl
  | cons e acc ih =>
    obtain ⟨k, ts⟩ := e
    have hk : k < t.row := hacc (k, ts) (List.mem_cons_self _ _)
    have h1 : ¬ t.row = k := by omega
    have h2 : ¬ t.row < k := by omega
    simp only [addToken, h1, h2, if_false, List.cons_append]
    rw [ih (fun e he => hacc e (List.mem_cons_of_mem _ he))]

theorem addToken_same (acc : List (Nat × List Token)) (k : Nat) (ts : List Token) (t : Token)
    (hacc : ∀ e ∈ acc, e.1 < k) (ht : t.row = k) :
    addToken (acc ++ [(k, ts)]) t = acc ++ [(k, ts ++ [t])] := by
  induction acc with
  | nil => simp [addToken, ht]
  | cons e acc ih =>
    obtain ⟨k', ts'⟩ := e
    have hk : k' < k := hacc (k', ts') (List.mem_cons_self _ _)
    have h1 : ¬ t.row = k' := by omega
    have h2 : ¬ t.row < k' := by omega
    have ih' := ih (fun e he => hacc e (List.mem_cons_of_mem _ he))
    simp only [List.cons_append, addToken, h1, h2, if_false]
    exact congrArg _ ih'

theorem foldl_addToken_same (ts' : List Token) (acc : List (Nat × List Token)) (k : Nat)
    (ts : List Token) (hacc : ∀ e ∈ acc, e.1 < k) (hts : ∀ t ∈ ts', t.row = k) :
    ts'.foldl addToken (acc ++ [(k, ts)]) = acc ++ [(k, ts ++ ts')] := by
  induction ts' generalizing ts with
  | nil => simp
  | cons t ts' ih =>
    rw [List.foldl_cons, addToken_same acc k ts t hacc (hts t (List.mem_cons_self _ _)),
      ih _ (fun t' ht' => hts t' (List.mem_cons_of_mem _ ht'))]
    simp

theorem foldl_addToken_group (ts : List Token) (acc : List (Nat × List Token)) (k : Nat)
    (hne : ts ≠ []) (hacc : ∀ e ∈ acc, e.1 < k) (hts : ∀ t ∈ ts, t.row = k) :
    ts.foldl addToken acc = acc ++ [(k, ts)] := by
  cases ts with
  | nil => exact absurd rfl hne
  | cons t ts =>
    have ht : t.row = k := hts t (List.mem_cons_self _ _)
    rw [List.foldl_cons, addToken_new acc t (by rw [ht]; exact hacc), ht,
      foldl_addToken_same ts acc k [t] hacc (fun t' ht' => hts t' (List.mem_cons_of_mem _ ht'))]
    simp

theorem rowTokens_row (H : Host) (rowIndex : Nat) (row : Row) :
    ∀ t ∈ rowTokens H rowIndex row, t.row = rowIndex + 1 := by
  intro t ht
  unfold rowTokens at ht
  rw [List.mem_map] at ht
  obtain ⟨e, _, rfl⟩ := ht
  rfl

theorem rowTokens_eq_nil (H : Host) (rowIndex : Nat) (row : Row) :
    rowTokens H rowIndex row = [] ↔ row = [] := by
  unfold rowTokens
  simp

theorem foldl_addToken_lexicalRows (H : Host) (rows : List Row) (rowIndex : Nat)
    (acc : List (Nat × List Token)) (hacc : ∀ e ∈ acc, e.1 ≤ rowIndex) :
    (lexicalRows H rowIndex rows).flatten.foldl addToken acc
      = acc ++ lexicalGroups H rowIndex rows := by
  induction rows generalizing rowIndex acc with
  | nil => simp [lexicalRows, lexicalGroups]
  | cons row rest ih =>
    unfold lexicalRows lexicalGroups
    rw [List.flatten_cons, List.foldl_append]
    by_cases hrow : row = []
    · rw [(rowTokens_eq_nil H rowIndex row).2 hrow]
      simp only [hrow, if_true, List.foldl_nil]
      exact ih (rowIndex + 1) acc (fun e he => Nat.le_succ_of_le (hacc e he))
    · have hne : rowTokens H rowIndex row ≠ [] := fun h => hrow ((rowTokens_eq_nil H _ _).1 h)
      rw [foldl_addToken_group _ acc (rowIndex + 1) hne
        (fun e he => Nat.lt_succ_of_le (hacc e he)) (rowTokens_row H rowIndex row)]
      simp only [hrow, if_false]
      rw [ih (rowIndex + 1)]
      · simp
      · intro e he
        rw [List.mem_append] at he
        rcases he with he | he
        · exact Nat.le_succ_of_le (hacc e he)
        · simp only [List.mem_singleton] at he
          subst he
          exact Nat.le_refl _

theorem tokensByRow_lexical (H : Host) (csvData : List Row) :
    tokensByRow ((Parser.create csvData).performLexicalAnalysis H).tokens
      = lexicalGroups H 0 csvData := by
  unfold tokensByRow Parser.performLexicalAnalysis Parser.create
  simp only
  rw [foldl_addToken_lexicalRows H csvData 0 [] (by simp)]
  simp

/-- The syntactic analysis of the tokens of any record sequence returns, with
no error, the validated copy of every record that has a field. -/
theorem performSyntacticAnalysis_lexical (H : Host) (csvData : List Row) :
    Parser.performSyntacticAnalysis ((Parser.create csvData).performLexicalAnalysis H)
      = some { isValid := true, errors := [],
               validatedRows := (csvData.filter (fun row => row ≠ [])).map validatedCopy } := by
  unfold Parser.performSyntacticAnalysis
  rw [tokensByRow_lexical, foldlM_checkRow_lexicalGroups]
  simp

/-! ## The validated copy of an ordinary record -/

theorem lookup_eq_none_of_not_mem {α : Type} (l : List (String × α)) (k : String)
    (h : k ∉ l.map Prod.fst) : l.lookup k = none := by
  induction l with
  | nil => rfl
  | cons e l ih =>
    obtain ⟨k', v'⟩ := e
    simp only [List.map_cons, List.mem_cons, not_or] at h
    have hb : (k == k') = false := by simpa using h.1
    simp only [List.lookup, hb]
    exact ih h.2

theorem insertProperty_plain {α : Type} (k : String) (v : α) (obj : JSObject α)
    (hk : arrayIndex k = none) : insertProperty k v obj = obj ++ [(k, v)] := by
  induction obj with
  | nil => rfl
  | cons e obj ih =>
    obtain ⟨k', v'⟩ := e
    unfold insertProperty
    rw [hk]
    simp only [List.cons_append]
    exact congrArg _ ih

theorem foldl_setProperty_plain (rest acc : Row)
    (hnodup : ((acc ++ rest).map Prod.fst).Nodup)
    (hplain : ∀ e ∈ rest, arrayIndex e.1 = none ∧ e.1 ≠ "__proto__") :
    rest.foldl (fun obj e => setProperty obj e.1 e.2) acc = acc ++ rest := by
  induction rest generalizing acc with
  | nil => simp
  | cons e rest ih =>
    obtain ⟨k, v⟩ := e
    obtain ⟨hidx, hproto⟩ := hplain (k, v) (List.mem_cons_self _ _)
    simp only at hidx hproto
    have hnot : k ∉ acc.map Prod.fst := by
      intro hmem
      rw [List.map_append, List.map_cons] at hnodup
      have := (List.nodup_append.1 hnodup).2.2
      exact this hmem (List.mem_cons_self _ _)
    have hset : setProperty acc k v = acc ++ [(k, v)] := by
      unfold setProperty
      simp only [hproto, if_false, lookup_eq_none_of_not_mem acc k hnot, Option.isSome_none]
      exact insertProperty_plain k v acc hidx
    rw [List.foldl_cons, hset, ih (acc ++ [(k, v)])]
    · simp
    · simpa using hnodup
    · exact fun e he => hplain e (List.mem_cons_of_mem _ he)

/-- The validated copy of a record whose field names are distinct, none of
them an array index or `__proto__`, is the record itself. -/
theorem validatedCopy_plain (row : Row) (hnodup : (row.map Prod.fst).Nodup)
    (hplain : ∀ e ∈ row, arrayIndex e.1 = none ∧ e.1 ≠ "__proto__") :
    validatedCopy row = row := by
  unfold validatedCopy
  rw [foldl_setProperty_plain row [] (by simpa using hnodup) hplain]
  simp

/-! ## The validated copy of an object -/

theorem insertProperty_last {α : Type} (k : String) (v : α) (obj : JSObject α)
    (h : ∀ e ∈ obj, keyBefore e.1 k = true) : insertProperty k v obj = obj ++ [(k, v)] := by
  induction obj with
  | nil => rfl
  | cons e obj ih =>
    obtain ⟨k', v'⟩ := e
    have hhead : keyBefore k' k = true := h (k', v') (List.mem_cons_self _ _)
    have htail := ih (fun e he => h e (List.mem_cons_of_mem _ he))
    unfold keyBefore at hhead
    unfold insertProperty
    cases hk : arrayIndex k with
    | none =>
      simp only [List.cons_append]
      exact congrArg _ htail
    | some n =>
      cases hk' : arrayIndex k' with
      | none =>
        rw [hk, hk'] at hhead
        exact Bool.noConfusion hhead
      | some n' =>
        rw [hk, hk'] at hhead
        simp only [decide_eq_true_eq] at hhead
        have hlt : ¬ n < n' := by omega
        simp only [hlt, if_false, List.cons_append]
        exact congrArg _ htail

theorem foldl_setProperty_object (rest acc : Row) (hproto : "__proto__" ∉ acc.map Prod.fst)
    (hnodup : ((acc ++ rest).map Prod.fst).Nodup)
    (hpair : ((acc ++ rest).map Prod.fst).Pairwise fun a b => keyBefore a b = true) :
    rest.foldl (fun obj e => setProperty obj e.1 e.2) acc
      = acc ++ rest.filter (fun e => decide (e.1 ≠ "__proto__")) := by
  induction rest generalizing acc with
  | nil => simp
  | cons e rest ih =>
    obtain ⟨k, v⟩ := e
    rw [List.foldl_cons]
    by_cases hk : k = "__proto__"
    · have hset : setProperty acc k v = acc := by
        unfold setProperty
        simp only [hk, if_true]
      have hsub : (acc ++ rest).Sublist (acc ++ (k, v) :: rest) :=
        List.Sublist.append_left (List.sublist_cons_self _ _) acc
      simp only
      rw [hset, ih acc hproto ((hsub.map Prod.fst).nodup hnodup)
        (List.Pairwise.sublist (hsub.map Prod.fst) hpair)]
      simp [List.filter_cons, hk]
    · have hnot : k ∉ acc.map Prod.fst := by
        intro hmem
        rw [List.map_append, List.map_cons] at hnodup
        exact (List.nodup_append.1 hnodup).2.2 hmem (List.mem_cons_self _ _)
      have hbefore : ∀ e ∈ acc, keyBefore e.1 k = true := by
        intro e he
        rw [List.map_append, List.map_cons, List.pairwise_append] at hpair
        exact hpair.2.2 e.1 (List.mem_map.2 ⟨e, he, rfl⟩) k (List.mem_cons_self _ _)
      have hset : setProperty acc k v = acc ++ [(k, v)] := by
        unfold setProperty
        simp only [hk, if_false, lookup_eq_none_of_not_mem acc k hnot, Option.isSome_none]
        exact insertProperty_last k v acc hbefore
      simp only
      rw [hset, ih (acc ++ [(k, v)])]
      · simp [List.filter_cons, hk]
      · simp only [List.map_append, List.map_cons, List.map_nil, List.mem_append,
          List.mem_singleton, not_or]
        exact ⟨hproto, fun h => hk h.symm⟩
      · simpa using hnodup
      · simpa using hpair

/-- The validated copy of an object has the fields of the object, in the same
order, but for a field with the name `__proto__`. -/
theorem validatedCopy_object (row : Row) (h : IsObject row) :
    validatedCopy row = row.filter (fun e => decide (e.1 ≠ "__proto__")) := by
  unfold validatedCopy
  rw [foldl_setProperty_object row [] (by simp) (by simpa using h.1) (by simpa using h.2)]
  simp

/-! ## Lemmas on the semantic analysis -/

theorem checkField_row (row : Row) (rowIndex : Nat) (field : String) (rule : String → Bool)
    (message : String) : ∀ e ∈ checkField row rowIndex field rule message, e.row = rowIndex + 1 := by
  intro e he
  unfold checkField at he
  split at he
  · simp only [List.mem_singleton] at he
    subst he
    rfl
  · simp at he

theorem checkField_length (row : Row) (i j : Nat) (field : String) (rule : String → Bool)
    (message : String) :
    (checkField row i field rule message).length = (checkField row j field rule message).length := by
  unfold checkField
  split <;> rfl

theorem rowErrors_row (H : Host) (now : Int) (rowIndex : Nat) (row : Row) :
    ∀ e ∈ rowErrors H now rowIndex row, e.row = rowIndex + 1 := by
  intro e he
  unfold rowErrors at he
  simp only [List.mem_append] at he
  rcases he with ((((he | he) | he) | he) | he) | he <;> exact checkField_row _ _ _ _ _ e he

theorem rowErrors_length (H : Host) (now : Int) (i j : Nat) (row : Row) :
    (rowErrors H now i row).length = (rowErrors H now j row).length := by
  unfold rowErrors
  simp only [List.length_append]
  rw [checkField_length row i j "fecha", checkField_length row i j "hora",
    checkField_length row i j "edad_conductor", checkField_length row i j "gravedad",
    checkField_length row i j "condicion_climatica", checkField_length row i j "condicion_via"]

theorem semanticLoop_errors (H : Host) (now : Int) (rows : List Row) (rowIndex : Nat)
    (state : SemanticState) :
    (semanticLoop H now rowIndex rows state).semanticErrors
      = state.semanticErrors ++ loopErrors H now rowIndex rows := by
  induction rows generalizing rowIndex state with
  | nil => simp [semanticLoop, loopErrors]
  | cons row rest ih =>
    unfold semanticLoop loopErrors
    rw [ih]
    unfold semanticStep
    by_cases h : (rowErrors H now rowIndex row).length = 0
    · have h0 : rowErrors H now rowIndex row = [] := List.length_eq_zero.mp h
      simp [h0]
    · simp [h]

theorem semanticLoop_validRows (H : Host) (now : Int) (rows : List Row) (rowIndex : Nat)
    (state : SemanticState) :
    (semanticLoop H now rowIndex rows state).validRows
      = state.validRows ++ rows.filter (fun row => decide ((rowErrors H now 0 row).length = 0)) := by
  induction rows generalizing rowIndex state with
  | nil => simp [semanticLoop]
  | cons row rest ih =>
    unfold semanticLoop
    rw [ih]
    unfold semanticStep
    rw [rowErrors_length H now rowIndex 0 row]
    by_cases h : rowErrors H now 0 row = []
    · simp [h, List.filter_cons]
    · simp [h, List.filter_cons]

theorem mem_loopErrors (H : Host) (now : Int) (rows : List Row) (rowIndex : Nat)
    (e : ErrorEntry) :
    e ∈ loopErrors H now rowIndex rows
      ↔ ∃ (j : Nat) (row : Row), rows[j]? = some row ∧ e ∈ rowErrors H now (rowIndex + j) row := by
  induction rows generalizing rowIndex with
  | nil => simp [loopErrors]
  | cons row rest ih =>
    unfold loopErrors
    rw [List.mem_append, ih]
    constructor
    · rintro (h | ⟨j, r, hj, he⟩)
      · exact ⟨0, row, by simp, h⟩
      · refine ⟨j + 1, r, by simpa using hj, ?_⟩
        have : rowIndex + (j + 1) = rowIndex + 1 + j := by omega
        rw [this]
        exact he
    · rintro ⟨j, r, hj, he⟩
      cases j with
      | zero =>
        simp only [List.getElem?_cons_zero, Option.some.injEq] at hj
        subst hj
        exact Or.inl he
      | succ j =>
        right
        refine ⟨j, r, by simpa using hj, ?_⟩
        have : rowIndex + (j + 1) = rowIndex + 1 + j := by omega
        rw [← this]
        exact he

/-- The semantic analysis of a valid syntactic result, on any instance. -/
theorem performSemanticAnalysis_valid (H : Host) (now : Int) (self : Parser)
    (syn : SyntacticResult) (hvalid : syn.isValid = true) :
    (self.performSemanticAnalysis H now syn).1.errors = loopErrors H now 0 syn.validatedRows
    ∧ (self.performSemanticAnalysis H now syn).1.validRows
        = some (syn.validatedRows.filter
            (fun row => decide ((rowErrors H now 0 row).length = 0)))
    ∧ (self.performSemanticAnalysis H now syn).1.isValid
        = decide ((loopErrors H now 0 syn.validatedRows).length = 0) := by
  unfold Parser.performSemanticAnalysis
  simp [hvalid, semanticLoop_errors, semanticLoop_validRows]

theorem rowErrors_eq_nil_index (H : Host) (now : Int) (i j : Nat) (row : Row) :
    rowErrors H now i row = [] ↔ rowErrors H now j row = [] := by
  rw [← List.length_eq_zero, ← List.length_eq_zero, rowErrors_length H now i j row]

/-! ## Lemmas on the report and on the whole analysis -/

theorem generateReport_invalid (H : Host) (self : Parser) (sem : SemanticResult)
    (h : sem.isValid = false) :
    ∃ report, self.generateReport H sem = some report ∧ report.status = "error"
      ∧ report.detailedData = none
      ∧ report.syntacticAnalysis.errors = some sem.errors
      ∧ report.semanticAnalysis.errors = some sem.errors := by
  unfold Parser.generateReport
  simp [h]

theorem generateReport_valid (H : Host) (self : Parser) (sem : SemanticResult)
    (validRows : List Row) (h : sem.isValid = true) (hrows : sem.validRows = some validRows) :
    ∃ report, self.generateReport H sem = some report ∧ report.status = "success"
      ∧ report.detailedData = some
          { severityCounts := severityCounts H validRows
            vehicleTypeCounts := vehicleTypeCounts H validRows
            alcoholInvolved := alcoholInvolved H validRows
            speedingInvolved := speedingInvolved H validRows
            totalCasualties := totalCasualties validRows } := by
  unfold Parser.generateReport
  simp [h, hrows]

/-- The analysis of any record sequence returns: the syntactic result holds
the validated copies of the records that have a field, the semantic result is
that of the loop over them, and the report is that of the semantic result. -/
theorem analyse_returns (H : Host) (now : Int) (csvData : List Row) :
    ∃ a, analyse H now csvData = some a
      ∧ a.syntactic = { isValid := true, errors := [],
                        validatedRows := (csvData.filter (fun row => row ≠ [])).map validatedCopy }
      ∧ a.semantic.errors = loopErrors H now 0 a.syntactic.validatedRows
      ∧ a.semantic.validRows = some (a.syntactic.validatedRows.filter
          (fun row => decide ((rowErrors H now 0 row).length = 0)))
      ∧ a.semantic.isValid = decide ((loopErrors H now 0 a.syntactic.validatedRows).length = 0)
      ∧ (a.semantic.isValid = false → a.report.status = "error" ∧ a.report.detailedData = none)
      ∧ (a.semantic.isValid = true → a.report.status = "success"
          ∧ ∀ validRows, a.semantic.validRows = some validRows →
            a.report.detailedData = some
              { severityCounts := severityCounts H validRows
                vehicleTypeCounts := vehicleTypeCounts H validRows
                alcoholInvolved := alcoholInvolved H validRows
                speedingInvolved := speedingInvolved H validRows
                totalCasualties := totalCasualties validRows }) := by
  have hsyn := performSyntacticAnalysis_lexical H csvData
  obtain ⟨he, hr, hv⟩ := performSemanticAnalysis_valid H now (Parser.create csvData)
    { isValid := true, errors := [],
      validatedRows := (csvData.filter (fun row => row ≠ [])).map validatedCopy } rfl
  generalize hsem : (Parser.create csvData).performSemanticAnalysis H now
    { isValid := true, errors := [],
      validatedRows := (csvData.filter (fun row => row ≠ [])).map validatedCopy } = res at he hr hv
  obtain ⟨sem, parser⟩ := res
  simp only at he hr hv
  cases hvalid : sem.isValid with
  | false =>
    obtain ⟨report, hrep, hstatus, hdata, _, _⟩ := generateReport_invalid H parser sem hvalid
    refine ⟨{ lexical := (Parser.create csvData).performLexicalAnalysis H,
              syntactic := _, semantic := sem, report := report }, ?_, rfl, he, hr, ?_, ?_, ?_⟩
    · unfold analyse
      simp only [hsyn, hsem, hrep]
    · rw [← hv, hvalid]
    · intro _
      exact ⟨hstatus, hdata⟩
    · intro h
      simp only [hvalid] at h
      exact absurd h (by decide)
  | true =>
    obtain ⟨report, hrep, hstatus, hdata⟩ := generateReport_valid H parser sem _ hvalid hr
    refine ⟨{ lexical := (Parser.create csvData).performLexicalAnalysis H,
              syntactic := _, semantic := sem, report := report }, ?_, rfl, he, hr, ?_, ?_, ?_⟩
    · unfold analyse
      simp only [hsyn, hsem, hrep]
    · rw [← hv, hvalid]
    · intro h
      simp only [hvalid] at h
      exact absurd h (by decide)
    · intro _
      refine ⟨hstatus, ?_⟩
      intro validRows hvr
      simp only at hvr
      rw [hr] at hvr
      cases hvr
      exact hdata

theorem accepts_iff (H : Host) (now : Int) (csvData : List Row) (a : Analysis) (row : Row)
    (hrow : row ∈ csvData) (hfields : ∀ r ∈ csvData, r ≠ [])
    (hsyn : a.syntactic.validatedRows = (csvData.filter (fun r => r ≠ [])).map validatedCopy)
    (hrows : a.semantic.validRows = some (a.syntactic.validatedRows.filter
      (fun r => decide ((rowErrors H now 0 r).length = 0)))) :
    a.accepts row = true ↔ rowErrors H now 0 (validatedCopy row) = [] := by
  unfold Analysis.accepts
  rw [hrows, hsyn]
  simp only [Option.getD_some, List.contains, List.elem_eq_mem, List.mem_filter, List.mem_map,
    decide_eq_true_eq, List.length_eq_zero]
  constructor
  · rintro ⟨_, h⟩
    exact h
  · intro h
    exact ⟨⟨row, ⟨hrow, by simpa using hfields row hrow⟩, rfl⟩, h⟩

theorem coherenceRejects_iff (H : Host) (now : Int) (csvData : List Row) (a : Analysis)
    (rowIndex : Nat) (row : Row) (hrow : csvData[rowIndex]? = some row)
    (hfields : ∀ r ∈ csvData, r ≠ [])
    (hsyn : a.syntactic.validatedRows = (csvData.filter (fun r => r ≠ [])).map validatedCopy)
    (herr : a.semantic.errors = loopErrors H now 0 a.syntactic.validatedRows) :
    a.coherenceRejects rowIndex = true ↔ rowErrors H now 0 (validatedCopy row) ≠ [] := by
  have hfilter : csvData.filter (fun r => r ≠ []) = csvData := by
    rw [List.filter_eq_self]
    intro r hr
    simpa using hfields r hr
  unfold Analysis.coherenceRejects
  rw [herr, hsyn, hfilter, List.any_eq_true]
  constructor
  · rintro ⟨e, he, hrowe⟩
    rw [mem_loopErrors] at he
    obtain ⟨j, r, hj, hej⟩ := he
    have h1 := rowErrors_row H now (0 + j) r e hej
    have h2 : e.row = rowIndex + 1 := by simpa using hrowe
    have hji : j = rowIndex := by omega
    subst hji
    rw [List.getElem?_map, hrow] at hj
    simp only [Option.map_some', Option.some.injEq] at hj
    subst hj
    intro hnil
    rw [(rowErrors_eq_nil_index H now (0 + j) 0 (validatedCopy row)).2 hnil] at hej
    simp at hej
  · intro hne
    have hne' : rowErrors H now (0 + rowIndex) (validatedCopy row) ≠ [] := fun h =>
      hne ((rowErrors_eq_nil_index H now (0 + rowIndex) 0 (validatedCopy row)).1 h)
    obtain ⟨e, he⟩ := List.exists_mem_of_ne_nil _ hne'
    refine ⟨e, ?_, ?_⟩
    · rw [mem_loopErrors]
      exact ⟨rowIndex, validatedCopy row, by rw [List.getElem?_map, hrow]; rfl, he⟩
    · have h1 := rowErrors_row H now (0 + rowIndex) (validatedCopy row) e he
      simp [h1]

/-! ## Evaluation of the rules under any host -/

theorem toLowerCase_const (H : Host) (s t : String)
    (hascii : s.data.all (fun c => decide (c.toNat < 128)) = true)
    (ht : asciiLowerCase s = t) : H.toLowerCase s = t := by
  rw [H.toLowerCase_ascii s (by simpa [List.all_eq_true] using hascii), ht]

theorem validateDate_iso (H : Host) (now : Int) (date : String) (t : Int)
    (h : isoDateOnly date = some t) :
    SEMANTIC_RULES.validateDate H now date = decide (t ≤ now) := by
  unfold SEMANTIC_RULES.validateDate
  rw [H.dateParse_iso date t h]

theorem validateTime_decimal (H : Host) (time a b : String) (rest : List String) (m n : Nat)
    (hsplit : jsSplit time ':' = a :: b :: rest) (ha : decimalLiteral a = some m)
    (hb : decimalLiteral b = some n) :
    SEMANTIC_RULES.validateTime H time = (decide (m < 24) && decide (n < 60)) := by
  unfold SEMANTIC_RULES.validateTime
  rw [hsplit]
  simp [H.toNumber_decimal a m ha, H.toNumber_decimal b n hb, JSNumber.ge, JSNumber.lt]

theorem validateDriverAge_decimal (H : Host) (age : String) (n : Nat)
    (h : decimalLiteral age = some n) :
    SEMANTIC_RULES.validateDriverAge H age = (decide (16 ≤ n) && decide (n ≤ 100)) := by
  unfold SEMANTIC_RULES.validateDriverAge
  simp [H.toNumber_decimal age n h, JSNumber.ge, JSNumber.le]

theorem checkField_eq_nil (row : Row) (rowIndex : Nat) (field : String) (rule : String → Bool)
    (message : String)
    (h : truthy (getField row field) = true → rule ((getField row field).getD "") = true) :
    checkField row rowIndex field rule message = [] := by
  unfold checkField
  cases ht : truthy (getField row field) with
  | false => simp
  | true => simp [h ht]

theorem checkField_eq_singleton (row : Row) (rowIndex : Nat) (field : String)
    (rule : String → Bool) (message : String) (ht : truthy (getField row field) = true)
    (h : rule ((getField row field).getD "") = false) :
    checkField row rowIndex field rule message
      = [ErrorEntry.coherence (rowIndex + 1) field message ((getField row field).getD "")] := by
  unfold checkField
  simp [ht, h]

theorem analyse_single (H : Host) (now : Int) (row : Row) (hcopy : validatedCopy row = row)
    (hne : row ≠ []) :
    ∃ a, analyse H now [row] = some a
      ∧ a.syntactic = { isValid := true, errors := [], validatedRows := [row] }
      ∧ a.semantic.errors = rowErrors H now 0 row
      ∧ (rowErrors H now 0 row = [] →
          a.semantic.isValid = true ∧ a.semantic.validRows = some [row]
          ∧ a.report.status = "success"
          ∧ a.report.detailedData = some
              { severityCounts := severityCounts H [row]
                vehicleTypeCounts := vehicleTypeCounts H [row]
                alcoholInvolved := alcoholInvolved H [row]
                speedingInvolved := speedingInvolved H [row]
                totalCasualties := totalCasualties [row] })
      ∧ (rowErrors H now 0 row ≠ [] →
          a.semantic.isValid = false ∧ a.semantic.validRows = some []
          ∧ a.report.status = "error" ∧ a.report.detailedData = none) := by
  obtain ⟨a, ha, hsyn, herr, hrows, hvalid, hbad, hgood⟩ := analyse_returns H now [row]
  have hv : (List.filter (fun r => decide (r ≠ [])) [row]).map validatedCopy = [row] := by
    simp [List.filter_cons, hne, hcopy]
  rw [hv] at hsyn
  rw [hsyn] at herr hrows hvalid
  simp only [loopErrors, List.append_nil] at herr hvalid
  refine ⟨a, ha, hsyn, herr, ?_, ?_⟩
  · intro hnil
    have hval : a.semantic.isValid = true := by
      rw [hvalid, hnil]
      rfl
    have hr : a.semantic.validRows = some [row] := by
      rw [hrows]
      simp [List.filter_cons, hnil]
    exact ⟨hval, hr, (hgood hval).1, (hgood hval).2 [row] hr⟩
  · intro hnn
    have hval : a.semantic.isValid = false := by
      rw [hvalid]
      simpa using hnn
    have hr : a.semantic.validRows = some [] := by
      rw [hrows]
      simp [List.filter_cons, hnn]
    exact ⟨hval, hr, (hbad hval).1, (hbad hval).2⟩

theorem checkField_pass (row : Row) (rowIndex : Nat) (field : String) (rule : String → Bool)
    (message v : String) (hv : getField row field = some v) (hrule : rule v = true) :
    checkField row rowIndex field rule message = [] := by
  apply checkField_eq_nil
  intro _
  rw [hv]
  exact hrule

theorem checkField_flag (row : Row) (rowIndex : Nat) (field : String) (rule : String → Bool)
    (message v : String) (hv : getField row field = some v) (hne : (v != "") = true)
    (hrule : rule v = false) :
    checkField row rowIndex field rule message
      = [ErrorEntry.coherence (rowIndex + 1) field message v] := by
  have ht : truthy (getField row field) = true := by
    rw [hv]
    exact hne
  rw [checkField_eq_singleton row rowIndex field rule message ht (by rw [hv]; exact hrule), hv]
  rfl

theorem checkField_absent (row : Row) (rowIndex : Nat) (field : String) (rule : String → Bool)
    (message : String) (ht : truthy (getField row field) = false) :
    checkField row rowIndex field rule message = [] := by
  apply checkField_eq_nil
  intro h
  rw [ht] at h
  exact absurd h (by decide)

theorem validateDate_may2023 (H : Host) (now : Int) (hnow : may2023 ≤ now) :
    SEMANTIC_RULES.validateDate H now "2023-05-01" = true := by
  rw [validateDate_iso H now "2023-05-01" may2023 (by decide)]
  simpa using hnow

theorem validateDate_january2099 (H : Host) (now : Int) (hnow : now < january2099) :
    SEMANTIC_RULES.validateDate H now "2099-01-01" = false := by
  rw [validateDate_iso H now "2099-01-01" january2099 (by decide)]
  simpa using hnow

theorem validateTime_1430 (H : Host) : SEMANTIC_RULES.validateTime H "14:30" = true := by
  rw [validateTime_decimal H "14:30" "14" "30" [] 14 30 (by decide) (by decide) (by decide)]
  rfl

theorem validateDriverAge_30 (H : Host) : SEMANTIC_RULES.validateDriverAge H "30" = true := by
  rw [validateDriverAge_decimal H "30" 30 (by decide)]
  rfl

theorem validateSeverity_leve (H : Host) : SEMANTIC_RULES.validateSeverity H "leve" = true := by
  unfold SEMANTIC_RULES.validateSeverity
  rw [toLowerCase_const H "leve" "leve" (by decide) (by decide)]
  decide

theorem validateSeverity_catastrofico (H : Host) :
    SEMANTIC_RULES.validateSeverity H "catastrofico" = false := by
  unfold SEMANTIC_RULES.validateSeverity
  rw [toLowerCase_const H "catastrofico" "catastrofico" (by decide) (by decide)]
  decide

theorem validateWeatherCondition_soleado (H : Host) :
    SEMANTIC_RULES.validateWeatherCondition H "soleado" = true := by
  unfold SEMANTIC_RULES.validateWeatherCondition
  rw [toLowerCase_const H "soleado" "soleado" (by decide) (by decide)]
  decide

theorem validateRoadCondition_seco (H : Host) :
    SEMANTIC_RULES.validateRoadCondition H "seco" = true := by
  unfold SEMANTIC_RULES.validateRoadCondition
  rw [toLowerCase_const H "seco" "seco" (by decide) (by decide)]
  decide

/-- The six checks on a record that has the date, time, age, severity, weather
and road condition of Example 1, at a moment not earlier than its date. -/
theorem rowErrors_like_example (H : Host) (now : Int) (hnow : may2023 ≤ now) (rowIndex : Nat)
    (row : Row) (h1 : getField row "fecha" = some "2023-05-01")
    (h2 : getField row "hora" = some "14:30") (h3 : getField row "edad_conductor" = some "30")
    (h4 : getField row "gravedad" = some "leve")
    (h5 : getField row "condicion_climatica" = some "soleado")
    (h6 : getField row "condicion_via" = some "seco") : rowErrors H now rowIndex row = [] := by
  unfold rowErrors
  rw [checkField_pass row rowIndex "fecha" _ _ _ h1 (validateDate_may2023 H now hnow),
    checkField_pass row rowIndex "hora" _ _ _ h2 (validateTime_1430 H),
    checkField_pass row rowIndex "edad_conductor" _ _ _ h3 (validateDriverAge_30 H),
    checkField_pass row rowIndex "gravedad" _ _ _ h4 (validateSeverity_leve H),
    checkField_pass row rowIndex "condicion_climatica" _ _ _ h5
      (validateWeatherCondition_soleado H),
    checkField_pass row rowIndex "condicion_via" _ _ _ h6 (validateRoadCondition_seco H)]
  rfl

theorem rowErrors_malformedRow (H : Host) (now : Int) (rowIndex : Nat) :
    rowErrors H now rowIndex malformedRow = [] := by
  unfold rowErrors
  rw [checkField_absent malformedRow rowIndex "fecha" _ _ (by decide),
    checkField_pass malformedRow rowIndex "hora" _ _ "7:5" (by decide)
      (by rw [validateTime_decimal H "7:5" "7" "5" [] 7 5 (by decide) (by decide) (by decide)]
          rfl),
    checkField_absent malformedRow rowIndex "edad_conductor" _ _ (by decide),
    checkField_absent malformedRow rowIndex "gravedad" _ _ (by decide),
    checkField_absent malformedRow rowIndex "condicion_climatica" _ _ (by decide),
    checkField_absent malformedRow rowIndex "condicion_via" _ _ (by decide)]
  rfl

/-! ## Lemmas on the histograms and the sums -/

theorem insertProperty_countSum (k : String) (v : HistValue) (hist : JSObject HistValue) :
    countSum (insertProperty k v hist) = countSum hist + v.toNat := by
  induction hist with
  | nil => simp [insertProperty, countSum]
  | cons e hist ih =>
    obtain ⟨k', v'⟩ := e
    unfold insertProperty
    unfold countSum at ih ⊢
    split
    · split
      · simp only [List.map_cons, List.sum_cons]
        omega
      · simp only [List.map_cons, List.sum_cons, ih]
        omega
    · simp only [List.map_cons, List.sum_cons]
      omega
    · simp only [List.map_cons, List.sum_cons, ih]
      omega

theorem insertProperty_allCounts (k : String) (n : Nat) (hist : JSObject HistValue)
    (h : AllCounts hist) : AllCounts (insertProperty k (HistValue.count n) hist) := by
  induction hist with
  | nil =>
    intro e he
    simp only [insertProperty, List.mem_singleton] at he
    subst he
    exact ⟨n, rfl⟩
  | cons e hist ih =>
    obtain ⟨k', v'⟩ := e
    have htail : AllCounts hist := fun x hx => h x (List.mem_cons_of_mem _ hx)
    have hhead : ∃ m, v' = HistValue.count m := h (k', v') (List.mem_cons_self _ _)
    have hnew : ∀ x ∈ (k, HistValue.count n) :: (k', v') :: hist, ∃ m, x.2 = HistValue.count m := by
      intro x hx
      rcases List.mem_cons.1 hx with hx | hx
      · subst hx
        exact ⟨n, rfl⟩
      · exact h x hx
    have hrec : ∀ x ∈ (k', v') :: insertProperty k (HistValue.count n) hist,
        ∃ m, x.2 = HistValue.count m := by
      intro x hx
      rcases List.mem_cons.1 hx with hx | hx
      · subst hx
        exact hhead
      · exact ih htail x hx
    unfold insertProperty
    split
    · split
      · exact hnew
      · exact hrec
    · exact hnew
    · exact hrec

theorem replaceProperty_countSum (k : String) (v old : HistValue) (hist : JSObject HistValue)
    (hold : hist.lookup k = some old) :
    countSum (replaceProperty k v hist) + old.toNat = countSum hist + v.toNat := by
  induction hist with
  | nil => simp [List.lookup] at hold
  | cons e hist ih =>
    obtain ⟨k', v'⟩ := e
    unfold replaceProperty
    by_cases hk : k' = k
    · subst hk
      simp only [List.lookup, beq_self_eq_true, Option.some.injEq] at hold
      subst hold
      simp only [if_true, countSum, List.map_cons, List.sum_cons]
      omega
    · have hb : (k == k') = false := by
        simp only [beq_eq_false_iff_ne, ne_eq]
        exact fun h => hk h.symm
      simp only [List.lookup, hb] at hold
      have := ih hold
      simp only [hk, if_false]
      unfold countSum at this ⊢
      simp only [List.map_cons, List.sum_cons]
      omega

theorem replaceProperty_allCounts (k : String) (n : Nat) (hist : JSObject HistValue)
    (h : AllCounts hist) : AllCounts (replaceProperty k (HistValue.count n) hist) := by
  induction hist with
  | nil =>
    intro e he
    simp [replaceProperty] at he
  | cons e hist ih =>
    obtain ⟨k', v'⟩ := e
    have htail : AllCounts hist := fun x hx => h x (List.mem_cons_of_mem _ hx)
    unfold replaceProperty
    by_cases hk : k' = k
    · simp only [hk, if_true]
      intro x hx
      rcases List.mem_cons.1 hx with hx | hx
      · subst hx
        exact ⟨n, rfl⟩
      · exact htail x hx
    · simp only [hk, if_false]
      intro x hx
      rcases List.mem_cons.1 hx with hx | hx
      · subst hx
        exact h (k', v') (List.mem_cons_self _ _)
      · exact ih htail x hx

/-- One increment under a key that names no member of `Object.prototype`
keeps every value a count and adds one to the sum of the counts. -/
theorem increment_counts (H : Host) (hist : JSObject HistValue) (key : String)
    (hkey : objectPrototypeMembers.contains key = false) (h : AllCounts hist) :
    AllCounts (increment H hist key) ∧ countSum (increment H hist key) = countSum hist + 1 := by
  have hproto : key ≠ "__proto__" := by
    intro hk
    subst hk
    exact absurd hkey (by decide)
  unfold increment setProperty
  simp only [hproto, if_false]
  cases hl : hist.lookup key with
  | none =>
    simp only [hkey, Option.isSome_none]
    exact ⟨insertProperty_allCounts key 1 hist h, insertProperty_countSum key _ hist⟩
  | some old =>
    have hmem : (key, old) ∈ hist := by
      clear h hkey hproto
      induction hist with
      | nil => simp [List.lookup] at hl
      | cons e hist ih =>
        obtain ⟨k', v'⟩ := e
        by_cases hk : key = k'
        · subst hk
          simp only [List.lookup, beq_self_eq_true, Option.some.injEq] at hl
          subst hl
          exact List.mem_cons_self _ _
        · have hb : (key == k') = false := by simpa using hk
          simp only [List.lookup, hb] at hl
          exact List.mem_cons_of_mem _ (ih hl)
    obtain ⟨n, hn⟩ := h (key, old) hmem
    simp only at hn
    subst hn
    simp only [Option.isSome_some, if_true]
    refine ⟨replaceProperty_allCounts key (n + 1) hist h, ?_⟩
    have := replaceProperty_countSum key (HistValue.count (n + 1)) (HistValue.count n) hist hl
    simp only [HistValue.toNat] at this
    omega

theorem foldl_increment_counts (H : Host) (key : Row → String) (rows : List Row)
    (hist : JSObject HistValue)
    (hkeys : ∀ row ∈ rows, objectPrototypeMembers.contains (key row) = false)
    (h : AllCounts hist) :
    AllCounts (rows.foldl (fun acc row => increment H acc (key row)) hist)
      ∧ countSum (rows.foldl (fun acc row => increment H acc (key row)) hist)
          = countSum hist + rows.length := by
  induction rows generalizing hist with
  | nil => exact ⟨h, rfl⟩
  | cons row rows ih =>
    obtain ⟨h1, h2⟩ := increment_counts H hist (key row) (hkeys row (List.mem_cons_self _ _)) h
    obtain ⟨h3, h4⟩ := ih (increment H hist (key row))
      (fun r hr => hkeys r (List.mem_cons_of_mem _ hr)) h1
    refine ⟨h3, ?_⟩
    rw [List.foldl_cons, h4, h2, List.length_cons]
    omega

/-- The severity key of a record that passes the severity check names no
member of `Object.prototype`. -/
theorem severityKey_of_accepted (H : Host) (now : Int) (rowIndex : Nat) (row : Row)
    (hacc : rowErrors H now rowIndex row = []) :
    objectPrototypeMembers.contains (H.toLowerCase (orEmpty (getField row "gravedad")))
      = false := by
  unfold rowErrors at hacc
  simp only [List.append_eq_nil] at hacc
  obtain ⟨⟨⟨_, hsev⟩, _⟩, _⟩ := hacc
  unfold checkField at hsev
  unfold orEmpty
  cases ht : truthy (getField row "gravedad") with
  | false =>
    simp only [Bool.false_eq_true, if_false]
    rw [toLowerCase_const H "" "" (by decide) (by decide)]
    decide
  | true =>
    simp only [if_true]
    cases hv : SEMANTIC_RULES.validateSeverity H ((getField row "gravedad").getD "") with
    | false => simp [ht, hv] at hsev
    | true =>
      unfold SEMANTIC_RULES.validateSeverity at hv
      simp only [List.contains, List.elem_eq_mem, decide_eq_true_eq, List.mem_cons,
        List.mem_singleton, List.not_mem_nil, or_false] at hv
      rcases hv with hv | hv | hv | hv <;> rw [hv] <;> decide

theorem pow_not_le (m k n : Nat) (h : m < 2 ^ k) (hk : k ≤ n) : ¬ 2 ^ n ≤ m := by
  intro hle
  exact Nat.lt_irrefl m
    (Nat.lt_of_lt_of_le h (Nat.le_trans (Nat.pow_le_pow_right (by decide) hk) hle))

theorem not_overflow (m : Nat) (h : m < 2 ^ 64) : ¬ 2 ^ 1024 ≤ m :=
  pow_not_le m 64 1024 h (by decide)

/-- The rounding of a number of `e + 53` binary digits drops `e` digits. -/
theorem nearestDouble_of_size (n e : Nat) (hlo : 2 ^ (e + 52) ≤ n) (hhi : n < 2 ^ (e + 53)) :
    nearestDouble n =
      if 2 ^ e < 2 * (n % 2 ^ e) ∨ (2 * (n % 2 ^ e) = 2 ^ e ∧ n / 2 ^ e % 2 = 1)
      then (n / 2 ^ e + 1) * 2 ^ e else n / 2 ^ e * 2 ^ e := by
  have hsize : n.size = e + 53 :=
    le_antisymm (Nat.size_le.mpr hhi) (Nat.lt_size.mpr hlo)
  unfold nearestDouble
  simp only [hsize, Nat.add_sub_cancel]

/-- A natural number up to `Number.MAX_SAFE_INTEGER` is a double. -/
theorem nearestDouble_safe (n : Nat) (h : n ≤ maxSafeInteger) : nearestDouble n = n := by
  have hsize : n.size - 53 = 0 := by
    apply Nat.sub_eq_zero_of_le
    apply Nat.size_le.mpr
    unfold maxSafeInteger at h
    omega
  unfold nearestDouble
  simp only [hsize, pow_zero, Nat.div_one, Nat.mod_one, Nat.mul_zero, Nat.mul_one]
  simp

/-- An integer of magnitude up to `Number.MAX_SAFE_INTEGER` is a double. -/
theorem toDouble_safe (n : Int) (h : n.natAbs ≤ maxSafeInteger) :
    toDouble n = IntegralNumber.finite n := by
  unfold toDouble
  simp only [nearestDouble_safe n.natAbs h]
  have hlt : ¬ 2 ^ 1024 ≤ n.natAbs := by
    apply not_overflow
    unfold maxSafeInteger at h
    have : (9007199254740991 : Nat) < 2 ^ 64 := by decide
    omega
  rw [if_neg hlt]
  congr 1
  split <;> omega

/-- The integer `2 ^ 53` is a double. -/
theorem toDouble_two_pow_53 :
    toDouble 9007199254740992 = IntegralNumber.finite 9007199254740992 := by
  have h : nearestDouble (9007199254740992 : Int).natAbs = 9007199254740992 := by
    show nearestDouble 9007199254740992 = 9007199254740992
    rw [nearestDouble_of_size 9007199254740992 1 (by decide) (by decide)]
    decide
  unfold toDouble
  simp only [h]
  rw [if_neg (not_overflow _ (by decide))]
  decide

/-- The integer `2 ^ 53 + 1` is no double: it lies half way between the
doubles `2 ^ 53` and `2 ^ 53 + 2` and is rounded to the first, whose
significand is even. -/
theorem toDouble_two_pow_53_succ :
    toDouble 9007199254740993 = IntegralNumber.finite 9007199254740992 := by
  have h : nearestDouble (9007199254740993 : Int).natAbs = 9007199254740992 := by
    show nearestDouble 9007199254740993 = 9007199254740992
    rw [nearestDouble_of_size 9007199254740993 1 (by decide) (by decide)]
    decide
  unfold toDouble
  simp only [h]
  rw [if_neg (not_overflow _ (by decide))]
  decide

theorem add_finite (a b : Int) :
    (IntegralNumber.finite a).add (IntegralNumber.finite b) = toDouble (a + b) :=
  rfl

theorem orZero_finite (n : Int) : orZero (IntegralNumber.finite n) = IntegralNumber.finite n := by
  unfold orZero
  split
  · rename_i heq
    cases heq
  · rename_i heq
    exact heq.symm ▸ rfl
  · rfl

/-- The summand of a record whose casualty count is a safe integer. -/
theorem orZero_parseInt_safe (row : Row) (h : (casualtiesOf row).natAbs ≤ maxSafeInteger) :
    orZero (parseInt (getField row "victimas")) = IntegralNumber.finite (casualtiesOf row) := by
  unfold casualtiesOf at h ⊢
  unfold parseInt
  cases hf : getField row "victimas" with
  | none =>
    have hund : parseIntString ((none : Option String).getD "undefined") = none := by decide
    rw [hund]
    rfl
  | some value =>
    rw [hf] at h
    simp only [Option.getD_some] at h ⊢
    cases hp : parseIntString value with
    | none => rfl
    | some n =>
      rw [hp] at h
      simp only at h ⊢
      rw [toDouble_safe n h, orZero_finite]

/-- While the magnitudes of the casualty counts add up to a safe integer, the
sum of the program is the exact sum. -/
theorem totalCasualties_safe (rows : List Row)
    (h : (rows.map fun row => (casualtiesOf row).natAbs).sum ≤ maxSafeInteger) :
    totalCasualties rows = IntegralNumber.finite (rows.map casualtiesOf).sum := by
  have hgen : ∀ (rows : List Row) (init : Int),
      init.natAbs + (rows.map fun row => (casualtiesOf row).natAbs).sum ≤ maxSafeInteger →
      rows.foldl (fun sum row => sum.add (orZero (parseInt (getField row "victimas"))))
          (IntegralNumber.finite init)
        = IntegralNumber.finite (init + (rows.map casualtiesOf).sum) := by
    intro rows
    induction rows with
    | nil => intro init _; simp
    | cons row rows ih =>
      intro init hb
      rw [List.map_cons, List.sum_cons] at hb
      rw [List.foldl_cons, orZero_parseInt_safe row (by omega)]
      rw [add_finite, toDouble_safe (init + casualtiesOf row) (by omega), ih (init + casualtiesOf row) (by omega), List.map_cons, List.sum_cons]
      congr 1
      omega
  unfold totalCasualties
  rw [hgen rows 0 (by simpa using h)]
  simp

/-- The total of records whose casualty counts are known and small. -/
theorem totalCasualties_of_sum (rows : List Row) (n : Int)
    (h : (rows.map fun row => (casualtiesOf row).natAbs).sum ≤ maxSafeInteger)
    (hsum : (rows.map casualtiesOf).sum = n) :
    totalCasualties rows = IntegralNumber.finite n := by
  rw [totalCasualties_safe rows h, hsum]

/-- The total of the record with `2 ^ 53 + 1` casualties. -/
theorem totalCasualties_largeCasualtiesRow :
    totalCasualties [largeCasualtiesRow] = IntegralNumber.finite 9007199254740992 := by
  have hparse : parseInt (getField largeCasualtiesRow "victimas")
      = toDouble 9007199254740993 := by
    have hp : parseIntString ((getField largeCasualtiesRow "victimas").getD "undefined")
        = some 9007199254740993 := by decide
    unfold parseInt
    rw [hp]
  unfold totalCasualties
  rw [List.foldl_cons, List.foldl_nil, hparse, toDouble_two_pow_53_succ, orZero_finite,
    add_finite]
  exact toDouble_two_pow_53

/-- The total of the records with `2 ^ 53` casualties and with one. -/
theorem totalCasualties_twoPow53Row_one :
    totalCasualties [twoPow53Row, oneCasualtyRow]
      = IntegralNumber.finite 9007199254740992 := by
  have hfirst : parseInt (getField twoPow53Row "victimas") = toDouble 9007199254740992 := by
    have hp : parseIntString ((getField twoPow53Row "victimas").getD "undefined")
        = some 9007199254740992 := by decide
    unfold parseInt
    rw [hp]
  have hsecond : orZero (parseInt (getField oneCasualtyRow "victimas"))
      = IntegralNumber.finite 1 :=
    (orZero_parseInt_safe oneCasualtyRow (by decide)).trans (by decide)
  unfold totalCasualties
  rw [List.foldl_cons, List.foldl_cons, List.foldl_nil, hfirst, toDouble_two_pow_53,
    orZero_finite, add_finite, hsecond]
  rw [show (0 : Int) + 9007199254740992 = 9007199254740992 from by decide,
    toDouble_two_pow_53, add_finite]
  exact toDouble_two_pow_53_succ

/-! ## Lemmas on the errors of single fields -/

theorem mem_checkField (row : Row) (rowIndex : Nat) (field : String) (rule : String → Bool)
    (message : String) (e : ErrorEntry) :
    e ∈ checkField row rowIndex field rule message
      ↔ truthy (getField row field) = true ∧ rule ((getField row field).getD "") = false
        ∧ e = ErrorEntry.coherence (rowIndex + 1) field message ((getField row field).getD "") := by
  unfold checkField
  cases ht : truthy (getField row field) <;>
    cases hr : rule ((getField row field).getD "") <;> simp

/-- In the errors of a valid syntactic result, the entries that carry the
number of a validated row are the errors of the six checks on that row. -/
theorem mem_semantic_errors (H : Host) (now : Int) (self : Parser) (syn : SyntacticResult)
    (hvalid : syn.isValid = true) (rowIndex : Nat) (row : Row)
    (hrow : syn.validatedRows[rowIndex]? = some row) (e : ErrorEntry)
    (he : e.row = rowIndex + 1) :
    e ∈ (self.performSemanticAnalysis H now syn).1.errors ↔ e ∈ rowErrors H now rowIndex row := by
  rw [(performSemanticAnalysis_valid H now self syn hvalid).1, mem_loopErrors]
  constructor
  · rintro ⟨j, r, hj, hej⟩
    have h1 := rowErrors_row H now (0 + j) r e hej
    have hji : j = rowIndex := by omega
    subst hji
    rw [hrow] at hj
    cases hj
    simpa using hej
  · intro h
    exact ⟨rowIndex, row, hrow, by simpa using h⟩

theorem flagged_semantic_errors (H : Host) (now : Int) (self : Parser) (syn : SyntacticResult)
    (hvalid : syn.isValid = true) (rowIndex : Nat) (row : Row)
    (hrow : syn.validatedRows[rowIndex]? = some row) (field : String) :
    flagged (self.performSemanticAnalysis H now syn).1.errors (rowIndex + 1) field
      ↔ flagged (rowErrors H now rowIndex row) (rowIndex + 1) field := by
  unfold flagged
  constructor
  · rintro ⟨m, v, h⟩
    exact ⟨m, v, (mem_semantic_errors H now self syn hvalid rowIndex row hrow
      (ErrorEntry.coherence (rowIndex + 1) field m v) rfl).1 h⟩
  · rintro ⟨m, v, h⟩
    exact ⟨m, v, (mem_semantic_errors H now self syn hvalid rowIndex row hrow
      (ErrorEntry.coherence (rowIndex + 1) field m v) rfl).2 h⟩

theorem flagged_fecha (H : Host) (now : Int) (rowIndex : Nat) (row : Row) :
    flagged (rowErrors H now rowIndex row) (rowIndex + 1) "fecha"
      ↔ truthy (getField row "fecha") = true
        ∧ SEMANTIC_RULES.validateDate H now ((getField row "fecha").getD "") = false := by
  unfold flagged rowErrors
  simp [mem_checkField]

theorem flagged_edad_conductor (H : Host) (now : Int) (rowIndex : Nat) (row : Row) :
    flagged (rowErrors H now rowIndex row) (rowIndex + 1) "edad_conductor"
      ↔ truthy (getField row "edad_conductor") = true
        ∧ SEMANTIC_RULES.validateDriverAge H ((getField row "edad_conductor").getD "") = false := by
  unfold flagged rowErrors
  simp [mem_checkField]

/-! ## Lemmas on digit strings -/

theorem isDigit_ne_colon (c : Char) (h : c.isDigit = true) : c ≠ ':' := by
  intro hc
  subst hc
  exact absurd h (by decide)

theorem splitChars_time (a b c d : Char) (ha : a.isDigit = true) (hb : b.isDigit = true)
    (hc : c.isDigit = true) (hd : d.isDigit = true) :
    splitChars ':' [a, b, ':', c, d] = [[a, b], [c, d]] := by
  simp [splitChars, isDigit_ne_colon a ha, isDigit_ne_colon b hb, isDigit_ne_colon c hc,
    isDigit_ne_colon d hd]

theorem decimalLiteral_of_digits (cs : List Char) (hne : cs ≠ []) (hlen : cs.length ≤ 15)
    (hdigits : cs.all Char.isDigit = true) :
    decimalLiteral (String.mk cs) = some (digitsValue cs) := by
  unfold decimalLiteral
  simp only [hne, hlen, hdigits, ne_eq, not_false_eq_true, and_self, if_true]

theorem patternTime_data (time : String) (h : patternTime time = true) :
    ∃ a b c d : Char, time = String.mk [a, b, ':', c, d] ∧ a.isDigit = true ∧ b.isDigit = true
      ∧ c.isDigit = true ∧ d.isDigit = true := by
  unfold patternTime at h
  split at h
  · rename_i a b c d hdata
    simp only [List.all_cons, List.all_nil, Bool.and_true, Bool.and_eq_true] at h
    obtain ⟨ha, hb, hc, hd⟩ := h
    refine ⟨a, b, c, d, ?_, ha, hb, hc, hd⟩
    cases time
    simp only at hdata
    rw [hdata]
  · exact absurd h (by decide)

theorem validateTime_of_pattern (H : Host) (time : String) (h : patternTime time = true) :
    SEMANTIC_RULES.validateTime H time
      = (decide (digitsValue (time.data.take 2) < 24)
          && decide (digitsValue (time.data.drop 3) < 60)) := by
  obtain ⟨a, b, c, d, rfl, ha, hb, hc, hd⟩ := patternTime_data time h
  have hsplit : jsSplit (String.mk [a, b, ':', c, d]) ':'
      = [String.mk [a, b], String.mk [c, d]] := by
    unfold jsSplit
    simp only [splitChars_time a b c d ha hb hc hd, List.map_cons, List.map_nil]
  rw [validateTime_decimal H _ _ _ [] _ _ hsplit
    (decimalLiteral_of_digits [a, b] (by simp) (by simp) (by simp [ha, hb]))
    (decimalLiteral_of_digits [c, d] (by simp) (by simp) (by simp [hc, hd]))]
  rfl

theorem validateDriverAge_of_pattern (H : Host) (age : String)
    (h : patternDriverAge age = true) :
    SEMANTIC_RULES.validateDriverAge H age
      = (decide (16 ≤ digitsValue age.data) && decide (digitsValue age.data ≤ 100)) := by
  unfold patternDriverAge at h
  simp only [Bool.and_eq_true, decide_eq_true_eq] at h
  obtain ⟨⟨h1, h3⟩, hdigits⟩ := h
  have hne : age.data ≠ [] := by
    intro h0
    rw [h0] at h1
    simp at h1
  have hlit := decimalLiteral_of_digits age.data hne (by omega) hdigits
  exact validateDriverAge_decimal H age _ hlit

/-! ## Lemmas on the classification of field names -/

theorem tokenTypeOf_recognized (n : String) (h : n ∈ recognizedNames) :
    tokenTypeOf n = TokenType.text n := by
  simp only [recognizedNames, FIELD_TO_TOKEN_MAP, List.map_cons, List.map_nil, List.mem_cons,
    List.mem_singleton, List.not_mem_nil, or_false] at h
  rcases h with rfl | rfl | rfl | rfl | rfl | rfl | rfl | rfl | rfl | rfl | rfl | rfl <;> decide

theorem tokenTypeOf_inherited (n : String) (h : objectPrototypeMembers.contains n = true) :
    tokenTypeOf n = TokenType.inherited n := by
  simp only [objectPrototypeMembers, List.contains, List.elem_eq_mem, decide_eq_true_eq,
    List.mem_cons, List.mem_singleton, List.not_mem_nil, or_false] at h
  rcases h with rfl | rfl | rfl | rfl | rfl | rfl | rfl | rfl | rfl | rfl | rfl | rfl <;> decide

theorem tokenTypeOf_other (n : String) (h1 : n ∉ recognizedNames)
    (h2 : objectPrototypeMembers.contains n = false) :
    tokenTypeOf n = TokenType.text "UNKNOWN" := by
  unfold tokenTypeOf
  rw [lookup_eq_none_of_not_mem FIELD_TO_TOKEN_MAP n h1]
  simp only [h2, Bool.false_eq_true, if_false]

/-! ## Lemmas on absent fields -/

theorem mem_rowErrors (H : Host) (now : Int) (rowIndex : Nat) (row : Row) (e : ErrorEntry)
    (he : e ∈ rowErrors H now rowIndex row) :
    ∃ field message, field ∈ coherenceFields
      ∧ truthy (getField row field) = true
      ∧ e = ErrorEntry.coherence (rowIndex + 1) field message ((getField row field).getD "") := by
  unfold rowErrors at he
  simp only [List.mem_append, mem_checkField] at he
  rcases he with ((((h | h) | h) | h) | h) | h
  · exact ⟨"fecha", _, by decide, h.1, h.2.2⟩
  · exact ⟨"hora", _, by decide, h.1, h.2.2⟩
  · exact ⟨"edad_conductor", _, by decide, h.1, h.2.2⟩
  · exact ⟨"gravedad", _, by decide, h.1, h.2.2⟩
  · exact ⟨"condicion_climatica", _, by decide, h.1, h.2.2⟩
  · exact ⟨"condicion_via", _, by decide, h.1, h.2.2⟩

theorem rowErrors_eq_nil_of_absent (H : Host) (now : Int) (rowIndex : Nat) (row : Row)
    (habsent : ∀ field ∈ coherenceFields, truthy (getField row field) = false) :
    rowErrors H now rowIndex row = [] := by
  apply List.eq_nil_iff_forall_not_mem.2
  intro e he
  obtain ⟨field, _, hfield, ht, _⟩ := mem_rowErrors H now rowIndex row e he
  rw [habsent field hfield] at ht
  exact absurd ht (by decide)

/-! ## Lemmas on the symbol table -/

theorem lookup_append_eq {α : Type} (l₁ l₂ : List (String × α)) (k : String) :
    (l₁ ++ l₂).lookup k = match l₁.lookup k with
      | some v => some v
      | none => l₂.lookup k := by
  induction l₁ with
  | nil => rfl
  | cons e l₁ ih =>
    obtain ⟨k', v'⟩ := e
    cases hb : k == k' with
    | true => simp [List.lookup, hb]
    | false =>
      rw [List.cons_append]
      simp only [List.lookup, hb]
      exact ih

theorem lookup_isSome_iff_mem {α : Type} (l : List (String × α)) (k : String) :
    (l.lookup k).isSome = true ↔ k ∈ l.map Prod.fst := by
  induction l with
  | nil => simp [List.lookup]
  | cons e l ih =>
    obtain ⟨k', v'⟩ := e
    by_cases hk : k = k'
    · subst hk
      simp [List.lookup]
    · have hb : (k == k') = false := by simpa using hk
      simp only [List.lookup, hb, ih, List.map_cons, List.mem_cons, hk, false_or]

theorem lookup_isSome_eq_false {α : Type} (l : List (String × α)) (k : String)
    (hk : k ∉ l.map Prod.fst) : (l.lookup k).isSome = false := by
  rw [lookup_eq_none_of_not_mem l k hk]
  rfl

theorem lookup_mem {α : Type} (l : List (String × α)) (k : String) (v : α)
    (h : l.lookup k = some v) : (k, v) ∈ l := by
  induction l with
  | nil => simp [List.lookup] at h
  | cons e l ih =>
    obtain ⟨k', v'⟩ := e
    by_cases hk : k = k'
    · subst hk
      simp only [List.lookup, beq_self_eq_true, Option.some.injEq] at h
      subst h
      exact List.mem_cons_self _ _
    · have hb : (k == k') = false := by simpa using hk
      simp only [List.lookup, hb] at h
      exact List.mem_cons_of_mem _ (ih h)

theorem lookup_of_mem_nodup {α : Type} (l : List (String × α)) (k : String) (v : α)
    (hnodup : (l.map Prod.fst).Nodup) (h : (k, v) ∈ l) : l.lookup k = some v := by
  induction l with
  | nil => simp at h
  | cons e l ih =>
    obtain ⟨k', v'⟩ := e
    simp only [List.map_cons, List.nodup_cons] at hnodup
    rcases List.mem_cons.1 h with heq | hmem
    · cases heq
      simp [List.lookup]
    · have hk : k ≠ k' := by
        intro hkk
        apply hnodup.1
        rw [← hkk]
        exact List.mem_map.2 ⟨(k, v), hmem, rfl⟩
      have hb : (k == k') = false := by simpa using hk
      simp only [List.lookup, hb]
      exact ih hnodup.2 hmem

theorem replaceProperty_keys {α : Type} (k : String) (v : α) (m : List (String × α)) :
    (replaceProperty k v m).map Prod.fst = m.map Prod.fst := by
  induction m with
  | nil => rfl
  | cons e m ih =>
    obtain ⟨k', v'⟩ := e
    unfold replaceProperty
    by_cases hk : k' = k
    · simp [hk]
    · simp [hk, ih]

theorem lookup_replaceProperty {α : Type} (k : String) (v : α) (m : List (String × α))
    (k' : String) (hk : k ∈ m.map Prod.fst) :
    (replaceProperty k v m).lookup k' = if k' = k then some v else m.lookup k' := by
  induction m with
  | nil => simp at hk
  | cons e m ih =>
    obtain ⟨k₀, v₀⟩ := e
    unfold replaceProperty
    by_cases h0 : k₀ = k
    · subst h0
      by_cases h1 : k' = k₀
      · simp [h1, List.lookup]
      · have hb : (k' == k₀) = false := by simpa using h1
        simp [h1, List.lookup, hb]
    · have hmem : k ∈ m.map Prod.fst := by
        simp only [List.map_cons, List.mem_cons] at hk
        rcases hk with hk | hk
        · exact absurd hk.symm h0
        · exact hk
      simp only [h0, if_false]
      by_cases h1 : k' = k₀
      · subst h1
        have hne : ¬ k' = k := h0
        simp [List.lookup, hne]
      · have hb : (k' == k₀) = false := by simpa using h1
        simp only [List.lookup, hb]
        exact ih hmem

theorem set_of_mem (m : JSMap Row) (k : String) (v : Row) (hk : k ∈ m.map Prod.fst) :
    m.set k v = replaceProperty k v m := by
  unfold JSMap.set
  rw [(lookup_isSome_iff_mem m k).2 hk]
  rfl

theorem set_of_not_mem (m : JSMap Row) (k : String) (v : Row) (hk : k ∉ m.map Prod.fst) :
    m.set k v = m ++ [(k, v)] := by
  unfold JSMap.set
  rw [lookup_isSome_eq_false m k hk]
  rfl

theorem set_keys (m : JSMap Row) (k : String) (v : Row) :
    (m.set k v).map Prod.fst
      = if k ∈ m.map Prod.fst then m.map Prod.fst else m.map Prod.fst ++ [k] := by
  by_cases hk : k ∈ m.map Prod.fst
  · rw [set_of_mem m k v hk, replaceProperty_keys, if_pos hk]
  · rw [set_of_not_mem m k v hk, if_neg hk]
    simp

theorem lookup_set (m : JSMap Row) (k : String) (v : Row) (k' : String) :
    (m.set k v).lookup k' = if k' = k then some v else m.lookup k' := by
  by_cases hk : k ∈ m.map Prod.fst
  · rw [set_of_mem m k v hk]
    exact lookup_replaceProperty k v m k' hk
  · rw [set_of_not_mem m k v hk, lookup_append_eq]
    by_cases h1 : k' = k
    · subst h1
      rw [lookup_eq_none_of_not_mem m k' hk]
      simp [List.lookup]
    · have hb : (k' == k) = false := by simpa using h1
      rw [if_neg h1]
      cases hl : m.lookup k' with
      | some w => rfl
      | none => simp [List.lookup, hb]

theorem set_nodup (m : JSMap Row) (k : String) (v : Row) (h : (m.map Prod.fst).Nodup) :
    ((m.set k v).map Prod.fst).Nodup := by
  rw [set_keys]
  by_cases hk : k ∈ m.map Prod.fst
  · rw [if_pos hk]
    exact h
  · rw [if_neg hk, List.nodup_append]
    refine ⟨h, List.nodup_singleton k, ?_⟩
    intro a ha hb
    simp only [List.mem_singleton] at hb
    subst hb
    exact hk ha

theorem replay_cons (m : JSMap Row) (e : String × Row) (entries : List (String × Row)) :
    replay m (e :: entries) = replay (m.set e.1 e.2) entries := rfl

theorem replay_nodup (entries : List (String × Row)) (m : JSMap Row)
    (h : (m.map Prod.fst).Nodup) : ((replay m entries).map Prod.fst).Nodup := by
  induction entries generalizing m with
  | nil => exact h
  | cons e entries ih =>
    rw [replay_cons]
    exact ih (m.set e.1 e.2) (set_nodup m e.1 e.2 h)

theorem lastWins_cons (k' : String) (v : Row) (entries : List (String × Row)) (k : String) :
    lastWins ((k', v) :: entries) k = match lastWins entries k with
      | some w => some w
      | none => if k = k' then some v else none := rfl

theorem lookup_replay (entries : List (String × Row)) (m : JSMap Row) (k : String) :
    (replay m entries).lookup k = match lastWins entries k with
      | some w => some w
      | none => m.lookup k := by
  induction entries generalizing m with
  | nil => rfl
  | cons e entries ih =>
    obtain ⟨k', v⟩ := e
    rw [replay_cons, ih (m.set k' v), lookup_set, lastWins_cons]
    cases hl : lastWins entries k with
    | some w => rfl
    | none =>
      by_cases hk : k = k'
      · simp [hk]
      · simp [hk]

theorem mem_replay_keys (entries : List (String × Row)) (m : JSMap Row) (k : String) :
    k ∈ (replay m entries).map Prod.fst ↔ k ∈ m.map Prod.fst ∨ k ∈ entries.map Prod.fst := by
  induction entries generalizing m with
  | nil => simp [replay]
  | cons e entries ih =>
    rw [replay_cons, ih (m.set e.1 e.2), set_keys]
    by_cases hk : e.1 ∈ m.map Prod.fst
    · rw [if_pos hk]
      simp only [List.map_cons, List.mem_cons]
      constructor
      · rintro (h1 | h1)
        · exact Or.inl h1
        · exact Or.inr (Or.inr h1)
      · rintro (h1 | h1 | h1)
        · exact Or.inl h1
        · exact Or.inl (h1 ▸ hk)
        · exact Or.inr h1
    · rw [if_neg hk]
      simp only [List.mem_append, List.mem_singleton, List.map_cons, List.mem_cons,
        List.not_mem_nil, or_false]
      constructor
      · rintro ((h1 | h1) | h1)
        · exact Or.inl h1
        · exact Or.inr (Or.inl h1)
        · exact Or.inr (Or.inr h1)
      · rintro (h1 | h1 | h1)
        · exact Or.inl (Or.inl h1)
        · exact Or.inl (Or.inr h1)
        · exact Or.inr h1

theorem lastWins_eq_none_iff (entries : List (String × Row)) (k : String) :
    lastWins entries k = none ↔ k ∉ entries.map Prod.fst := by
  induction entries with
  | nil => simp [lastWins]
  | cons e entries ih =>
    obtain ⟨k', v'⟩ := e
    rw [lastWins_cons]
    cases hl : lastWins entries k with
    | some w =>
      have hmem : k ∈ entries.map Prod.fst := by
        by_contra hnot
        rw [ih.2 hnot] at hl
        exact absurd hl (by simp)
      simp [hmem]
    | none =>
      have hnot := ih.1 hl
      by_cases hk : k = k'
      · simp [hk]
      · simp [hk, hnot]

theorem lastWins_mem (entries : List (String × Row)) (k : String) (v : Row)
    (h : lastWins entries k = some v) : (k, v) ∈ entries := by
  induction entries with
  | nil => simp [lastWins] at h
  | cons e entries ih =>
    obtain ⟨k', v'⟩ := e
    rw [lastWins_cons] at h
    cases hl : lastWins entries k with
    | some w =>
      rw [hl] at h
      simp only [Option.some.injEq] at h
      subst h
      exact List.mem_cons_of_mem _ (ih hl)
    | none =>
      rw [hl] at h
      by_cases hk : k = k'
      · simp only [hk, if_true, Option.some.injEq] at h
        subst h
        subst hk
        exact List.mem_cons_self _ _
      · simp [hk] at h

/-- The value of the last-wins map under a key is that of an insertion after
which no insertion has that key. -/
theorem lastWins_eq_some_iff (entries : List (String × Row)) (k : String) (v : Row) :
    lastWins entries k = some v
      ↔ ∃ before after, entries = before ++ (k, v) :: after ∧ k ∉ after.map Prod.fst := by
  induction entries with
  | nil => simp [lastWins]
  | cons e entries ih =>
    obtain ⟨k', v'⟩ := e
    rw [lastWins_cons]
    cases hl : lastWins entries k with
    | some w =>
      simp only [Option.some.injEq]
      constructor
      · intro hw
        subst hw
        obtain ⟨before, after, heq, hnot⟩ := ih.1 hl
        exact ⟨(k', v') :: before, after, by rw [heq]; rfl, hnot⟩
      · rintro ⟨before, after, heq, hnot⟩
        cases before with
        | nil =>
          simp only [List.nil_append, List.cons.injEq] at heq
          have hin := lastWins_mem entries k w hl
          rw [heq.2] at hin
          exact absurd (List.mem_map.2 ⟨(k, w), hin, rfl⟩) hnot
        | cons b before =>
          simp only [List.cons_append, List.cons.injEq] at heq
          have hsome := ih.2 ⟨before, after, heq.2, hnot⟩
          rw [hl] at hsome
          exact Option.some.inj hsome
    | none =>
      have hnotin := (lastWins_eq_none_iff entries k).1 hl
      simp only
      constructor
      · intro h
        by_cases hk : k = k'
        · simp only [hk, if_true, Option.some.injEq] at h
          subst h
          subst hk
          exact ⟨[], entries, rfl, hnotin⟩
        · simp [hk] at h
      · rintro ⟨before, after, heq, _⟩
        cases before with
        | nil =>
          simp only [List.nil_append, List.cons.injEq, Prod.mk.injEq] at heq
          obtain ⟨⟨h1, h2⟩, _⟩ := heq
          simp [h1, h2]
        | cons b before =>
          simp only [List.cons_append, List.cons.injEq] at heq
          exfalso
          apply hnotin
          rw [heq.2]
          simp

theorem semanticLoop_symbolTable (H : Host) (now : Int) (rows : List Row) (rowIndex : Nat)
    (state : SemanticState) :
    (semanticLoop H now rowIndex rows state).symbolTable
      = replay state.symbolTable (acceptedEntries H now rowIndex rows) := by
  induction rows generalizing rowIndex state with
  | nil => rfl
  | cons row rest ih =>
    unfold semanticLoop acceptedEntries
    rw [ih]
    unfold semanticStep
    by_cases h : (rowErrors H now rowIndex row).length = 0
    · simp only [h, if_true, replay_cons]
    · simp only [h, if_false]

theorem mem_acceptedEntries (H : Host) (now : Int) (rows : List Row) (rowIndex : Nat)
    (k : String) (row : Row) :
    (k, row) ∈ acceptedEntries H now rowIndex rows
      ↔ ∃ j, rows[j]? = some row ∧ rowErrors H now (rowIndex + j) row = []
          ∧ k = accidentId row (rowIndex + j) := by
  induction rows generalizing rowIndex with
  | nil => simp [acceptedEntries]
  | cons r rest ih =>
    have hshift : ∀ j, rowIndex + (j + 1) = rowIndex + 1 + j := fun j => by omega
    have htail : (k, row) ∈ acceptedEntries H now (rowIndex + 1) rest
        ↔ ∃ j, (r :: rest)[j + 1]? = some row ∧ rowErrors H now (rowIndex + (j + 1)) row = []
            ∧ k = accidentId row (rowIndex + (j + 1)) := by
      rw [ih]
      constructor
      · rintro ⟨j, h1, h2, h3⟩
        exact ⟨j, by simpa using h1, by rw [hshift]; exact h2, by rw [hshift]; exact h3⟩
      · rintro ⟨j, h1, h2, h3⟩
        exact ⟨j, by simpa using h1, by rw [← hshift]; exact h2, by rw [← hshift]; exact h3⟩
    unfold acceptedEntries
    by_cases h : (rowErrors H now rowIndex r).length = 0
    · simp only [h, if_true, List.mem_cons, Prod.mk.injEq, htail]
      constructor
      · rintro (⟨hk, hr⟩ | ⟨j, hj⟩)
        · subst hr
          exact ⟨0, by simp, by simpa using List.length_eq_zero.mp h, by simpa using hk⟩
        · exact ⟨j + 1, hj⟩
      · rintro ⟨j, h1, h2, h3⟩
        cases j with
        | zero =>
          left
          simp only [List.getElem?_cons_zero, Option.some.injEq] at h1
          subst h1
          exact ⟨by simpa using h3, rfl⟩
        | succ j => exact Or.inr ⟨j, h1, h2, h3⟩
    · simp only [h, if_false, htail]
      constructor
      · rintro ⟨j, hj⟩
        exact ⟨j + 1, hj⟩
      · rintro ⟨j, h1, h2, h3⟩
        cases j with
        | zero =>
          simp only [List.getElem?_cons_zero, Option.some.injEq] at h1
          subst h1
          simp only [Nat.add_zero] at h2
          rw [h2] at h
          exact absurd rfl h
        | succ j => exact ⟨j, h1, h2, h3⟩

theorem acceptedEntries_rows (H : Host) (now : Int) (rows : List Row) (rowIndex : Nat) :
    (acceptedEntries H now rowIndex rows).map Prod.snd
      = rows.filter (fun row => decide ((rowErrors H now 0 row).length = 0)) := by
  induction rows generalizing rowIndex with
  | nil => rfl
  | cons row rest ih =>
    unfold acceptedEntries
    rw [rowErrors_length H now rowIndex 0 row]
    by_cases h : (rowErrors H now 0 row).length = 0
    · simp only [h, if_true, List.map_cons, ih, List.filter_cons, decide_True]
    · simp only [h, if_false, ih, List.filter_cons, decide_False]
      rfl

/-- The semantic analysis of a valid syntactic result on any instance: the
result and the instance after the call. -/
theorem performSemanticAnalysis_eq (H : Host) (now : Int) (self : Parser)
    (syn : SyntacticResult) (hvalid : syn.isValid = true) :
    self.performSemanticAnalysis H now syn
      = ({ isValid := decide ((loopErrors H now 0 syn.validatedRows).length = 0)
           errors := loopErrors H now 0 syn.validatedRows
           message := none
           validRows := some (syn.validatedRows.filter
             (fun row => decide ((rowErrors H now 0 row).length = 0)))
           symbolTable := some (replay self.symbolTable
             (acceptedEntries H now 0 syn.validatedRows)) },
         { csvData := self.csvData
           symbolTable := replay self.symbolTable
             (acceptedEntries H now 0 syn.validatedRows) }) := by
  unfold Parser.performSemanticAnalysis
  simp [hvalid, semanticLoop_errors, semanticLoop_validRows, semanticLoop_symbolTable]

theorem replay_keys_of_mem (entries : List (String × Row)) (m : JSMap Row)
    (h : ∀ e ∈ entries, e.1 ∈ m.map Prod.fst) :
    (replay m entries).map Prod.fst = m.map Prod.fst := by
  induction entries generalizing m with
  | nil => rfl
  | cons e entries ih =>
    have hk : e.1 ∈ m.map Prod.fst := h e (List.mem_cons_self _ _)
    have hkeys : (m.set e.1 e.2).map Prod.fst = m.map Prod.fst := by
      rw [set_keys, if_pos hk]
    rw [replay_cons, ih (m.set e.1 e.2), hkeys]
    intro e' he'
    rw [hkeys]
    exact h e' (List.mem_cons_of_mem _ he')

theorem eq_of_keys_of_lookup {α : Type} (l₁ l₂ : List (String × α))
    (hkeys : l₁.map Prod.fst = l₂.map Prod.fst) (hnodup : (l₁.map Prod.fst).Nodup)
    (hlookup : ∀ k, l₁.lookup k = l₂.lookup k) : l₁ = l₂ := by
  induction l₁ generalizing l₂ with
  | nil =>
    cases l₂ with
    | nil => rfl
    | cons e l₂ => simp at hkeys
  | cons e₁ l₁ ih =>
    cases l₂ with
    | nil => simp at hkeys
    | cons e₂ l₂ =>
      obtain ⟨k₁, v₁⟩ := e₁
      obtain ⟨k₂, v₂⟩ := e₂
      simp only [List.map_cons, List.cons.injEq] at hkeys
      obtain ⟨hk, htail⟩ := hkeys
      subst hk
      simp only [List.map_cons, List.nodup_cons] at hnodup
      have hv : v₁ = v₂ := by
        have := hlookup k₁
        simpa [List.lookup] using this
      subst hv
      have hrest : ∀ k, l₁.lookup k = l₂.lookup k := by
        intro k
        by_cases hkk : k = k₁
        · subst hkk
          rw [lookup_eq_none_of_not_mem l₁ k hnodup.1,
            lookup_eq_none_of_not_mem l₂ k (by rw [← htail]; exact hnodup.1)]
        · have hb : (k == k₁) = false := by simpa using hkk
          have := hlookup k
          simpa [List.lookup, hb] using this
      rw [ih l₂ htail hnodup.2 hrest]

/-- Replaying on a table the insertions that built it from the empty table
leaves it as it is: same keys in the same order, same values. -/
theorem replay_replay (entries : List (String × Row)) :
    replay (replay [] entries) entries = replay [] entries := by
  have hmem : ∀ e ∈ entries, e.1 ∈ (replay [] entries).map Prod.fst := by
    intro e he
    rw [mem_replay_keys]
    exact Or.inr (List.mem_map.2 ⟨e, he, rfl⟩)
  have hkeys := replay_keys_of_mem entries (replay [] entries) hmem
  have hnodup : ((replay (replay [] entries) entries).map Prod.fst).Nodup := by
    rw [hkeys]
    exact replay_nodup entries [] (by simp)
  apply eq_of_keys_of_lookup _ _ hkeys hnodup
  intro k
  rw [lookup_replay entries (replay [] entries), lookup_replay entries []]
  cases lastWins entries k <;> rfl

theorem performLexicalAnalysis_csvData (H : Host) (parser : Parser) :
    parser.performLexicalAnalysis H = (Parser.create parser.csvData).performLexicalAnalysis H :=
  rfl

theorem generateReport_csvData (H : Host) (csvData : List Row) (m₁ m₂ : JSMap Row)
    (sem : SemanticResult) :
    Parser.generateReport H { csvData := csvData, symbolTable := m₁ } sem
      = Parser.generateReport H { csvData := csvData, symbolTable := m₂ } sem := rfl

theorem generateReport_returns (H : Host) (self : Parser) (sem : SemanticResult)
    (h : sem.isValid = false ∨ sem.validRows.isSome = true) :
    ∃ report, self.generateReport H sem = some report := by
  cases hv : sem.isValid with
  | false =>
    obtain ⟨report, hrep, _⟩ := generateReport_invalid H self sem hv
    exact ⟨report, hrep⟩
  | true =>
    rcases h with h | h
    · rw [hv] at h
      exact absurd h (by decide)
    · obtain ⟨rows, hrows⟩ := Option.isSome_iff_exists.1 h
      obtain ⟨report, hrep, _⟩ := generateReport_valid H self sem rows hv hrows
      exact ⟨report, hrep⟩

/-- The stages on an instance that holds the records `csvData` and any symbol
table: the analysis returns, with the semantic result and the instance that
`performSemanticAnalysis` gives on the validated copies. -/
theorem analyseOn_returns (H : Host) (now : Int) (csvData : List Row) (m : JSMap Row) :
    ∃ report,
      Parser.generateReport H (Parser.mk csvData m)
          (Parser.performSemanticAnalysis H now (Parser.mk csvData m) (syntacticOf csvData)).1
        = some report
      ∧ analyseOn H now (Parser.mk csvData m)
        = some
            (Analysis.mk ((Parser.create csvData).performLexicalAnalysis H)
               (syntacticOf csvData)
               (Parser.performSemanticAnalysis H now (Parser.mk csvData m)
                 (syntacticOf csvData)).1
               report,
             (Parser.performSemanticAnalysis H now (Parser.mk csvData m)
               (syntacticOf csvData)).2) := by
  have hsyn : Parser.performSyntacticAnalysis ((Parser.create csvData).performLexicalAnalysis H)
      = some (syntacticOf csvData) := performSyntacticAnalysis_lexical H csvData
  have hsem := performSemanticAnalysis_eq H now (Parser.mk csvData m) (syntacticOf csvData) rfl
  obtain ⟨report, hrep⟩ := generateReport_returns H (Parser.mk csvData m)
    (Parser.performSemanticAnalysis H now (Parser.mk csvData m) (syntacticOf csvData)).1
    (Or.inr (by rw [hsem]; rfl))
  refine ⟨report, hrep, ?_⟩
  have hrep' := hrep
  rw [hsem] at hrep' ⊢
  rw [generateReport_csvData H csvData m
    (replay m (acceptedEntries H now 0 (syntacticOf csvData).validatedRows))] at hrep'
  unfold analyseOn
  rw [performLexicalAnalysis_csvData]
  simp only [hsyn, hsem, hrep']

theorem analyse_eq_analyseOn (H : Host) (now : Int) (csvData : List Row) :
    analyse H now csvData = (analyseOn H now (Parser.create csvData)).map Prod.fst := by
  unfold analyse analyseOn
  simp only
  cases Parser.performSyntacticAnalysis ((Parser.create csvData).performLexicalAnalysis H) with
  | none => rfl
  | some syn =>
    simp only
    cases Parser.generateReport H
      ((Parser.create csvData).performSemanticAnalysis H now syn).2
      ((Parser.create csvData).performSemanticAnalysis H now syn).1 with
    | none => rfl
    | some report => rfl

/-- The analysis of a record sequence on a fresh instance returns; its
syntactic result is `syntacticOf`, its semantic result that of
`performSemanticAnalysis` on it, and its report that of `generateReport`. -/
theorem analyse_semantic (H : Host) (now : Int) (csvData : List Row) :
    ∃ a, analyse H now csvData = some a
      ∧ a.lexical = (Parser.create csvData).performLexicalAnalysis H
      ∧ a.syntactic = syntacticOf csvData
      ∧ a.semantic
          = ((Parser.create csvData).performSemanticAnalysis H now (syntacticOf csvData)).1
      ∧ Parser.generateReport H (Parser.create csvData) a.semantic = some a.report := by
  obtain ⟨report, hrep, hfirst⟩ := analyseOn_returns H now csvData []
  refine ⟨_, (analyse_eq_analyseOn H now csvData).trans
    (congrArg (Option.map Prod.fst) hfirst), rfl, rfl, rfl, hrep⟩

/-- The analysis of one ordinary record without coherence error: it is
accepted, and the symbol table holds it under its key. -/
theorem analyse_single_accepted (H : Host) (now : Int) (row : Row)
    (hcopy : validatedCopy row = row) (hne : row ≠ []) (hnil : rowErrors H now 0 row = []) :
    ∃ a, analyse H now [row] = some a
      ∧ a.semantic.validRows = some [row]
      ∧ a.semantic.symbolTable = some [(accidentId row 0, row)]
      ∧ a.report.status = "success"
      ∧ a.report.detailedData = some
          { severityCounts := severityCounts H [row]
            vehicleTypeCounts := vehicleTypeCounts H [row]
            alcoholInvolved := alcoholInvolved H [row]
            speedingInvolved := speedingInvolved H [row]
            totalCasualties := totalCasualties [row] } := by
  obtain ⟨a, ha, _, _, hgood, _⟩ := analyse_single H now row hcopy hne
  obtain ⟨a', ha', _, _, hsem, _⟩ := analyse_semantic H now [row]
  rw [ha] at ha'
  cases ha'
  obtain ⟨_, hrows, hstatus, hdata⟩ := hgood hnil
  refine ⟨a, ha, hrows, ?_, hstatus, hdata⟩
  have hv : (syntacticOf [row]).validatedRows = [row] := by
    simp [syntacticOf, List.filter_cons, hne, hcopy]
  rw [hsem, performSemanticAnalysis_eq H now _ _ rfl, hv]
  simp only [acceptedEntries, hnil, List.length_nil, if_true]
  rfl

/-! ## Lemmas on the order of the tokens -/

theorem map_rowToken_eq_fieldTokens (H : Host) (rowIndex : Nat) (before after : Row)
    (hnodup : ((before ++ after).map Prod.fst).Nodup) :
    after.map (fun entry =>
        ({ name := entry.1
           type := tokenTypeOf (H.toLowerCase (jsTrim entry.1))
           value := entry.2
           row := rowIndex + 1
           position := ((before ++ after).map Prod.fst).indexOf entry.1 + 1 } : Token))
      = fieldTokens H (rowIndex + 1) (before.length + 1) after := by
  induction after generalizing before with
  | nil => rfl
  | cons field rest ih =>
    have hnot : field.1 ∉ before.map Prod.fst := by
      intro hmem
      rw [List.map_append, List.map_cons] at hnodup
      exact (List.nodup_append.1 hnodup).2.2 hmem (List.mem_cons_self _ _)
    have hidx : ((before ++ field :: rest).map Prod.fst).indexOf field.1 = before.length := by
      rw [List.map_append, List.map_cons, List.indexOf_append_of_not_mem hnot,
        List.indexOf_cons_self, List.length_map]
      rfl
    have hrest := ih (before ++ [field]) (by simpa using hnodup)
    simp only [List.append_assoc, List.singleton_append, List.length_append,
      List.length_singleton] at hrest
    rw [List.map_cons, hidx, hrest]
    rfl

theorem rowTokens_eq_fieldTokens (H : Host) (rowIndex : Nat) (row : Row)
    (hnodup : (row.map Prod.fst).Nodup) :
    rowTokens H rowIndex row = fieldTokens H (rowIndex + 1) 1 row := by
  have h := map_rowToken_eq_fieldTokens H rowIndex [] row (by simpa using hnodup)
  simpa [rowTokens] using h

theorem lexicalRows_eq_specTokens (H : Host) (rows : List Row) (rowIndex : Nat)
    (hnodup : ∀ row ∈ rows, (row.map Prod.fst).Nodup) :
    (lexicalRows H rowIndex rows).flatten = specTokens H (rowIndex + 1) rows := by
  induction rows generalizing rowIndex with
  | nil => rfl
  | cons row rest ih =>
    unfold lexicalRows specTokens
    rw [List.flatten_cons, ih (rowIndex + 1) (fun r hr => hnodup r (List.mem_cons_of_mem _ hr)),
      rowTokens_eq_fieldTokens H rowIndex row (hnodup row (List.mem_cons_self _ _))]

theorem fieldTokens_length (H : Host) (i k : Nat) (fields : List (String × String)) :
    (fieldTokens H i k fields).length = fields.length := by
  induction fields generalizing k with
  | nil => rfl
  | cons field rest ih => simp [fieldTokens, ih]

theorem specTokens_length (H : Host) (i : Nat) (rows : List Row) :
    (specTokens H i rows).length = (rows.map List.length).sum := by
  induction rows generalizing i with
  | nil => rfl
  | cons row rest ih => simp [specTokens, fieldTokens_length, ih]

theorem mem_fieldTokens (H : Host) (i k : Nat) (fields : List (String × String)) (t : Token)
    (ht : t ∈ fieldTokens H i k fields) : t.row = i ∧ k ≤ t.position := by
  induction fields generalizing k with
  | nil => simp [fieldTokens] at ht
  | cons field rest ih =>
    unfold fieldTokens at ht
    rcases List.mem_cons.1 ht with h | h
    · subst h
      exact ⟨rfl, Nat.le_refl _⟩
    · obtain ⟨h1, h2⟩ := ih (k + 1) h
      exact ⟨h1, by omega⟩

theorem fieldTokens_pairwise (H : Host) (i k : Nat) (fields : List (String × String)) :
    (fieldTokens H i k fields).Pairwise tokenBefore := by
  induction fields generalizing k with
  | nil => exact List.Pairwise.nil
  | cons field rest ih =>
    unfold fieldTokens
    refine List.Pairwise.cons ?_ (ih (k + 1))
    intro u hu
    obtain ⟨h1, h2⟩ := mem_fieldTokens H i (k + 1) rest u hu
    right
    exact ⟨h1.symm, by simp only; omega⟩

theorem mem_specTokens (H : Host) (i : Nat) (rows : List Row) (t : Token)
    (ht : t ∈ specTokens H i rows) : i ≤ t.row := by
  induction rows generalizing i with
  | nil => simp [specTokens] at ht
  | cons row rest ih =>
    unfold specTokens at ht
    rcases List.mem_append.1 ht with h | h
    · exact Nat.le_of_eq (mem_fieldTokens H i 1 row t h).1.symm
    · exact Nat.le_of_succ_le (ih (i + 1) h)

theorem specTokens_pairwise (H : Host) (i : Nat) (rows : List Row) :
    (specTokens H i rows).Pairwise tokenBefore := by
  induction rows generalizing i with
  | nil => exact List.Pairwise.nil
  | cons row rest ih =>
    unfold specTokens
    rw [List.pairwise_append]
    refine ⟨fieldTokens_pairwise H i 1 row, ih (i + 1), ?_⟩
    intro t ht u hu
    left
    have h1 := (mem_fieldTokens H i 1 row t ht).1
    have h2 := mem_specTokens H (i + 1) rest u hu
    omega

/-! ## Lemmas on the status of the report -/

theorem loopErrors_eq_nil_iff (H : Host) (now : Int) (rows : List Row) (rowIndex : Nat) :
    loopErrors H now rowIndex rows = [] ↔ ∀ row ∈ rows, rowErrors H now 0 row = [] := by
  induction rows generalizing rowIndex with
  | nil => simp [loopErrors]
  | cons row rest ih =>
    unfold loopErrors
    rw [List.append_eq_nil, ih (rowIndex + 1), rowErrors_eq_nil_index H now rowIndex 0 row]
    simp

theorem filter_accepted_of_nil (H : Host) (now : Int) (rows : List Row)
    (h : ∀ row ∈ rows, rowErrors H now 0 row = []) :
    rows.filter (fun row => decide ((rowErrors H now 0 row).length = 0)) = rows := by
  rw [List.filter_eq_self]
  intro row hrow
  rw [h row hrow]
  rfl

theorem accepts_iff_of_ne (H : Host) (now : Int) (csvData : List Row) (a : Analysis)
    (row : Row) (hrow : row ∈ csvData) (hne : row ≠ [])
    (hrows : a.semantic.validRows = some ((syntacticOf csvData).validatedRows.filter
      (fun r => decide ((rowErrors H now 0 r).length = 0)))) :
    a.accepts row = true ↔ rowErrors H now 0 (validatedCopy row) = [] := by
  unfold Analysis.accepts
  rw [hrows]
  simp only [syntacticOf, Option.getD_some, List.contains, List.elem_eq_mem, List.mem_filter,
    List.mem_map, decide_eq_true_eq, List.length_eq_zero]
  constructor
  · rintro ⟨_, h⟩
    exact h
  · intro h
    exact ⟨⟨row, ⟨hrow, by simpa using hne⟩, rfl⟩, h⟩

/-- The report of the analysis of a record sequence, by cases on the errors
of the semantic analysis. -/
theorem analyse_report (H : Host) (now : Int) (csvData : List Row) :
    ∃ a, analyse H now csvData = some a
      ∧ a.syntactic = syntacticOf csvData
      ∧ a.semantic.errors = loopErrors H now 0 (syntacticOf csvData).validatedRows
      ∧ a.semantic.validRows = some ((syntacticOf csvData).validatedRows.filter
          (fun r => decide ((rowErrors H now 0 r).length = 0)))
      ∧ (loopErrors H now 0 (syntacticOf csvData).validatedRows = [] →
          a.report.status = "success"
          ∧ a.report.detailedData.isSome = true
          ∧ a.report.summary.lookup "Accidentes validos"
              = some (SummaryValue.number (syntacticOf csvData).validatedRows.length)
          ∧ a.report.summary.lookup "Total de accidentes analizados"
              = some (SummaryValue.number csvData.length))
      ∧ (loopErrors H now 0 (syntacticOf csvData).validatedRows ≠ [] →
          a.report.status = "error" ∧ a.report.detailedData = none) := by
  obtain ⟨a, ha, _, hsyn, hsem, hrep⟩ := analyse_semantic H now csvData
  have heq := performSemanticAnalysis_eq H now (Parser.create csvData) (syntacticOf csvData) rfl
  rw [heq] at hsem
  simp only at hsem
  refine ⟨a, ha, hsyn, by rw [hsem], by rw [hsem], ?_, ?_⟩
  · intro hnil
    have hall := (loopErrors_eq_nil_iff H now _ 0).1 hnil
    rw [hsem] at hrep
    unfold Parser.generateReport at hrep
    simp only [hnil, List.length_nil, decide_True, Bool.not_true, Bool.false_eq_true, if_false,
      filter_accepted_of_nil H now _ hall, Option.some.injEq] at hrep
    rw [← hrep]
    refine ⟨rfl, rfl, ?_, ?_⟩
    · simp [List.lookup, Parser.create]
    · simp [List.lookup, Parser.create]
  · intro hne
    rw [hsem] at hrep
    have hlen : ¬ (loopErrors H now 0 (syntacticOf csvData).validatedRows).length = 0 := by
      rw [List.length_eq_zero]
      exact hne
    unfold Parser.generateReport at hrep
    simp only [hlen, decide_False, Bool.not_false, if_true, Option.some.injEq] at hrep
    rw [← hrep]
    exact ⟨rfl, rfl⟩

/-! ## Lemmas on the counts of the flags -/

theorem isAffirmative_eq (value : String) :
    isAffirmative value = affirmativeValues.contains value := by
  cases h1 : value == "si" <;> cases h2 : value == "true" <;> cases h3 : value == "1" <;>
    simp only [isAffirmative, affirmativeValues, List.contains, List.elem, h1, h2, h3] <;> rfl

theorem flagCount_singleton (H : Host) (field : String) (row : Row) :
    flagCount H field [row]
      = match getField row field with
        | none => 0
        | some value => if affirmativeValues.contains (H.toLowerCase value) = true then 1 else 0 := by
  unfold flagCount
  rw [List.countP_cons, List.countP_nil]
  cases getField row field with
  | none => rfl
  | some value =>
    simp only [Nat.zero_add]

theorem isAffirmative_orEmpty (H : Host) (row : Row) (field : String) :
    isAffirmative (H.toLowerCase (orEmpty (getField row field)))
      = match getField row field with
        | none => false
        | some value => affirmativeValues.contains (H.toLowerCase value) := by
  have hempty : H.toLowerCase "" = "" := toLowerCase_const H "" "" (by decide) (by decide)
  cases hv : getField row field with
  | none =>
    have h0 : orEmpty (none : Option String) = "" := rfl
    rw [h0, hempty]
    rfl
  | some value =>
    by_cases hne : value = ""
    · subst hne
      have h0 : orEmpty (some "") = "" := rfl
      rw [h0, isAffirmative_eq]
    · have h0 : orEmpty (some value) = value := by
        unfold orEmpty truthy
        simp [hne]
      rw [h0, isAffirmative_eq]

theorem filter_flag_length (H : Host) (field : String) (rows : List Row) :
    (rows.filter fun row => isAffirmative (H.toLowerCase (orEmpty (getField row field)))).length
      = flagCount H field rows := by
  unfold flagCount
  rw [List.countP_eq_length_filter]
  congr 1
  apply List.filter_congr
  intro row _
  exact isAffirmative_orEmpty H row field

/-! ## Lemmas on the row numbers -/

theorem rowErrors_badSeverityRow (H : Host) (now : Int) (rowIndex : Nat) :
    rowErrors H now rowIndex badSeverityRow
      = [ErrorEntry.coherence (rowIndex + 1) "gravedad"
          "La gravedad debe ser: leve, moderado, grave o fatal" "catastrofico"] := by
  unfold rowErrors
  rw [checkField_absent badSeverityRow rowIndex "fecha" _ _ (by decide),
    checkField_absent badSeverityRow rowIndex "hora" _ _ (by decide),
    checkField_absent badSeverityRow rowIndex "edad_conductor" _ _ (by decide),
    checkField_flag badSeverityRow rowIndex "gravedad" _ _ "catastrofico" (by decide) (by decide)
      (validateSeverity_catastrofico H),
    checkField_absent badSeverityRow rowIndex "condicion_climatica" _ _ (by decide),
    checkField_absent badSeverityRow rowIndex "condicion_via" _ _ (by decide)]
  rfl

theorem mem_lexicalRows (H : Host) (rows : List Row) (rowIndex j : Nat) (row : Row)
    (hrow : rows[j]? = some row) :
    rowTokens H (rowIndex + j) row ∈ lexicalRows H rowIndex rows := by
  induction rows generalizing rowIndex j with
  | nil => simp at hrow
  | cons r rest ih =>
    unfold lexicalRows
    cases j with
    | zero =>
      simp only [List.getElem?_cons_zero, Option.some.injEq] at hrow
      subst hrow
      exact List.mem_cons_self _ _
    | succ j =>
      have h := ih (rowIndex + 1) j (by simpa using hrow)
      have hidx : rowIndex + 1 + j = rowIndex + (j + 1) := by omega
      rw [hidx] at h
      exact List.mem_cons_of_mem _ h

theorem mem_tokens_of_row (H : Host) (csvData : List Row) (j : Nat) (row : Row)
    (hrow : csvData[j]? = some row) (t : Token) (ht : t ∈ rowTokens H j row) :
    t ∈ ((Parser.create csvData).performLexicalAnalysis H).tokens := by
  unfold Parser.performLexicalAnalysis Parser.create
  simp only [List.mem_flatten]
  refine ⟨rowTokens H j row, ?_, ht⟩
  have h := mem_lexicalRows H csvData 0 j row hrow
  simpa using h

/-! ## Lemmas on the keys of the rule table -/

theorem tokenTypeOf_not_rule_key (n t : String) (h : tokenTypeOf n = TokenType.text t) :
    t ∉ SYNTACTIC_RULES.map Prod.fst := by
  intro hmem
  have hund := lookupRule_tokenTypeOf n
  rw [h] at hund
  unfold lookupRule at hund
  have hsome := (lookup_isSome_iff_mem SYNTACTIC_RULES t).2 hmem
  cases hl : SYNTACTIC_RULES.lookup t with
  | none =>
    rw [hl] at hsome
    exact Bool.noConfusion hsome
  | some r =>
    simp only [hl] at hund
    exact RuleLookup.noConfusion hund

/-! ## The claims -/

/-- C2. Short-circuit law: on a syntactic result whose `isValid` is false the
semantic analysis returns `isValid = false` with the errors of the syntactic
result, in the same order, no `validRows` and no `symbolTable`; it leaves the
instance, hence the symbol table, unchanged; the result is the same for every
host, moment and list of validated rows, so no coherence predicate decides it;
and the report of that result has status `"error"`. -/
theorem C2_short_circuit (H : Host) (now : Int) (self : Parser) (syn : SyntacticResult)
    (hinvalid : syn.isValid = false) :
    (self.performSemanticAnalysis H now syn).1.isValid = false
    ∧ (self.performSemanticAnalysis H now syn).1.errors = syn.errors
    ∧ (self.performSemanticAnalysis H now syn).1.validRows = none
    ∧ (self.performSemanticAnalysis H now syn).1.symbolTable = none
    ∧ (self.performSemanticAnalysis H now syn).2 = self
    ∧ (∀ (H' : Host) (now' : Int) (rows : List Row),
        self.performSemanticAnalysis H' now' { syn with validatedRows := rows }
          = self.performSemanticAnalysis H now syn)
    ∧ ∃ report,
        (self.performSemanticAnalysis H now syn).2.generateReport H
            (self.performSemanticAnalysis H now syn).1 = some report
        ∧ report.status = "error" := by
  have hres : ∀ (H' : Host) (now' : Int) (rows : List Row),
      self.performSemanticAnalysis H' now' { syn with validatedRows := rows }
        = ({ isValid := false
             errors := syn.errors
             message := some
               "No se puede realizar el análisis semántico debido a errores sintácticos."
             validRows := none
             symbolTable := none }, self) := by
    intro H' now' rows
    unfold Parser.performSemanticAnalysis
    simp [hinvalid]
  have h0 := hres H now syn.validatedRows
  simp only at h0
  refine ⟨?_, ?_, ?_, ?_, ?_, ?_, ?_⟩
  · rw [h0]
  · rw [h0]
  · rw [h0]
  · rw [h0]
  · rw [h0]
  · intro H' now' rows
    rw [hres H' now' rows, h0]
  · obtain ⟨report, hrep, hstatus, _⟩ :=
      generateReport_invalid H (self.performSemanticAnalysis H now syn).2
        (self.performSemanticAnalysis H now syn).1 (by rw [h0])
    exact ⟨report, hrep, hstatus⟩

/-- Witness of C2: a syntactic result with one format error, on a fresh
instance. -/
theorem C2_short_circuit_witness :
    (SyntacticResult.mk false [ErrorEntry.format 1 "id" "formato" "BAD-ID"] []).isValid = false
    ∧ ((Parser.create [[("id", "BAD-ID")]]).performSemanticAnalysis refHost 0
        (SyntacticResult.mk false [ErrorEntry.format 1 "id" "formato" "BAD-ID"] [])).1.errors
      = [ErrorEntry.format 1 "id" "formato" "BAD-ID"] :=
  ⟨rfl, (C2_short_circuit refHost 0 (Parser.create [[("id", "BAD-ID")]])
    (SyntacticResult.mk false [ErrorEntry.format 1 "id" "formato" "BAD-ID"] []) rfl).2.1⟩

/-- C3, as stated, fails: of the two records `{}` and
`{gravedad: "catastrofico"}` the first has no field and yields no token, so the
second is validated as row 1; its coherence error carries the number 1, and the
second input row is neither accepted nor named by any error. -/
theorem C3_counterexample :
    ¬ EveryRowInOneClass refHost 0 [[], [("gravedad", "catastrofico")]] := by
  rintro ⟨a, ha, h⟩
  have h1 := h 1 [("gravedad", "catastrofico")] rfl
  have hx : (analyse refHost 0 [[], [("gravedad", "catastrofico")]]).map
      (fun a => (a.accepts [("gravedad", "catastrofico")], a.formatRejects 1,
        a.coherenceRejects 1)) = some (false, false, false) := by decide
  rw [ha] at hx
  simp only [Option.map_some', Option.some.injEq, Prod.mk.injEq] at hx
  obtain ⟨hx1, hx2, hx3⟩ := hx
  unfold ExactlyOneClass at h1
  rw [hx1, hx2, hx3] at h1
  simp at h1

/-- C3, amended: when every input record has at least one field, the analysis
returns and every input row falls in exactly one of the three classes:
accepted (its validated copy is in `validRows`), format-rejected (an error of
the syntactic analysis carries its 1-based number) or coherence-rejected (an
error of the semantic analysis carries its 1-based number). -/
theorem C3_every_row_in_one_class (H : Host) (now : Int) (csvData : List Row)
    (hfields : ∀ row ∈ csvData, row ≠ []) : EveryRowInOneClass H now csvData := by
  obtain ⟨a, ha, hsyn, herr, hrows, _, _, _⟩ := analyse_returns H now csvData
  refine ⟨a, ha, ?_⟩
  intro rowIndex row hrow
  have hsynRows : a.syntactic.validatedRows
      = (csvData.filter (fun r => r ≠ [])).map validatedCopy := by rw [hsyn]
  have hmem : row ∈ csvData := List.getElem?_mem hrow
  have hacc := accepts_iff H now csvData a row hmem hfields hsynRows hrows
  have hcoh := coherenceRejects_iff H now csvData a rowIndex row hrow hfields hsynRows herr
  have hfmt : a.formatRejects rowIndex = false := by
    unfold Analysis.formatRejects
    rw [hsyn]
    rfl
  unfold ExactlyOneClass
  by_cases hnil : rowErrors H now 0 (validatedCopy row) = []
  · left
    refine ⟨hacc.2 hnil, hfmt, ?_⟩
    cases hc : a.coherenceRejects rowIndex with
    | false => rfl
    | true => exact absurd hnil (hcoh.1 hc)
  · right
    right
    refine ⟨?_, hfmt, hcoh.2 hnil⟩
    cases hc : a.accepts row with
    | false => rfl
    | true => exact absurd (hacc.1 hc) hnil

/-- Witness of C3: two records with fields, the first accepted, the second
rejected by the severity rule. -/
theorem C3_every_row_in_one_class_witness :
    (∀ row ∈ [[("gravedad", "leve")], [("gravedad", "catastrofico")]], row ≠ ([] : Row))
    ∧ EveryRowInOneClass refHost 0 [[("gravedad", "leve")], [("gravedad", "catastrofico")]] :=
  ⟨by decide, C3_every_row_in_one_class refHost 0 _ (by decide)⟩

/-- C1, evaluated on the code: the record of Example 3, whose identifier
`BAD-ID` misses the identifier pattern, is not rejected by the syntactic
analysis.  Its token has the type `"id"`, which is no key of
`SYNTACTIC_RULES`, so no pattern is tested: the result is valid, without
errors, the record is in `validatedRows`, and at any moment not earlier than
its date the report has status `"success"`. -/
theorem C1_bad_id_passes_format_stage (H : Host) (now : Int) (hnow : may2023 ≤ now) :
    patternAccidentId "BAD-ID" = false
    ∧ lookupRule (tokenTypeOf (H.toLowerCase (jsTrim "id"))) = RuleLookup.undefined
    ∧ ∃ a, analyse H now [badIdRow] = some a
        ∧ a.syntactic.isValid = true
        ∧ a.syntactic.errors = []
        ∧ a.syntactic.validatedRows = [badIdRow]
        ∧ a.semantic.validRows = some [badIdRow]
        ∧ a.report.status = "success" := by
  refine ⟨by decide, lookupRule_tokenTypeOf _, ?_⟩
  obtain ⟨a, ha, hsyn, _, hgood, _⟩ := analyse_single H now badIdRow (by decide) (by decide)
  have hnil := rowErrors_like_example H now hnow 0 badIdRow (by decide) (by decide) (by decide)
    (by decide) (by decide) (by decide)
  obtain ⟨_, hrows, hstatus, _⟩ := hgood hnil
  exact ⟨a, ha, by rw [hsyn], by rw [hsyn], by rw [hsyn], hrows, hstatus⟩

/-- Witness of the evaluation for C1, on the executable host in November
2023. -/
theorem C1_bad_id_passes_format_stage_witness :
    may2023 ≤ 1700000000000
    ∧ ∃ a, analyse refHost 1700000000000 [badIdRow] = some a
        ∧ a.syntactic.errors = [] ∧ a.report.status = "success" :=
  ⟨by decide,
    match (C1_bad_id_passes_format_stage refHost 1700000000000 (by decide)).2.2 with
    | ⟨a, ha, _, herr, _, _, hstatus⟩ => ⟨a, ha, herr, hstatus⟩⟩

/-- C5, evaluated on the code: a record whose identifier `BAD-ID`, time `7:5`
and casualty count `-3` all miss their pattern is accepted by the whole
analysis, under every host and at every moment, and the total of casualties of
the report is `-3`. -/
theorem C5_accepted_record_not_format_valid (H : Host) (now : Int) :
    patternAccidentId "BAD-ID" = false
    ∧ patternTime "7:5" = false
    ∧ patternCasualties "-3" = false
    ∧ ∃ a, analyse H now [malformedRow] = some a
        ∧ a.syntactic.errors = []
        ∧ a.semantic.errors = []
        ∧ a.semantic.validRows = some [malformedRow]
        ∧ a.report.status = "success"
        ∧ ∃ d, a.report.detailedData = some d
            ∧ d.totalCasualties = IntegralNumber.finite (-3) := by
  refine ⟨by decide, by decide, by decide, ?_⟩
  obtain ⟨a, ha, hsyn, herr, hgood, _⟩ := analyse_single H now malformedRow (by decide) (by decide)
  have hnil := rowErrors_malformedRow H now 0
  obtain ⟨_, hrows, hstatus, hdata⟩ := hgood hnil
  refine ⟨a, ha, by rw [hsyn], by rw [herr, hnil], hrows, hstatus, _, hdata, ?_⟩
  dsimp only
  exact totalCasualties_of_sum [malformedRow] (-3) (by decide) (by decide)

/-- C6. The record of Example 1, analysed at any moment not earlier than
2023-05-01, is accepted: no format error, no coherence error, status
`"success"`, and the detailed data have `alcoholInvolved = 0`,
`speedingInvolved = 1` and `totalCasualties = 2`. -/
theorem C6_example_row_accepted (H : Host) (now : Int) (hnow : may2023 ≤ now) :
    ∃ a, analyse H now [exampleRow] = some a
      ∧ a.syntactic.isValid = true
      ∧ a.syntactic.errors = []
      ∧ a.semantic.isValid = true
      ∧ a.semantic.errors = []
      ∧ a.semantic.validRows = some [exampleRow]
      ∧ a.report.status = "success"
      ∧ ∃ d, a.report.detailedData = some d
          ∧ d.alcoholInvolved = 0 ∧ d.speedingInvolved = 1
          ∧ d.totalCasualties = IntegralNumber.finite 2 := by
  obtain ⟨a, ha, hsyn, herr, hgood, _⟩ := analyse_single H now exampleRow (by decide) (by decide)
  have hnil := rowErrors_like_example H now hnow 0 exampleRow (by decide) (by decide) (by decide)
    (by decide) (by decide) (by decide)
  obtain ⟨hvalid, hrows, hstatus, hdata⟩ := hgood hnil
  refine ⟨a, ha, by rw [hsyn], by rw [hsyn], hvalid, by rw [herr, hnil], hrows, hstatus, _,
    hdata, ?_, ?_, ?_⟩
  · have hno : H.toLowerCase (orEmpty (getField exampleRow "alcohol_involucrado")) = "no" :=
      toLowerCase_const H _ _ (by decide) (by decide)
    simp only [alcoholInvolved, List.filter_cons, List.filter_nil, hno]
    decide
  · have hsi : H.toLowerCase (orEmpty (getField exampleRow "exceso_velocidad")) = "si" :=
      toLowerCase_const H _ _ (by decide) (by decide)
    simp only [speedingInvolved, List.filter_cons, List.filter_nil, hsi]
    decide
  · dsimp only
    exact totalCasualties_of_sum [exampleRow] 2 (by decide) (by decide)

/-- Witness of C6: the executable host in November 2023. -/
theorem C6_example_row_accepted_witness :
    may2023 ≤ 1700000000000
    ∧ ∃ a, analyse refHost 1700000000000 [exampleRow] = some a
        ∧ a.report.status = "success" :=
  ⟨by decide,
    match C6_example_row_accepted refHost 1700000000000 (by decide) with
    | ⟨a, ha, _, _, _, _, _, hstatus, _⟩ => ⟨a, ha, hstatus⟩⟩

/-- C4, as stated, fails: the sum of the program is a sum of doubles.  The
record whose `victimas` is `9007199254740993`, which is `2 ^ 53 + 1`, has no
coherence error and is accepted by the whole analysis with status `"success"`,
and the total of casualties of its report is `9007199254740992`, not the
integer that the field holds.  And for the two accepted records with
`victimas` `9007199254740992` and `1`, each of which is parsed exactly, the
report of the valid semantic result has the total `9007199254740992`, while
the integers add up to `9007199254740993`. -/
theorem C4_counterexample :
    rowErrors refHost 0 0 largeCasualtiesRow = []
    ∧ (List.map casualtiesOf [largeCasualtiesRow]).sum = 9007199254740993
    ∧ (∃ a d, analyse refHost 0 [largeCasualtiesRow] = some a
        ∧ a.semantic.validRows = some [largeCasualtiesRow]
        ∧ a.report.status = "success"
        ∧ a.report.detailedData = some d
        ∧ d.totalCasualties = IntegralNumber.finite 9007199254740992)
    ∧ (∀ row ∈ [twoPow53Row, oneCasualtyRow], rowErrors refHost 0 0 row = [])
    ∧ List.map casualtiesOf [twoPow53Row, oneCasualtyRow] = [9007199254740992, 1]
    ∧ (List.map casualtiesOf [twoPow53Row, oneCasualtyRow]).sum = 9007199254740993
    ∧ (∃ report d,
        (Parser.create [twoPow53Row, oneCasualtyRow]).generateReport refHost
            (SemanticResult.mk true [] none (some [twoPow53Row, oneCasualtyRow]) (some []))
          = some report
        ∧ report.status = "success"
        ∧ report.detailedData = some d
        ∧ d.totalCasualties = IntegralNumber.finite 9007199254740992) := by
  refine ⟨by decide, by decide, ?_, by decide, by decide, by decide, ?_⟩
  · obtain ⟨a, ha, hrows, _, hstatus, hdata⟩ := analyse_single_accepted refHost 0
      largeCasualtiesRow (by decide) (by decide) (by decide)
    refine ⟨a, _, ha, hrows, hstatus, hdata, ?_⟩
    dsimp only
    exact totalCasualties_largeCasualtiesRow
  · obtain ⟨report, hrep, hstatus, hdata⟩ := generateReport_valid refHost
      (Parser.create [twoPow53Row, oneCasualtyRow])
      (SemanticResult.mk true [] none (some [twoPow53Row, oneCasualtyRow]) (some []))
      [twoPow53Row, oneCasualtyRow] rfl rfl
    refine ⟨report, _, hrep, hstatus, hdata, ?_⟩
    dsimp only
    exact totalCasualties_twoPow53Row_one

/-- C4, amended.  For every semantic result with `isValid` true whose
`validRows` are accepted records (records without coherence error), the report
is produced; when the magnitudes of the `victimas` fields parsed as integers,
a missing or non-numeric value counting 0, add up to at most
`Number.MAX_SAFE_INTEGER` (`2 ^ 53 - 1`), its `totalCasualties` is the sum over
`validRows` of the field `victimas` parsed as an integer; and in every case
every value of `severityCounts` is a count and the counts sum to the number of
`validRows`. -/
theorem C4_aggregation (H : Host) (now : Int) (self : Parser) (sem : SemanticResult)
    (validRows : List Row) (hvalid : sem.isValid = true)
    (hrows : sem.validRows = some validRows)
    (haccepted : ∀ row ∈ validRows, rowErrors H now 0 row = []) :
    ∃ report d, self.generateReport H sem = some report
      ∧ report.detailedData = some d
      ∧ ((validRows.map fun row => (casualtiesOf row).natAbs).sum ≤ maxSafeInteger →
          d.totalCasualties = IntegralNumber.finite (validRows.map casualtiesOf).sum)
      ∧ AllCounts d.severityCounts
      ∧ countSum d.severityCounts = validRows.length := by
  obtain ⟨report, hrep, _, hdata⟩ := generateReport_valid H self sem validRows hvalid hrows
  obtain ⟨hall, hsum⟩ := foldl_increment_counts H
    (fun row => H.toLowerCase (orEmpty (getField row "gravedad"))) validRows []
    (fun row hrow => severityKey_of_accepted H now 0 row (haccepted row hrow))
    (fun e he => absurd he (List.not_mem_nil e))
  refine ⟨report, _, hrep, hdata, totalCasualties_safe validRows, hall, ?_⟩
  show countSum (severityCounts H validRows) = validRows.length
  unfold severityCounts
  rw [hsum]
  simp [countSum]

/-- Witness of C4: the semantic result that holds the record of Example 1
twice, on the executable host in November 2023. -/
theorem C4_aggregation_witness :
    (∀ row ∈ [exampleRow, exampleRow], rowErrors refHost 1700000000000 0 row = [])
    ∧ ([exampleRow, exampleRow].map fun row => (casualtiesOf row).natAbs).sum ≤ maxSafeInteger
    ∧ ∃ report d,
        (Parser.create [exampleRow, exampleRow]).generateReport refHost
            (SemanticResult.mk true [] none (some [exampleRow, exampleRow]) (some []))
          = some report
        ∧ report.detailedData = some d
        ∧ d.totalCasualties = IntegralNumber.finite 4
        ∧ countSum d.severityCounts = 2 :=
  ⟨by decide, by decide,
    match C4_aggregation refHost 1700000000000 (Parser.create [exampleRow, exampleRow])
      (SemanticResult.mk true [] none (some [exampleRow, exampleRow]) (some []))
      [exampleRow, exampleRow] rfl rfl (by decide) with
    | ⟨report, d, hrep, hdata, htotal, _, hsum⟩ =>
      ⟨report, d, hrep, hdata,
        (htotal (by decide)).trans
          (congrArg IntegralNumber.finite
            (by decide : (List.map casualtiesOf [exampleRow, exampleRow]).sum = 4)),
        hsum⟩⟩

/-- C7. With the moment `now` as a parameter: for every validated row whose
`fecha` is not empty, the semantic analysis flags `fecha` for that row exactly
when `Date.parse` fails on it or the parsed date is later than `now`.  And the
record of Example 2, analysed before 2099, passes the syntactic analysis, gets
the date error from the semantic analysis, and the report has status
`"error"`. -/
theorem C7_date_rule (H : Host) (now : Int) :
    (∀ (self : Parser) (syn : SyntacticResult) (rowIndex : Nat) (row : Row) (fecha : String),
      syn.isValid = true → syn.validatedRows[rowIndex]? = some row →
      getField row "fecha" = some fecha → fecha ≠ "" →
      (flagged (self.performSemanticAnalysis H now syn).1.errors (rowIndex + 1) "fecha"
        ↔ (H.dateParse fecha = none ∨ ∃ t, H.dateParse fecha = some t ∧ now < t)))
    ∧ (now < january2099 →
        ∃ a, analyse H now [futureDateRow] = some a
          ∧ a.syntactic.isValid = true
          ∧ a.syntactic.errors = []
          ∧ a.syntactic.validatedRows = [futureDateRow]
          ∧ a.semantic.errors
              = [ErrorEntry.coherence 1 "fecha" "La fecha no es válida o es en el futuro"
                  "2099-01-01"]
          ∧ a.report.status = "error") := by
  constructor
  · intro self syn rowIndex row fecha hvalid hrow hfecha hne
    rw [flagged_semantic_errors H now self syn hvalid rowIndex row hrow, flagged_fecha, hfecha]
    have ht : truthy (some fecha) = true := by
      simpa [truthy] using hne
    simp only [ht, true_and, Option.getD_some]
    unfold SEMANTIC_RULES.validateDate
    cases hp : H.dateParse fecha with
    | none => simp
    | some t => simp
  · intro hnow
    obtain ⟨a, ha, hsyn, herr, _, hbad⟩ :=
      analyse_single H now futureDateRow (by decide) (by decide)
    have hrowErrors : rowErrors H now 0 futureDateRow
        = [ErrorEntry.coherence 1 "fecha" "La fecha no es válida o es en el futuro"
            "2099-01-01"] := by
      unfold rowErrors
      rw [checkField_flag futureDateRow 0 "fecha" _ _ "2099-01-01" (by decide) (by decide)
          (validateDate_january2099 H now hnow),
        checkField_pass futureDateRow 0 "hora" _ _ _ (by decide) (validateTime_1430 H),
        checkField_pass futureDateRow 0 "edad_conductor" _ _ _ (by decide)
          (validateDriverAge_30 H),
        checkField_pass futureDateRow 0 "gravedad" _ _ _ (by decide) (validateSeverity_leve H),
        checkField_pass futureDateRow 0 "condicion_climatica" _ _ _ (by decide)
          (validateWeatherCondition_soleado H),
        checkField_pass futureDateRow 0 "condicion_via" _ _ _ (by decide)
          (validateRoadCondition_seco H)]
      rfl
    obtain ⟨_, _, hstatus, _⟩ := hbad (by rw [hrowErrors]; simp)
    exact ⟨a, ha, by rw [hsyn], by rw [hsyn], by rw [hsyn], by rw [herr, hrowErrors], hstatus⟩

/-- Witness of C7: the record of Example 2 on the executable host in November
2023, as a validated row and as the whole input. -/
theorem C7_date_rule_witness :
    (1700000000000 : Int) < january2099
    ∧ flagged ((Parser.create [futureDateRow]).performSemanticAnalysis refHost 1700000000000
        (SyntacticResult.mk true [] [futureDateRow])).1.errors 1 "fecha"
    ∧ ∃ a, analyse refHost 1700000000000 [futureDateRow] = some a ∧ a.report.status = "error" :=
  ⟨by decide,
    ((C7_date_rule refHost 1700000000000).1 (Parser.create [futureDateRow])
      (SyntacticResult.mk true [] [futureDateRow]) 0 futureDateRow "2099-01-01" rfl rfl
      (by decide) (by decide)).2 (Or.inr ⟨january2099, by decide, by decide⟩),
    match (C7_date_rule refHost 1700000000000).2 (by decide) with
    | ⟨a, ha, _, _, _, _, hstatus⟩ => ⟨a, ha, hstatus⟩⟩

/-- C8. For every time string of the form two digits, colon, two digits (the
strings that match the pattern of the rule `TIME`), `validateTime` holds exactly
when the hour is below 24 and the minute is below 60; `25:61`, `24:00` and
`23:60` are rejected, `00:00` and `23:59` are accepted. -/
theorem C8_validateTime (H : Host) :
    (∀ time : String, patternTime time = true →
      (SEMANTIC_RULES.validateTime H time = true
        ↔ digitsValue (time.data.take 2) < 24 ∧ digitsValue (time.data.drop 3) < 60))
    ∧ SEMANTIC_RULES.validateTime H "25:61" = false
    ∧ SEMANTIC_RULES.validateTime H "24:00" = false
    ∧ SEMANTIC_RULES.validateTime H "23:60" = false
    ∧ SEMANTIC_RULES.validateTime H "00:00" = true
    ∧ SEMANTIC_RULES.validateTime H "23:59" = true := by
  refine ⟨?_, ?_, ?_, ?_, ?_, ?_⟩
  · intro time h
    rw [validateTime_of_pattern H time h]
    simp
  · rw [validateTime_of_pattern H "25:61" (by decide)]
    decide
  · rw [validateTime_of_pattern H "24:00" (by decide)]
    decide
  · rw [validateTime_of_pattern H "23:60" (by decide)]
    decide
  · rw [validateTime_of_pattern H "00:00" (by decide)]
    decide
  · rw [validateTime_of_pattern H "23:59" (by decide)]
    decide

/-- Witness of C8: the time `14:30` on the executable host. -/
theorem C8_validateTime_witness :
    patternTime "14:30" = true ∧ SEMANTIC_RULES.validateTime refHost "14:30" = true :=
  ⟨by decide, ((C8_validateTime refHost).1 "14:30" (by decide)).2 (by decide)⟩

/-- C9. For every age string of one to three decimal digits (the strings that
match the pattern of the rule `DRIVER_AGE`), `validateDriverAge` holds exactly
when the value is between 16 and 100, both included: `16` and `100` pass, `15`
and `101` fail.  And the semantic analysis flags `edad_conductor` for a
validated row exactly when the field is not empty and the rule is false. -/
theorem C9_validateDriverAge (H : Host) (now : Int) :
    (∀ age : String, patternDriverAge age = true →
      (SEMANTIC_RULES.validateDriverAge H age = true
        ↔ 16 ≤ digitsValue age.data ∧ digitsValue age.data ≤ 100))
    ∧ SEMANTIC_RULES.validateDriverAge H "16" = true
    ∧ SEMANTIC_RULES.validateDriverAge H "100" = true
    ∧ SEMANTIC_RULES.validateDriverAge H "15" = false
    ∧ SEMANTIC_RULES.validateDriverAge H "101" = false
    ∧ (∀ (self : Parser) (syn : SyntacticResult) (rowIndex : Nat) (row : Row),
        syn.isValid = true → syn.validatedRows[rowIndex]? = some row →
        (flagged (self.performSemanticAnalysis H now syn).1.errors (rowIndex + 1)
            "edad_conductor"
          ↔ truthy (getField row "edad_conductor") = true
            ∧ SEMANTIC_RULES.validateDriverAge H ((getField row "edad_conductor").getD "")
                = false)) := by
  refine ⟨?_, ?_, ?_, ?_, ?_, ?_⟩
  · intro age h
    rw [validateDriverAge_of_pattern H age h]
    simp
  · rw [validateDriverAge_of_pattern H "16" (by decide)]
    decide
  · rw [validateDriverAge_of_pattern H "100" (by decide)]
    decide
  · rw [validateDriverAge_of_pattern H "15" (by decide)]
    decide
  · rw [validateDriverAge_of_pattern H "101" (by decide)]
    decide
  · intro self syn rowIndex row hvalid hrow
    rw [flagged_semantic_errors H now self syn hvalid rowIndex row hrow, flagged_edad_conductor]

/-- Witness of C9: the age `30`, and a validated row with the age `15`, on the
executable host. -/
theorem C9_validateDriverAge_witness :
    patternDriverAge "30" = true
    ∧ SEMANTIC_RULES.validateDriverAge refHost "30" = true
    ∧ flagged ((Parser.create [[("edad_conductor", "15")]]).performSemanticAnalysis refHost 0
        (SyntacticResult.mk true [] [[("edad_conductor", "15")]])).1.errors 1 "edad_conductor" :=
  ⟨by decide,
    ((C9_validateDriverAge refHost 0).1 "30" (by decide)).2 (by decide),
    ((C9_validateDriverAge refHost 0).2.2.2.2.2 (Parser.create [[("edad_conductor", "15")]])
      (SyntacticResult.mk true [] [[("edad_conductor", "15")]]) 0 [("edad_conductor", "15")]
      rfl rfl).2 (by decide)⟩

/-- C10. For every string, `validateSeverity` holds exactly when its lower-cased
form is one of `leve`, `moderado`, `grave`, `fatal`; `validateWeatherCondition`
exactly when it is one of `soleado`, `nublado`, `lluvioso`, `nevado`, `niebla`;
`validateRoadCondition` exactly when it is one of `seco`, `mojado`, `hielo`,
`nieve`, `obra`.  And the record of Example 4, with the severity
`catastrofico`, passes the syntactic analysis and gets the severity error from
the semantic analysis. -/
theorem C10_membership_rules (H : Host) (now : Int) :
    (∀ s : String, SEMANTIC_RULES.validateSeverity H s = true
      ↔ H.toLowerCase s ∈ ["leve", "moderado", "grave", "fatal"])
    ∧ (∀ s : String, SEMANTIC_RULES.validateWeatherCondition H s = true
      ↔ H.toLowerCase s ∈ ["soleado", "nublado", "lluvioso", "nevado", "niebla"])
    ∧ (∀ s : String, SEMANTIC_RULES.validateRoadCondition H s = true
      ↔ H.toLowerCase s ∈ ["seco", "mojado", "hielo", "nieve", "obra"])
    ∧ ∃ a, analyse H now [badSeverityRow] = some a
        ∧ a.syntactic.isValid = true
        ∧ a.syntactic.errors = []
        ∧ a.syntactic.validatedRows = [badSeverityRow]
        ∧ a.semantic.errors
            = [ErrorEntry.coherence 1 "gravedad"
                "La gravedad debe ser: leve, moderado, grave o fatal" "catastrofico"]
        ∧ a.semantic.validRows = some []
        ∧ a.report.status = "error" := by
  refine ⟨?_, ?_, ?_, ?_⟩
  · intro s
    unfold SEMANTIC_RULES.validateSeverity
    simp only [List.contains, List.elem_eq_mem, decide_eq_true_eq]
  · intro s
    unfold SEMANTIC_RULES.validateWeatherCondition
    simp only [List.contains, List.elem_eq_mem, decide_eq_true_eq]
  · intro s
    unfold SEMANTIC_RULES.validateRoadCondition
    simp only [List.contains, List.elem_eq_mem, decide_eq_true_eq]
  · obtain ⟨a, ha, hsyn, herr, _, hbad⟩ :=
      analyse_single H now badSeverityRow (by decide) (by decide)
    have hrowErrors : rowErrors H now 0 badSeverityRow
        = [ErrorEntry.coherence 1 "gravedad"
            "La gravedad debe ser: leve, moderado, grave o fatal" "catastrofico"] := by
      unfold rowErrors
      rw [checkField_absent badSeverityRow 0 "fecha" _ _ (by decide),
        checkField_absent badSeverityRow 0 "hora" _ _ (by decide),
        checkField_absent badSeverityRow 0 "edad_conductor" _ _ (by decide),
        checkField_flag badSeverityRow 0 "gravedad" _ _ "catastrofico" (by decide) (by decide)
          (validateSeverity_catastrofico H),
        checkField_absent badSeverityRow 0 "condicion_climatica" _ _ (by decide),
        checkField_absent badSeverityRow 0 "condicion_via" _ _ (by decide)]
      rfl
    obtain ⟨_, hrows, hstatus, _⟩ := hbad (by rw [hrowErrors]; simp)
    exact ⟨a, ha, by rw [hsyn], by rw [hsyn], by rw [hsyn], by rw [herr, hrowErrors], hrows,
      hstatus⟩

/-- C14. For every semantic result with `isValid` false, `generateReport`
returns a report with status `"error"` and no `detailedData`; its summary
counts every input row as analysed and as erroneous and no row as valid,
whatever the errors are; and the syntactic and the semantic section both hold
the error list of the semantic result. -/
theorem C14_error_report (H : Host) (self : Parser) (sem : SemanticResult)
    (hinvalid : sem.isValid = false) :
    ∃ report, self.generateReport H sem = some report
      ∧ report.status = "error"
      ∧ report.detailedData = none
      ∧ report.summary
          = [("Total de accidentes analizados", SummaryValue.number self.csvData.length),
             ("Accidentes validos", SummaryValue.number 0),
             ("Accidentes con errores", SummaryValue.number self.csvData.length)]
      ∧ report.syntacticAnalysis.errors = some sem.errors
      ∧ report.semanticAnalysis.errors = some sem.errors
      ∧ report.syntacticAnalysis.isValid = false
      ∧ report.semanticAnalysis.isValid = false := by
  unfold Parser.generateReport
  simp [hinvalid]

/-- Witness of C14: three input rows, one coherence error. -/
theorem C14_error_report_witness :
    (SemanticResult.mk false
        [ErrorEntry.coherence 2 "gravedad" "La gravedad debe ser: leve, moderado, grave o fatal"
          "catastrofico"] none (some [exampleRow, exampleRow]) (some [])).isValid = false
    ∧ ∃ report,
        (Parser.create [exampleRow, badSeverityRow, exampleRow]).generateReport refHost
            (SemanticResult.mk false
              [ErrorEntry.coherence 2 "gravedad"
                "La gravedad debe ser: leve, moderado, grave o fatal" "catastrofico"]
              none (some [exampleRow, exampleRow]) (some []))
          = some report
        ∧ report.status = "error"
        ∧ report.summary.lookup "Accidentes con errores" = some (SummaryValue.number 3) :=
  ⟨rfl,
    match C14_error_report refHost (Parser.create [exampleRow, badSeverityRow, exampleRow])
      (SemanticResult.mk false
        [ErrorEntry.coherence 2 "gravedad" "La gravedad debe ser: leve, moderado, grave o fatal"
          "catastrofico"] none (some [exampleRow, exampleRow]) (some [])) rfl with
    | ⟨report, hrep, hstatus, _, hsummary, _⟩ =>
      ⟨report, hrep, hstatus, by rw [hsummary]; decide⟩⟩

/-- C20. Absent fields are not flagged: in the result of the semantic analysis
of a valid syntactic result, every error that carries the number of a validated
row is the error of one of the six rules on a field that the row has with a
non-empty value; a row in which the six fields are all missing or empty gets no
error and is in `validRows`. -/
theorem C20_absent_fields_not_flagged (H : Host) (now : Int) (self : Parser)
    (syn : SyntacticResult) (rowIndex : Nat) (row : Row) (hvalid : syn.isValid = true)
    (hrow : syn.validatedRows[rowIndex]? = some row) :
    (∀ e ∈ (self.performSemanticAnalysis H now syn).1.errors, e.row = rowIndex + 1 →
      ∃ field message, field ∈ coherenceFields
        ∧ truthy (getField row field) = true
        ∧ e = ErrorEntry.coherence (rowIndex + 1) field message
            ((getField row field).getD ""))
    ∧ ((∀ field ∈ coherenceFields, truthy (getField row field) = false) →
        (∀ e ∈ (self.performSemanticAnalysis H now syn).1.errors, e.row ≠ rowIndex + 1)
        ∧ ∃ validRows, (self.performSemanticAnalysis H now syn).1.validRows = some validRows
            ∧ row ∈ validRows) := by
  constructor
  · intro e he hr
    rw [mem_semantic_errors H now self syn hvalid rowIndex row hrow e hr] at he
    exact mem_rowErrors H now rowIndex row e he
  · intro habsent
    constructor
    · intro e he hr
      rw [mem_semantic_errors H now self syn hvalid rowIndex row hrow e hr,
        rowErrors_eq_nil_of_absent H now rowIndex row habsent] at he
      exact absurd he (List.not_mem_nil e)
    · refine ⟨_, (performSemanticAnalysis_valid H now self syn hvalid).2.1, ?_⟩
      rw [List.mem_filter]
      refine ⟨List.getElem?_mem hrow, ?_⟩
      rw [rowErrors_eq_nil_of_absent H now 0 row habsent]
      rfl

/-- Witness of C20: a validated row with a location only, on the executable
host. -/
theorem C20_absent_fields_not_flagged_witness :
    (SyntacticResult.mk true [] [[("ubicacion", "Madrid")]]).isValid = true
    ∧ (∀ field ∈ coherenceFields, truthy (getField [("ubicacion", "Madrid")] field) = false)
    ∧ ∃ validRows,
        ((Parser.create [[("ubicacion", "Madrid")]]).performSemanticAnalysis refHost 0
          (SyntacticResult.mk true [] [[("ubicacion", "Madrid")]])).1.validRows = some validRows
        ∧ [("ubicacion", "Madrid")] ∈ validRows :=
  ⟨rfl, by decide,
    ((C20_absent_fields_not_flagged refHost 0 (Parser.create [[("ubicacion", "Madrid")]])
      (SyntacticResult.mk true [] [[("ubicacion", "Madrid")]]) 0 [("ubicacion", "Madrid")]
      rfl rfl).2 (by decide)).2⟩

/-- C11. On a freshly constructed Parser and a valid syntactic result, the
symbol table that the semantic analysis returns is the last-wins map of the
accepted rows.  The insertions are the rows of `validatedRows` without
coherence error, each under the value of its `id` when that is present and not
empty and else under `accident-` followed by its 0-based index in
`validatedRows`; their rows are `validRows`.  The table has one entry per key,
its keys are the keys of the insertions, the value under a key is the row of
the last insertion with that key, and every entry is an insertion, so no
rejected row has one. -/
theorem C11_symbol_table_last_wins (H : Host) (now : Int) (csvData : List Row)
    (syn : SyntacticResult) (hvalid : syn.isValid = true) :
    ∃ table,
      ((Parser.create csvData).performSemanticAnalysis H now syn).1.symbolTable = some table
      ∧ ((Parser.create csvData).performSemanticAnalysis H now syn).1.validRows
          = some ((acceptedEntries H now 0 syn.validatedRows).map Prod.snd)
      ∧ (∀ k row, (k, row) ∈ acceptedEntries H now 0 syn.validatedRows
          ↔ ∃ j, syn.validatedRows[j]? = some row ∧ rowErrors H now j row = []
              ∧ k = (if truthy (getField row "id") then (getField row "id").getD ""
                     else "accident-" ++ toString j))
      ∧ (table.map Prod.fst).Nodup
      ∧ (∀ k, k ∈ table.map Prod.fst
          ↔ k ∈ (acceptedEntries H now 0 syn.validatedRows).map Prod.fst)
      ∧ (∀ k, table.lookup k = lastWins (acceptedEntries H now 0 syn.validatedRows) k)
      ∧ (∀ k row, (k, row) ∈ table
          ↔ ∃ before after, acceptedEntries H now 0 syn.validatedRows
                = before ++ (k, row) :: after ∧ k ∉ after.map Prod.fst) := by
  have hlookup : ∀ k, (replay [] (acceptedEntries H now 0 syn.validatedRows)).lookup k
      = lastWins (acceptedEntries H now 0 syn.validatedRows) k := by
    intro k
    rw [lookup_replay]
    cases lastWins (acceptedEntries H now 0 syn.validatedRows) k <;> rfl
  have hnodup := replay_nodup (acceptedEntries H now 0 syn.validatedRows) [] (by simp)
  refine ⟨replay [] (acceptedEntries H now 0 syn.validatedRows), ?_, ?_, ?_, hnodup, ?_,
    hlookup, ?_⟩
  · rw [performSemanticAnalysis_eq H now _ syn hvalid]
    rfl
  · rw [performSemanticAnalysis_eq H now _ syn hvalid, acceptedEntries_rows]
  · intro k row
    rw [mem_acceptedEntries]
    simp only [Nat.zero_add]
    rfl
  · intro k
    rw [mem_replay_keys]
    simp
  · intro k row
    rw [← lastWins_eq_some_iff, ← hlookup]
    constructor
    · exact lookup_of_mem_nodup _ k row hnodup
    · exact lookup_mem _ k row

/-- Witness of C11: two accepted rows with the same `id` leave one entry for
that `id`, which holds the later row. -/
theorem C11_symbol_table_last_wins_witness :
    (SyntacticResult.mk true []
      [[("id", "ACC-2024-000001"), ("victimas", "1")],
       [("id", "ACC-2024-000001"), ("victimas", "2")]]).isValid = true
    ∧ ((Parser.create []).performSemanticAnalysis refHost 0
        (SyntacticResult.mk true []
          [[("id", "ACC-2024-000001"), ("victimas", "1")],
           [("id", "ACC-2024-000001"), ("victimas", "2")]])).1.symbolTable
        = some [("ACC-2024-000001", [("id", "ACC-2024-000001"), ("victimas", "2")])]
    ∧ ∃ table,
        ((Parser.create []).performSemanticAnalysis refHost 0
          (SyntacticResult.mk true []
            [[("id", "ACC-2024-000001"), ("victimas", "1")],
             [("id", "ACC-2024-000001"), ("victimas", "2")]])).1.symbolTable = some table
        ∧ (table.map Prod.fst).Nodup :=
  ⟨rfl, by decide,
    match C11_symbol_table_last_wins refHost 0 []
      (SyntacticResult.mk true []
        [[("id", "ACC-2024-000001"), ("victimas", "1")],
         [("id", "ACC-2024-000001"), ("victimas", "2")]]) rfl with
    | ⟨table, htable, _, _, hnodup, _⟩ => ⟨table, htable, hnodup⟩⟩

/-- C18, as stated, fails: on one instance, after a first call that accepts
the row with the identifier `A-1`, a second call on a syntactic result that
holds only the row `B-2` returns a symbol table with both entries, though
`validRows` of the second call holds the row `B-2` alone. -/
theorem C18_counterexample :
    (((Parser.create []).performSemanticAnalysis refHost 0
        (SyntacticResult.mk true [] [[("id", "A-1")]])).2.performSemanticAnalysis refHost 0
        (SyntacticResult.mk true [] [[("id", "B-2")]])).1.symbolTable
      = some [("A-1", [("id", "A-1")]), ("B-2", [("id", "B-2")])]
    ∧ (((Parser.create []).performSemanticAnalysis refHost 0
        (SyntacticResult.mk true [] [[("id", "A-1")]])).2.performSemanticAnalysis refHost 0
        (SyntacticResult.mk true [] [[("id", "B-2")]])).1.validRows
      = some [[("id", "B-2")]] := by
  decide

/-- C18, amended: the symbol table belongs to the instance.  On a valid
syntactic result the call returns the table of the instance after the
insertions of the call, and the instance keeps it.  On a fresh instance every
entry is an insertion of that call, a row accepted in it.  On any instance the
keys that the table had before the call are still in it, and the value under a
key is unchanged unless a row accepted in the call has that key. -/
theorem C18_symbol_table_of_instance (H : Host) (now : Int) (self : Parser)
    (syn : SyntacticResult) (hvalid : syn.isValid = true) :
    ∃ table,
      (self.performSemanticAnalysis H now syn).1.symbolTable = some table
      ∧ (self.performSemanticAnalysis H now syn).2.symbolTable = table
      ∧ (self.symbolTable = [] →
          ∀ k row, (k, row) ∈ table →
            ∃ j, syn.validatedRows[j]? = some row ∧ rowErrors H now j row = []
              ∧ k = accidentId row j)
      ∧ (∀ k, k ∈ self.symbolTable.map Prod.fst → k ∈ table.map Prod.fst)
      ∧ (∀ k, k ∉ (acceptedEntries H now 0 syn.validatedRows).map Prod.fst →
          table.lookup k = self.symbolTable.lookup k) := by
  refine ⟨replay self.symbolTable (acceptedEntries H now 0 syn.validatedRows), ?_, ?_, ?_, ?_, ?_⟩
  · rw [performSemanticAnalysis_eq H now self syn hvalid]
  · rw [performSemanticAnalysis_eq H now self syn hvalid]
  · intro hfresh k row hmem
    rw [hfresh] at hmem
    have hnodup := replay_nodup (acceptedEntries H now 0 syn.validatedRows) [] (by simp)
    have hl := lookup_of_mem_nodup _ k row hnodup hmem
    rw [lookup_replay] at hl
    cases hw : lastWins (acceptedEntries H now 0 syn.validatedRows) k with
    | none =>
      rw [hw] at hl
      simp [List.lookup] at hl
    | some w =>
      rw [hw] at hl
      simp only [Option.some.injEq] at hl
      subst hl
      have := (mem_acceptedEntries H now syn.validatedRows 0 k w).1 (lastWins_mem _ k w hw)
      simpa using this
  · intro k hk
    rw [mem_replay_keys]
    exact Or.inl hk
  · intro k hk
    rw [lookup_replay, (lastWins_eq_none_iff _ k).2 hk]

/-- Witness of C18: a second call on an instance that already holds the row
`A-1`; the key `A-1` stays. -/
theorem C18_symbol_table_of_instance_witness :
    (SyntacticResult.mk true [] [[("id", "B-2")]]).isValid = true
    ∧ ∃ table,
        ((Parser.mk [] [("A-1", [("id", "A-1")])]).performSemanticAnalysis refHost 0
          (SyntacticResult.mk true [] [[("id", "B-2")]])).1.symbolTable = some table
        ∧ "A-1" ∈ table.map Prod.fst :=
  ⟨rfl,
    match C18_symbol_table_of_instance refHost 0 (Parser.mk [] [("A-1", [("id", "A-1")])])
      (SyntacticResult.mk true [] [[("id", "B-2")]]) rfl with
    | ⟨table, htable, _, _, hkeys, _⟩ => ⟨table, htable, hkeys "A-1" (by decide)⟩⟩

/-- C19. Idempotence: for every record sequence and every moment `now`, the
stages run on a fresh instance return an analysis; a second run on another
fresh instance returns the same analysis, hence the same report; and a second
run on the instance that the first run left, whose symbol table is already
filled, returns again the same analysis and leaves the same instance: the
entries of the symbol table and their order are unchanged. -/
theorem C19_idempotence (H : Host) (now : Int) (csvData : List Row) :
    ∃ a parser,
      analyseOn H now (Parser.create csvData) = some (a, parser)
      ∧ analyse H now csvData = some a
      ∧ analyseOn H now parser = some (a, parser)
      ∧ a.semantic.symbolTable = some parser.symbolTable := by
  obtain ⟨report, hrep, hfirst⟩ := analyseOn_returns H now csvData []
  have hsem := performSemanticAnalysis_eq H now (Parser.mk csvData []) (syntacticOf csvData) rfl
  have hsem2 := performSemanticAnalysis_eq H now
    (Parser.mk csvData (replay [] (acceptedEntries H now 0 (syntacticOf csvData).validatedRows)))
    (syntacticOf csvData) rfl
  simp only [replay_replay] at hsem2
  have hpair : Parser.performSemanticAnalysis H now
      (Parser.mk csvData (replay [] (acceptedEntries H now 0 (syntacticOf csvData).validatedRows)))
      (syntacticOf csvData)
      = Parser.performSemanticAnalysis H now (Parser.mk csvData []) (syntacticOf csvData) := by
    rw [hsem2, hsem]
  obtain ⟨report', hrep', hsecond⟩ := analyseOn_returns H now csvData
    (replay [] (acceptedEntries H now 0 (syntacticOf csvData).validatedRows))
  rw [hpair] at hrep' hsecond
  rw [generateReport_csvData H csvData _ [], hrep] at hrep'
  cases hrep'
  have hparser : (Parser.performSemanticAnalysis H now (Parser.mk csvData [])
      (syntacticOf csvData)).2
      = Parser.mk csvData
          (replay [] (acceptedEntries H now 0 (syntacticOf csvData).validatedRows)) := by
    rw [hsem]
  refine ⟨_, _, hfirst, ?_, ?_, ?_⟩
  · exact (analyse_eq_analyseOn H now csvData).trans (congrArg (Option.map Prod.fst) hfirst)
  · rw [hparser]
    rw [hparser] at hsecond
    exact hsecond
  · rw [hsem]

/-- C12, evaluated on the code: the field name `constructor`, which is none of
the twelve recognized names, does not get the type `'UNKNOWN'`: the read
`FIELD_TO_TOKEN_MAP["constructor"]` reaches the member that every object
inherits from `Object.prototype`, and that member becomes the type of the
token.  The rest of the claim holds: the type of a token is a function of the
trimmed, lower-cased name; it is the name itself for the twelve recognized
names and `'UNKNOWN'` for every other name that names no member of
`Object.prototype`. -/
theorem C12_inherited_name_not_unknown (H : Host) :
    ((Parser.create [[("constructor", "x")]]).performLexicalAnalysis H).tokens
      = [Token.mk "constructor" (TokenType.inherited "constructor") "x" 1 1]
    ∧ "constructor" ∉ recognizedNames
    ∧ (∀ (rowIndex : Nat) (row : Row) (t : Token), t ∈ rowTokens H rowIndex row →
        t.type = tokenTypeOf (H.toLowerCase (jsTrim t.name)))
    ∧ (∀ n : String, n ∈ recognizedNames → tokenTypeOf n = TokenType.text n)
    ∧ (∀ n : String, n ∉ recognizedNames → objectPrototypeMembers.contains n = false →
        tokenTypeOf n = TokenType.text "UNKNOWN")
    ∧ (∀ n : String, objectPrototypeMembers.contains n = true →
        tokenTypeOf n = TokenType.inherited n) := by
  refine ⟨?_, by decide, ?_, tokenTypeOf_recognized, tokenTypeOf_other, tokenTypeOf_inherited⟩
  · have h : H.toLowerCase (jsTrim "constructor") = "constructor" :=
      toLowerCase_const H _ _ (by decide) (by decide)
    simp only [Parser.performLexicalAnalysis, Parser.create, lexicalRows, rowTokens,
      List.map_cons, List.map_nil, List.flatten_cons, List.flatten_nil, List.append_nil, h]
    decide
  · intro rowIndex row t ht
    unfold rowTokens at ht
    rw [List.mem_map] at ht
    obtain ⟨e, _, rfl⟩ := ht
    rfl

/-- Witness of C12: the recognized name `fecha` and the unknown name `color`
on the executable host. -/
theorem C12_inherited_name_not_unknown_witness :
    "fecha" ∈ recognizedNames
    ∧ tokenTypeOf "fecha" = TokenType.text "fecha"
    ∧ tokenTypeOf "color" = TokenType.text "UNKNOWN" :=
  ⟨by decide, (C12_inherited_name_not_unknown refHost).2.2.2.1 "fecha" (by decide),
    (C12_inherited_name_not_unknown refHost).2.2.2.2.1 "color" (by decide) (by decide)⟩

/-- C16, as stated, fails: with the empty record sequence as data, the function
`generateReport` of `App.jsx` passes its guard (an empty array is truthy), runs
the stages and leaves a report with status `"success"` and no error. -/
theorem C16_counterexample :
    ((App.generateReport refHost 0 (AppState.mk (some []) none false none)).report.map
        fun report => report.status) = some "success"
    ∧ (App.generateReport refHost 0 (AppState.mk (some []) none false none)).error = none := by
  decide

/-- C16, amended: when the data are absent, `generateReport` of `App.jsx`
returns at its guard, before any stage: it sets the error of the missing input
and leaves the report, the data and the loading flag as they were, whatever
the host and the moment.  The empty record sequence is not rejected: the stages
run and the report has status `"success"`. -/
theorem C16_absent_input_rejected (H : Host) (now : Int) (state : AppState) :
    (state.csvData = none →
      (App.generateReport H now state).error = some AppError.missingInput
      ∧ (App.generateReport H now state).report = state.report
      ∧ (App.generateReport H now state).csvData = none
      ∧ (App.generateReport H now state).isLoading = state.isLoading)
    ∧ (state.csvData = some [] →
      (App.generateReport H now state).error = none
      ∧ ∃ report, (App.generateReport H now state).report = some report
          ∧ report.status = "success") := by
  constructor
  · intro h
    unfold App.generateReport
    rw [h]
    exact ⟨rfl, rfl, rfl, rfl⟩
  · intro h
    obtain ⟨a, ha, hsyn, _, _, hvalid, _, hgood⟩ := analyse_returns H now []
    have hv : a.semantic.isValid = true := by
      rw [hvalid, hsyn]
      rfl
    have hres : App.generateReport H now state
        = AppState.mk state.csvData (some a.report) false none := by
      unfold App.generateReport
      rw [h]
      simp only [ha]
    rw [hres]
    exact ⟨rfl, a.report, rfl, (hgood hv).1⟩

/-- Witness of C16: the state of `App` before any file is loaded, and the
state with an empty record sequence. -/
theorem C16_absent_input_rejected_witness :
    (AppState.mk none none false none).csvData = none
    ∧ (App.generateReport refHost 0 (AppState.mk none none false none)).error
        = some AppError.missingInput
    ∧ (App.generateReport refHost 0 (AppState.mk none none false none)).report = none
    ∧ (App.generateReport refHost 0 (AppState.mk (some []) none false none)).error = none :=
  ⟨rfl,
    ((C16_absent_input_rejected refHost 0 (AppState.mk none none false none)).1 rfl).1,
    ((C16_absent_input_rejected refHost 0 (AppState.mk none none false none)).1 rfl).2.1,
    ((C16_absent_input_rejected refHost 0 (AppState.mk (some []) none false none)).2 rfl).1⟩

/-- C17, evaluated on the code: the field name ` Fecha ` is classified like
`fecha`, but the later stages read the fields by their exact lower-case names.
Before 2099, the record with `fecha: "2099-01-01"` is rejected by the semantic
analysis and its report has status `"error"`, while the same record with the
name written ` Fecha ` is accepted with status `"success"`.  And the record
with `id` and `victimas` gets its identifier as lookup key and adds 2 to the
total of casualties, while the same record with the names `ID` and `Victimas`
gets the key `accident-0` and adds 0. -/
theorem C17_name_variant_changes_verdict (H : Host) (now : Int) (hnow : now < january2099) :
    (((Parser.create [lowerDateRow]).performLexicalAnalysis H).tokens.map fun t => t.type)
      = [TokenType.text "fecha"]
    ∧ (((Parser.create [variantDateRow]).performLexicalAnalysis H).tokens.map fun t => t.type)
      = [TokenType.text "fecha"]
    ∧ (∃ a, analyse H now [lowerDateRow] = some a
        ∧ a.semantic.validRows = some [] ∧ a.report.status = "error")
    ∧ (∃ a, analyse H now [variantDateRow] = some a
        ∧ a.semantic.validRows = some [variantDateRow] ∧ a.report.status = "success")
    ∧ (∃ a d, analyse H now [lowerIdRow] = some a
        ∧ a.semantic.symbolTable = some [("ACC-2024-000001", lowerIdRow)]
        ∧ a.report.detailedData = some d ∧ d.totalCasualties = IntegralNumber.finite 2)
    ∧ (∃ a d, analyse H now [variantIdRow] = some a
        ∧ a.semantic.symbolTable = some [("accident-0", variantIdRow)]
        ∧ a.report.detailedData = some d
        ∧ d.totalCasualties = IntegralNumber.finite 0) := by
  refine ⟨?_, ?_, ?_, ?_, ?_, ?_⟩
  · have h : H.toLowerCase (jsTrim "fecha") = "fecha" :=
      toLowerCase_const H _ _ (by decide) (by decide)
    simp only [Parser.performLexicalAnalysis, Parser.create, lexicalRows, rowTokens,
      lowerDateRow, List.map_cons, List.map_nil, List.flatten_cons, List.flatten_nil,
      List.append_nil, h]
    decide
  · have h : H.toLowerCase (jsTrim " Fecha ") = "fecha" :=
      toLowerCase_const H _ _ (by decide) (by decide)
    simp only [Parser.performLexicalAnalysis, Parser.create, lexicalRows, rowTokens,
      variantDateRow, List.map_cons, List.map_nil, List.flatten_cons, List.flatten_nil,
      List.append_nil, h]
    decide
  · obtain ⟨a, ha, _, _, _, hbad⟩ := analyse_single H now lowerDateRow (by decide) (by decide)
    have hrowErrors : rowErrors H now 0 lowerDateRow
        = [ErrorEntry.coherence 1 "fecha" "La fecha no es válida o es en el futuro"
            "2099-01-01"] := by
      unfold rowErrors
      rw [checkField_flag lowerDateRow 0 "fecha" _ _ "2099-01-01" (by decide) (by decide)
          (validateDate_january2099 H now hnow),
        checkField_absent lowerDateRow 0 "hora" _ _ (by decide),
        checkField_absent lowerDateRow 0 "edad_conductor" _ _ (by decide),
        checkField_absent lowerDateRow 0 "gravedad" _ _ (by decide),
        checkField_absent lowerDateRow 0 "condicion_climatica" _ _ (by decide),
        checkField_absent lowerDateRow 0 "condicion_via" _ _ (by decide)]
      rfl
    obtain ⟨_, hrows, hstatus, _⟩ := hbad (by rw [hrowErrors]; simp)
    exact ⟨a, ha, hrows, hstatus⟩
  · obtain ⟨a, ha, hrows, _, hstatus, _⟩ := analyse_single_accepted H now variantDateRow
      (by decide) (by decide) (rowErrors_eq_nil_of_absent H now 0 variantDateRow (by decide))
    exact ⟨a, ha, hrows, hstatus⟩
  · obtain ⟨a, ha, _, htable, _, hdata⟩ := analyse_single_accepted H now lowerIdRow
      (by decide) (by decide) (rowErrors_eq_nil_of_absent H now 0 lowerIdRow (by decide))
    refine ⟨a, _, ha, ?_, hdata, ?_⟩
    · rw [htable]
      decide
    · dsimp only
      exact totalCasualties_of_sum [lowerIdRow] 2 (by decide) (by decide)
  · obtain ⟨a, ha, _, htable, _, hdata⟩ := analyse_single_accepted H now variantIdRow
      (by decide) (by decide) (rowErrors_eq_nil_of_absent H now 0 variantIdRow (by decide))
    refine ⟨a, _, ha, ?_, hdata, ?_⟩
    · rw [htable]
      decide
    · dsimp only
      exact totalCasualties_of_sum [variantIdRow] 0 (by decide) (by decide)

/-- Witness of the evaluation for C17, on the executable host in November
2023. -/
theorem C17_name_variant_changes_verdict_witness :
    (1700000000000 : Int) < january2099
    ∧ (∃ a, analyse refHost 1700000000000 [lowerDateRow] = some a
        ∧ a.report.status = "error")
    ∧ (∃ a, analyse refHost 1700000000000 [variantDateRow] = some a
        ∧ a.report.status = "success") :=
  ⟨by decide,
    match (C17_name_variant_changes_verdict refHost 1700000000000 (by decide)).2.2.1 with
    | ⟨a, ha, _, hstatus⟩ => ⟨a, ha, hstatus⟩,
    match (C17_name_variant_changes_verdict refHost 1700000000000 (by decide)).2.2.2.1 with
    | ⟨a, ha, _, hstatus⟩ => ⟨a, ha, hstatus⟩⟩

/-- C13. For every record sequence (the field names of a record are distinct,
as the keys of an object are), the lexical analysis returns the concatenation,
over the rows in input order, of one token per field in field order: the field
at position `k` of row `i`, both counted from 1, yields the token with its
name and value, `row = i` and `position = k`.  Hence the number of tokens is
the sum of the numbers of fields of the rows, and the tokens are in the order
of row, then position. -/
theorem C13_tokens_in_order (H : Host) (csvData : List Row)
    (hkeys : ∀ row ∈ csvData, (row.map Prod.fst).Nodup) :
    ((Parser.create csvData).performLexicalAnalysis H).tokens = specTokens H 1 csvData
    ∧ ((Parser.create csvData).performLexicalAnalysis H).tokens.length
        = (csvData.map List.length).sum
    ∧ ((Parser.create csvData).performLexicalAnalysis H).tokens.Pairwise tokenBefore := by
  have h : ((Parser.create csvData).performLexicalAnalysis H).tokens = specTokens H 1 csvData :=
    lexicalRows_eq_specTokens H csvData 0 hkeys
  rw [h]
  exact ⟨rfl, specTokens_length H 1 csvData, specTokens_pairwise H 1 csvData⟩

/-- Witness of C13: two records of two fields and one field. -/
theorem C13_tokens_in_order_witness :
    (∀ row ∈ [[("id", "A-1"), ("hora", "14:30")], [("gravedad", "leve")]],
      (List.map Prod.fst row).Nodup)
    ∧ ((Parser.create [[("id", "A-1"), ("hora", "14:30")],
          [("gravedad", "leve")]]).performLexicalAnalysis refHost).tokens
        = [Token.mk "id" (TokenType.text "id") "A-1" 1 1,
           Token.mk "hora" (TokenType.text "hora") "14:30" 1 2,
           Token.mk "gravedad" (TokenType.text "gravedad") "leve" 2 1] :=
  ⟨by decide,
    ((C13_tokens_in_order refHost [[("id", "A-1"), ("hora", "14:30")], [("gravedad", "leve")]]
      (by decide)).1).trans (by decide)⟩

/-- C15, as stated, fails: the record sequence that holds one record without
fields gets the status `"success"`, yet `'Accidentes validos'` is 0 and
`'Total de accidentes analizados'` is 1. -/
theorem C15_counterexample :
    ((analyse refHost 0 [[]]).map fun a =>
      (a.report.status, a.report.summary.lookup "Accidentes validos",
        a.report.summary.lookup "Total de accidentes analizados"))
      = some ("success", some (SummaryValue.number 0), some (SummaryValue.number 1)) := by
  decide

/-- C15, amended: for every record sequence the analysis returns a report
whose status is `"success"` or `"error"`.  It is `"success"` exactly when no
stage has an error, which is exactly when every examined row, that is every
input row with at least one field, is accepted.  Then `detailedData` is present
and `'Accidentes validos'` is the number of input rows with at least one field,
which is `'Total de accidentes analizados'` when every row has a field.  In
every other case the status is `"error"` and `detailedData` is absent. -/
theorem C15_report_status (H : Host) (now : Int) (csvData : List Row) :
    ∃ a, analyse H now csvData = some a
      ∧ (a.report.status = "success" ∨ a.report.status = "error")
      ∧ (a.report.status = "success" ↔ a.syntactic.errors = [] ∧ a.semantic.errors = [])
      ∧ (a.report.status = "success" ↔ ∀ row ∈ csvData, row ≠ [] → a.accepts row = true)
      ∧ (a.report.status = "success" →
          a.report.detailedData.isSome = true
          ∧ a.report.summary.lookup "Accidentes validos"
              = some (SummaryValue.number (csvData.filter (fun row => row ≠ [])).length)
          ∧ a.report.summary.lookup "Total de accidentes analizados"
              = some (SummaryValue.number csvData.length)
          ∧ ((∀ row ∈ csvData, row ≠ []) →
              a.report.summary.lookup "Accidentes validos"
                = a.report.summary.lookup "Total de accidentes analizados"))
      ∧ (a.report.status ≠ "success" →
          a.report.status = "error" ∧ a.report.detailedData = none) := by
  obtain ⟨a, ha, hsyn, herr, hrows, hgood, hbad⟩ := analyse_report H now csvData
  have hlen : (syntacticOf csvData).validatedRows.length
      = (csvData.filter (fun row => row ≠ [])).length := by
    simp [syntacticOf]
  have hnil_iff : loopErrors H now 0 (syntacticOf csvData).validatedRows = []
      ↔ ∀ row ∈ csvData, row ≠ [] → rowErrors H now 0 (validatedCopy row) = [] := by
    rw [loopErrors_eq_nil_iff]
    simp only [syntacticOf, List.mem_map, List.mem_filter, decide_eq_true_eq]
    constructor
    · intro h row hrow hne
      exact h (validatedCopy row) ⟨row, ⟨hrow, hne⟩, rfl⟩
    · rintro h r ⟨row, ⟨hrow, hne⟩, rfl⟩
      exact h row hrow hne
  have hacc : (∀ row ∈ csvData, row ≠ [] → a.accepts row = true)
      ↔ ∀ row ∈ csvData, row ≠ [] → rowErrors H now 0 (validatedCopy row) = [] := by
    constructor
    · intro h row hrow hne
      exact (accepts_iff_of_ne H now csvData a row hrow hne hrows).1 (h row hrow hne)
    · intro h row hrow hne
      exact (accepts_iff_of_ne H now csvData a row hrow hne hrows).2 (h row hrow hne)
  by_cases hnil : loopErrors H now 0 (syntacticOf csvData).validatedRows = []
  · obtain ⟨hstatus, hdata, hvalidos, htotal⟩ := hgood hnil
    refine ⟨a, ha, Or.inl hstatus, ?_, ?_, ?_, ?_⟩
    · exact ⟨fun _ => ⟨by rw [hsyn]; rfl, by rw [herr, hnil]⟩, fun _ => hstatus⟩
    · exact ⟨fun _ => hacc.2 (hnil_iff.1 hnil), fun _ => hstatus⟩
    · intro _
      refine ⟨hdata, by rw [hvalidos, hlen], htotal, ?_⟩
      intro hfields
      rw [hvalidos, htotal, hlen, List.filter_eq_self.2 (fun r hr => by simpa using hfields r hr)]
    · intro hne
      exact absurd hstatus hne
  · obtain ⟨hstatus, hdata⟩ := hbad hnil
    have hns : a.report.status ≠ "success" := by
      rw [hstatus]
      decide
    refine ⟨a, ha, Or.inr hstatus, ?_, ?_, ?_, ?_⟩
    · exact ⟨fun h => absurd h hns, fun h => absurd (herr ▸ h.2) hnil⟩
    · exact ⟨fun h => absurd h hns, fun h => absurd (hnil_iff.2 (hacc.1 h)) hnil⟩
    · intro h
      exact absurd h hns
    · intro _
      exact ⟨hstatus, hdata⟩

/-- Witness of C15: the record of Example 1 twice, on the executable host in
November 2023; both rows have fields and are accepted. -/
theorem C15_report_status_witness :
    (∀ row ∈ [exampleRow, exampleRow], row ≠ ([] : Row))
    ∧ ((analyse refHost 1700000000000 [exampleRow, exampleRow]).map fun a => a.report.status)
        = some "success"
    ∧ ∃ a, analyse refHost 1700000000000 [exampleRow, exampleRow] = some a
        ∧ a.report.summary.lookup "Accidentes validos"
            = a.report.summary.lookup "Total de accidentes analizados" :=
  ⟨by decide, by decide,
    match C15_report_status refHost 1700000000000 [exampleRow, exampleRow] with
    | ⟨a, ha, _, _, _, hsuccess, _⟩ =>
      ⟨a, ha, (hsuccess (by
        have h : ((analyse refHost 1700000000000 [exampleRow, exampleRow]).map
            fun a => a.report.status) = some "success" := by decide
        rw [ha] at h
        exact Option.some.inj h)).2.2.2 (by decide)⟩⟩

/-- C21. For every semantic result with `isValid` true and every list
`validRows`, the detailed data of the report have `alcoholInvolved` equal to
the number of records whose `alcohol_involucrado`, lower-cased, is one of `si`,
`true`, `1`, and `speedingInvolved` equal to the same count for
`exceso_velocidad`.  A record without the flag is not counted, nor one whose
flag lower-cases to `no`, `false` or `0`; one whose flag lower-cases to `si`,
`true` or `1` counts once. -/
theorem C21_flag_counts (H : Host) (self : Parser) (sem : SemanticResult)
    (validRows : List Row) (hvalid : sem.isValid = true)
    (hrows : sem.validRows = some validRows) :
    ∃ report d, self.generateReport H sem = some report
      ∧ report.detailedData = some d
      ∧ d.alcoholInvolved = flagCount H "alcohol_involucrado" validRows
      ∧ d.speedingInvolved = flagCount H "exceso_velocidad" validRows
      ∧ (∀ (row : Row) (field : String), getField row field = none →
          flagCount H field [row] = 0)
      ∧ (∀ (row : Row) (field value : String), getField row field = some value →
          H.toLowerCase value ∈ ["no", "false", "0"] → flagCount H field [row] = 0)
      ∧ (∀ (row : Row) (field value : String), getField row field = some value →
          H.toLowerCase value ∈ affirmativeValues → flagCount H field [row] = 1) := by
  obtain ⟨report, hrep, _, hdata⟩ := generateReport_valid H self sem validRows hvalid hrows
  refine ⟨report, _, hrep, hdata, ?_, ?_, ?_, ?_, ?_⟩
  · exact filter_flag_length H "alcohol_involucrado" validRows
  · exact filter_flag_length H "exceso_velocidad" validRows
  · intro row field hnone
    rw [flagCount_singleton, hnone]
  · intro row field value hsome hno
    have hnot : affirmativeValues.contains (H.toLowerCase value) = false := by
      simp only [List.mem_cons, List.mem_singleton, List.not_mem_nil, or_false] at hno
      rcases hno with h | h | h <;> rw [h] <;> decide
    rw [flagCount_singleton, hsome]
    simp only [hnot, Bool.false_eq_true, if_false]
  · intro row field value hsome hyes
    have hin : affirmativeValues.contains (H.toLowerCase value) = true := by
      simpa [List.contains] using hyes
    rw [flagCount_singleton, hsome]
    simp only [hin, if_true]

/-- Witness of C21: the record of Example 1, whose alcohol flag is `no` and
whose speeding flag is `si`, on the executable host. -/
theorem C21_flag_counts_witness :
    (SemanticResult.mk true [] none (some [exampleRow]) (some [])).isValid = true
    ∧ ∃ report d,
        (Parser.create [exampleRow]).generateReport refHost
            (SemanticResult.mk true [] none (some [exampleRow]) (some [])) = some report
        ∧ report.detailedData = some d
        ∧ d.alcoholInvolved = 0 ∧ d.speedingInvolved = 1 :=
  ⟨rfl,
    match C21_flag_counts refHost (Parser.create [exampleRow])
      (SemanticResult.mk true [] none (some [exampleRow]) (some [])) [exampleRow] rfl rfl with
    | ⟨report, d, hrep, hdata, halcohol, hspeed, _⟩ =>
      ⟨report, d, hrep, hdata, by rw [halcohol]; decide, by rw [hspeed]; decide⟩⟩

/-- C23. For every valid syntactic result, the `validRows` that the semantic
analysis returns are a subsequence of `validatedRows` in the same order, made of
the very rows of `validatedRows` (same field names and values): exactly those
without coherence error.  And `isValid` is true exactly when `validRows` is as
long as `validatedRows`. -/
theorem C23_validRows_subsequence (H : Host) (now : Int) (self : Parser)
    (syn : SyntacticResult) (hvalid : syn.isValid = true) :
    ∃ validRows, (self.performSemanticAnalysis H now syn).1.validRows = some validRows
      ∧ validRows.Sublist syn.validatedRows
      ∧ validRows = syn.validatedRows.filter (fun row => decide (rowErrors H now 0 row = []))
      ∧ (∀ row, row ∈ validRows ↔ row ∈ syn.validatedRows ∧ ∀ j, rowErrors H now j row = [])
      ∧ ((self.performSemanticAnalysis H now syn).1.isValid = true
          ↔ validRows.length = syn.validatedRows.length) := by
  have heq := performSemanticAnalysis_eq H now self syn hvalid
  have hfilter : syn.validatedRows.filter (fun row => decide ((rowErrors H now 0 row).length = 0))
      = syn.validatedRows.filter (fun row => decide (rowErrors H now 0 row = [])) := by
    apply List.filter_congr
    intro row _
    simp [List.length_eq_zero]
  refine ⟨_, by rw [heq], ?_, hfilter, ?_, ?_⟩
  · exact List.filter_sublist _
  · intro row
    rw [List.mem_filter]
    simp only [decide_eq_true_eq, List.length_eq_zero]
    constructor
    · rintro ⟨hmem, hnil⟩
      exact ⟨hmem, fun j => (rowErrors_eq_nil_index H now 0 j row).1 hnil⟩
    · rintro ⟨hmem, hnil⟩
      exact ⟨hmem, hnil 0⟩
  · rw [heq]
    simp only [decide_eq_true_eq, List.length_eq_zero]
    rw [loopErrors_eq_nil_iff, List.filter_length_eq_length]
    simp

/-- Witness of C23: a valid syntactic result with an accepted and a rejected
row, on the executable host. -/
theorem C23_validRows_subsequence_witness :
    (SyntacticResult.mk true [] [[("gravedad", "leve")], badSeverityRow]).isValid = true
    ∧ ((Parser.create []).performSemanticAnalysis refHost 0
        (SyntacticResult.mk true [] [[("gravedad", "leve")], badSeverityRow])).1.validRows
        = some [[("gravedad", "leve")]]
    ∧ ∃ validRows,
        ((Parser.create []).performSemanticAnalysis refHost 0
          (SyntacticResult.mk true [] [[("gravedad", "leve")], badSeverityRow])).1.validRows
          = some validRows
        ∧ validRows.Sublist [[("gravedad", "leve")], badSeverityRow] :=
  ⟨rfl, by decide,
    match C23_validRows_subsequence refHost 0 (Parser.create [])
      (SyntacticResult.mk true [] [[("gravedad", "leve")], badSeverityRow]) rfl with
    | ⟨validRows, hrows, hsub, _⟩ => ⟨validRows, hrows, hsub⟩⟩

/-- C24. The row number that a coherence error carries is 1 plus the index,
within `validatedRows`, of the row whose check produced it.  When every input
record has at least one field, that index is the position of the record in the
input, so the number of the error is the row number that the tokens of the
record carry.  Otherwise the two can differ: of the records `{}` and
`{gravedad: "catastrofico"}` the second has tokens with row number 2 and a
coherence error with row number 1. -/
theorem C24_error_row_number (H : Host) (now : Int) :
    (∀ (self : Parser) (syn : SyntacticResult) (e : ErrorEntry), syn.isValid = true →
      e ∈ (self.performSemanticAnalysis H now syn).1.errors →
      ∃ j row, syn.validatedRows[j]? = some row ∧ e ∈ rowErrors H now j row ∧ e.row = j + 1)
    ∧ (∀ csvData : List Row, (∀ row ∈ csvData, row ≠ []) →
        ∃ a, analyse H now csvData = some a
          ∧ ∀ e ∈ a.semantic.errors,
              ∃ j row, csvData[j]? = some row
                ∧ e ∈ rowErrors H now j (validatedCopy row)
                ∧ e.row = j + 1
                ∧ ∀ t ∈ rowTokens H j row, t ∈ a.lexical.tokens ∧ t.row = e.row)
    ∧ (∃ a, analyse H now [[], badSeverityRow] = some a
        ∧ a.semantic.errors
            = [ErrorEntry.coherence 1 "gravedad"
                "La gravedad debe ser: leve, moderado, grave o fatal" "catastrofico"]
        ∧ (a.lexical.tokens.map fun t => (t.name, t.row)) = [("gravedad", 2)]) := by
  refine ⟨?_, ?_, ?_⟩
  · intro self syn e hvalid he
    rw [(performSemanticAnalysis_valid H now self syn hvalid).1, mem_loopErrors] at he
    obtain ⟨j, row, hrow, hej⟩ := he
    rw [Nat.zero_add] at hej
    exact ⟨j, row, hrow, hej, rowErrors_row H now j row e hej⟩
  · intro csvData hfields
    obtain ⟨a, ha, hlex, hsyn, hsem, _⟩ := analyse_semantic H now csvData
    refine ⟨a, ha, ?_⟩
    intro e he
    have hrows : (syntacticOf csvData).validatedRows = csvData.map validatedCopy := by
      simp only [syntacticOf]
      rw [List.filter_eq_self.2 (fun r hr => by simpa using hfields r hr)]
    rw [hsem, (performSemanticAnalysis_valid H now _ (syntacticOf csvData) rfl).1, hrows,
      mem_loopErrors] at he
    obtain ⟨j, r, hj, hej⟩ := he
    rw [Nat.zero_add] at hej
    rw [List.getElem?_map] at hj
    cases hrow : csvData[j]? with
    | none =>
      rw [hrow] at hj
      simp at hj
    | some row =>
      rw [hrow] at hj
      simp only [Option.map_some', Option.some.injEq] at hj
      subst hj
      have hnum := rowErrors_row H now j (validatedCopy row) e hej
      refine ⟨j, row, hrow, hej, hnum, ?_⟩
      intro t ht
      rw [hlex, hnum]
      exact ⟨mem_tokens_of_row H csvData j row hrow t ht, rowTokens_row H j row t ht⟩
  · obtain ⟨a, ha, hlex, _, hsem, _⟩ := analyse_semantic H now [[], badSeverityRow]
    refine ⟨a, ha, ?_, ?_⟩
    · have hrows : (syntacticOf [[], badSeverityRow]).validatedRows = [badSeverityRow] := by
        decide
      rw [hsem, (performSemanticAnalysis_valid H now _ _ rfl).1, hrows]
      simp only [loopErrors, List.append_nil]
      exact rowErrors_badSeverityRow H now 0
    · rw [hlex]
      simp [Parser.performLexicalAnalysis, Parser.create, lexicalRows, rowTokens, badSeverityRow]

/-- Witness of C24: two records with fields on the executable host; the
second is rejected and its error carries the row number 2. -/
theorem C24_error_row_number_witness :
    (∀ row ∈ [[("gravedad", "leve")], badSeverityRow], row ≠ ([] : Row))
    ∧ ((analyse refHost 0 [[("gravedad", "leve")], badSeverityRow]).map fun a =>
        a.semantic.errors.map ErrorEntry.row) = some [2]
    ∧ ∃ a, analyse refHost 0 [[("gravedad", "leve")], badSeverityRow] = some a
        ∧ ∀ e ∈ a.semantic.errors,
            ∃ j row, [[("gravedad", "leve")], badSeverityRow][j]? = some row ∧ e.row = j + 1 :=
  ⟨by decide, by decide,
    match (C24_error_row_number refHost 0).2.1 [[("gravedad", "leve")], badSeverityRow]
      (by decide) with
    | ⟨a, ha, h⟩ =>
      ⟨a, ha, fun e he =>
        match h e he with
        | ⟨j, row, hrow, _, hnum, _⟩ => ⟨j, row, hrow, hnum⟩⟩⟩

/-- C22. For every record sequence, the syntactic analysis of the tokens of the
lexical analysis returns `isValid = true` with an empty list of errors.  No type
that the classification gives to a token is a key of `SYNTACTIC_RULES`, whose
keys are `ACCIDENT_ID`, `DATE`, `TIME`, `DRIVER_AGE`, `CASUALTIES`,
`ALCOHOL_INVOLVED`, `SPEEDING_INVOLVED`, so the rule of every token is
`undefined` and no pattern is tested.  And `validatedRows` holds, in order, the
validated copy of every record that has at least one field; the copy of a
record that is an object has its fields in the same order, but for a field
named `__proto__`, so it is the record itself when no field has that name. -/
theorem C22_format_stage_accepts_all (H : Host) (csvData : List Row) :
    (∃ syn,
      Parser.performSyntacticAnalysis ((Parser.create csvData).performLexicalAnalysis H)
        = some syn
      ∧ syn.isValid = true
      ∧ syn.errors = []
      ∧ syn.validatedRows = (csvData.filter (fun row => row ≠ [])).map validatedCopy)
    ∧ (∀ t ∈ ((Parser.create csvData).performLexicalAnalysis H).tokens,
        lookupRule t.type = RuleLookup.undefined)
    ∧ (∀ n t : String, tokenTypeOf n = TokenType.text t → t ∉ SYNTACTIC_RULES.map Prod.fst)
    ∧ SYNTACTIC_RULES.map Prod.fst
        = ["ACCIDENT_ID", "DATE", "TIME", "DRIVER_AGE", "CASUALTIES", "ALCOHOL_INVOLVED",
           "SPEEDING_INVOLVED"]
    ∧ (∀ row ∈ csvData, IsObject row →
        validatedCopy row = row.filter (fun e => decide (e.1 ≠ "__proto__")))
    ∧ ((∀ row ∈ csvData, IsObject row ∧ "__proto__" ∉ row.map Prod.fst) →
        (csvData.filter (fun row => row ≠ [])).map validatedCopy
          = csvData.filter (fun row => row ≠ [])) := by
  refine ⟨⟨_, performSyntacticAnalysis_lexical H csvData, rfl, rfl, rfl⟩, ?_,
    tokenTypeOf_not_rule_key, rfl, ?_, ?_⟩
  · intro t ht
    unfold Parser.performLexicalAnalysis at ht
    simp only [List.mem_flatten] at ht
    obtain ⟨ts, hts, htmem⟩ := ht
    have hall : ∀ (rows : List Row) (i : Nat), ts ∈ lexicalRows H i rows →
        ∃ j row, ts = rowTokens H j row := by
      intro rows
      induction rows with
      | nil =>
        intro i h
        simp [lexicalRows] at h
      | cons r rest ih =>
        intro i h
        unfold lexicalRows at h
        rcases List.mem_cons.1 h with h | h
        · exact ⟨i, r, h⟩
        · exact ih (i + 1) h
    obtain ⟨j, row, rfl⟩ := hall _ 0 hts
    exact rowTokens_lookupRule H j row t htmem
  · intro row _ hobj
    exact validatedCopy_object row hobj
  · intro hall
    rw [List.map_congr_left (g := id)]
    · simp
    · intro row hrow
      have hmem : row ∈ csvData := (List.mem_filter.1 hrow).1
      obtain ⟨hobj, hproto⟩ := hall row hmem
      rw [validatedCopy_object row hobj, List.filter_eq_self.2]
      · rfl
      · intro e he
        simp only [decide_eq_true_eq]
        intro hk
        exact hproto (List.mem_map.2 ⟨e, he, hk⟩)

/-- Witness of C22: the record of Example 3, whose identifier misses the
pattern, and a record without fields. -/
theorem C22_format_stage_accepts_all_witness :
    (∀ row ∈ [badIdRow, []], IsObject row ∧ "__proto__" ∉ row.map Prod.fst)
    ∧ Parser.performSyntacticAnalysis
        ((Parser.create [badIdRow, []]).performLexicalAnalysis refHost)
        = some (SyntacticResult.mk true [] [badIdRow]) :=
  ⟨by
      intro row hrow
      simp only [List.mem_cons, List.mem_singleton, List.not_mem_nil, or_false] at hrow
      rcases hrow with rfl | rfl
      · exact ⟨⟨by decide, by decide⟩, by decide⟩
      · exact ⟨⟨by decide, by decide⟩, by decide⟩,
    match (C22_format_stage_accepts_all refHost [badIdRow, []]).1 with
    | ⟨syn, hsyn, hvalid, herr, hrows⟩ => by
      rw [hsyn]
      cases syn
      simp only at hvalid herr hrows
      rw [hvalid, herr, hrows]
      have hcopy : List.map validatedCopy (List.filter (fun row => decide (row ≠ []))
          [badIdRow, []]) = [badIdRow] := by decide
      rw [hcopy]⟩

end Accidentes
